import Mathlib

/-!
Shallow embedding of the `event-bus` message-bus core (src/src/messageBusImpl.ts,
src/src/registry.ts, src/src/handlerRegistration.ts, src/src/lazyAsyncRegistration.ts)
together with the theorems settling the specification claims.

Modelling conventions:
* The mutable object graph is an explicit store: buses and registrations are
  addressed by their position in `Machine.buses` / `Machine.regs`.
* User-supplied callbacks are opaque: a handler is modelled by an id and a
  `throwing` flag; every invocation is appended to a ghost event trace.
* `queueMicrotask` is modelled by a global FIFO `scheduler` of bus ids whose
  drains are pending; `runAll` plays the host microtask loop.
* JavaScript exceptions become either `Except JsErr` (for API entry points,
  which throw before mutating) or a `Machine × Option JsErr` pair (for the
  dispatch path, where partial mutations survive the throw).
* Loops that are `while`-loops in the source take an explicit fuel argument;
  theorems always supply fuel exceeding the number of iterations performed.
-/

set_option linter.unusedVariables false

namespace EventBus

/-- Broadcasting direction of a topic (src/src/topic.ts, `BroadcastDirection`). -/
inductive BroadcastDirection where
  | children
  | parent
deriving DecidableEq, Repr

/-- A topic: identity-compared token with a broadcast direction
(src/src/topic.ts). Reference identity is modelled by the numeric id `tid`. -/
structure Topic where
  tid : Nat
  broadcastDirection : BroadcastDirection
deriving DecidableEq, Repr

/-- Modelled from the spec: the `errors.ts` module is not under `src/`.
Per spec §7 and the test snapshots, `error(msg, cause?)` throws an error whose
message is `msg` prefixed by the `[message-bus]` tag and whose `cause` is the
original error when given. A thrown JavaScript value is either a raw error
thrown by a user handler (identified by the handler id and payload) or such a
tagged library error (with or without a cause). -/
inductive JsErr where
  | raw (hid : Nat) (d : Nat)
  | tagged (msg : String)
  | taggedCause (msg : String) (cause : JsErr)
deriving DecidableEq, Repr

/-- Modelled from the spec: the `tag` helper of the missing `errors.ts`
prefixes a message with the library tag (visible in the test snapshots). -/
def tagMsg (msg : String) : String := "[message-bus] " ++ msg

/-- Modelled from the spec: the error thrown by `error(msg)` for a disposed
bus (`DisposedError` of spec §7; message from `MessageBusImpl.checkDisposed`). -/
def disposedError : JsErr := .tagged (tagMsg "the message bus is disposed")

/-- An opaque user handler callback: it records its invocation in the trace
and, when `throwing` is set, throws `JsErr.raw hid data` afterwards. -/
structure HandlerSpec where
  hid : Nat
  throwing : Bool
deriving DecidableEq, Repr

/-- The variant-specific part of a registration: a `HandlerRegistration`
wraps a callback; a `LazyAsyncRegistration` owns a data buffer, a queue of
outstanding waiters (by waiter id) and the `isRegistered` flag. -/
inductive RegKind where
  | handlerReg (h : HandlerSpec)
  | lazyReg (dataQueue : List Nat) (promiseQueue : List Nat) (isRegistered : Bool)
deriving DecidableEq, Repr

/-- Shared registration state (src/src/registry.ts `Registration`,
src/src/handlerRegistration.ts, src/src/lazyAsyncRegistration.ts). `owner` is
the bus whose registry the registration references. -/
structure RegState where
  owner : Nat
  topic : Topic
  priority : Int
  remaining : Int
  isDisposed : Bool
  kind : RegKind
deriving DecidableEq, Repr

/-- A queued delivery task: the closure pushed by `publishImpl`
(src/src/messageBusImpl.ts:148), capturing topic, data and the two flags. -/
structure Task where
  topic : Topic
  data : Nat
  broadcast : Bool
  listeners : Bool
deriving DecidableEq, Repr

/-- Ghost trace events observing the run: task enqueueing, listener and
handler invocations, `errorHandler` calls, and waiter settlement. -/
inductive Event where
  | enqueued (bus : Nat) (tid : Nat) (data : Nat)
  | listened (bus : Nat) (lid : Nat) (tid : Nat) (data : Nat) (registrationCount : Nat)
  | invoked (hid : Nat) (data : Nat)
  | errorHandled (bus : Nat) (e : JsErr)
  | resolvedWaiter (wid : Nat) (done : Bool) (value : Option Nat)
  | rejectedWaiter (wid : Nat) (e : JsErr)
deriving DecidableEq, Repr

/-- Per-bus state (fields of `MessageBusImpl`, src/src/messageBusImpl.ts:20-28).
The registry is the per-topic map of `SubscriptionRegistry`, keyed by topic id
in key-insertion order, each entry holding registration ids in insertion
order. -/
structure BusState where
  parent : Option Nat
  children : List Nat
  listeners : List Nat
  registry : List (Nat × List Nat)
  publishQueue : List Task
  publishing : Bool
  disposed : Bool
  safePublishing : Bool
deriving DecidableEq, Repr

/-- The whole-world state: the bus store, the registration store, the pending
microtask queue (bus ids whose drain is scheduled), the ghost trace, and a
fresh-waiter-id counter. -/
structure Machine where
  buses : List BusState
  regs : List RegState
  scheduler : List Nat
  trace : List Event
  nextWaiterId : Nat
deriving DecidableEq, Repr

def getBus (m : Machine) (b : Nat) : Option BusState := m.buses[b]?

def setBus (m : Machine) (b : Nat) (s : BusState) : Machine :=
  { m with buses := m.buses.set b s }

def updateBus (m : Machine) (b : Nat) (f : BusState → BusState) : Machine :=
  match getBus m b with
  | none => m
  | some s => setBus m b (f s)

def getReg (m : Machine) (r : Nat) : Option RegState := m.regs[r]?

def setReg (m : Machine) (r : Nat) (s : RegState) : Machine :=
  { m with regs := m.regs.set r s }

def emit (m : Machine) (e : Event) : Machine := { m with trace := m.trace ++ [e] }

/-- `SubscriptionRegistry.get` (src/src/registry.ts:19-21). -/
def registryGet (reg : List (Nat × List Nat)) (tid : Nat) : Option (List Nat) :=
  match reg with
  | [] => none
  | (k, rs) :: rest => if k = tid then some rs else registryGet rest tid

/-- `SubscriptionRegistry.set` (src/src/registry.ts:23-31): append the
registration to the topic's list, creating the entry on first use. -/
def registrySet (reg : List (Nat × List Nat)) (tid : Nat) (rid : Nat) :
    List (Nat × List Nat) :=
  match reg with
  | [] => [(tid, [rid])]
  | (k, rs) :: rest =>
    if k = tid then (k, rs ++ [rid]) :: rest else (k, rs) :: registrySet rest tid rid

/-- `SubscriptionRegistry.delete` (src/src/registry.ts:33-43): splice out the
first identity match, no-op when absent. -/
def registryDelete (reg : List (Nat × List Nat)) (tid : Nat) (rid : Nat) :
    List (Nat × List Nat) :=
  match reg with
  | [] => []
  | (k, rs) :: rest =>
    if k = tid then (k, rs.erase rid) :: rest else (k, rs) :: registryDelete rest tid rid

/-- Overwriting a topic's registration list: the effect of the in-place
`registrations.sort(...)` at src/src/messageBusImpl.ts:186 on the live array
held by the registry. -/
def registryReplace (reg : List (Nat × List Nat)) (tid : Nat) (rs : List Nat) :
    List (Nat × List Nat) :=
  match reg with
  | [] => []
  | (k, old) :: rest =>
    if k = tid then (k, rs) :: rest else (k, old) :: registryReplace rest tid rs

/-- `SubscriptionRegistry.values` (src/src/registry.ts:45-47): flattened
snapshot across all topics in key-insertion order. -/
def registryValues (reg : List (Nat × List Nat)) : List Nat :=
  (reg.map Prod.snd).flatten

/-- `Registration.dispose` — common body of `HandlerRegistration.dispose`
(src/src/handlerRegistration.ts:42-45) and `LazyAsyncRegistration.dispose`
(src/src/lazyAsyncRegistration.ts:43-46): set the flag and remove the
registration from the owning registry. It does not touch the waiter queue. -/
def regDispose (m : Machine) (rid : Nat) : Machine :=
  match getReg m rid with
  | none => m
  | some reg =>
    let m1 := setReg m rid { reg with isDisposed := true }
    updateBus m1 reg.owner fun bus =>
      { bus with registry := registryDelete bus.registry reg.topic.tid rid }

/-- `Registration.handler` — the delivery entry of both variants
(src/src/handlerRegistration.ts:29-40, src/src/lazyAsyncRegistration.ts:25-41):
when `remaining == 0` dispose and skip; otherwise decrement a non-negative
count, then run the wrapped callback (handler variant — which may throw) or
route the data to the oldest waiter, else buffer it (lazy variant). -/
def regHandlerStep (m : Machine) (rid : Nat) (d : Nat) : Machine × Option JsErr :=
  match getReg m rid with
  | none => (m, none)
  | some reg =>
    if reg.remaining = 0 then
      (regDispose m rid, none)
    else
      let reg1 := if reg.remaining > 0 then { reg with remaining := reg.remaining - 1 } else reg
      let m1 := setReg m rid reg1
      match reg1.kind with
      | .handlerReg h =>
        let m2 := emit m1 (.invoked h.hid d)
        (m2, if h.throwing then some (.raw h.hid d) else none)
      | .lazyReg dq pq isR =>
        match pq with
        | wid :: restW =>
          let m2 := setReg m1 rid { reg1 with kind := .lazyReg dq restW isR }
          (emit m2 (.resolvedWaiter wid false (some d)), none)
        | [] =>
          (setReg m1 rid { reg1 with kind := .lazyReg (dq ++ [d]) pq isR }, none)

/-- `MessageBusImpl.publishImpl` (src/src/messageBusImpl.ts:146-154): check
disposal, enqueue the delivery task, and schedule a deferred drain unless one
is already pending. A ghost `enqueued` event marks the queueing point. -/
def publishImpl (m : Machine) (b : Nat) (t : Topic) (d : Nat)
    (broadcast listeners : Bool) : Except JsErr Machine :=
  match getBus m b with
  | none => .ok m
  | some bus =>
    if bus.disposed then .error disposedError
    else
      let m1 := setBus m b
        { bus with publishQueue := bus.publishQueue ++ [⟨t, d, broadcast, listeners⟩] }
      let m2 := emit m1 (.enqueued b t.tid d)
      if bus.publishing then .ok m2
      else
        let m3 := updateBus m2 b fun s => { s with publishing := true }
        .ok { m3 with scheduler := m3.scheduler ++ [b] }

/-- The `children` arm of the broadcast `switch`
(src/src/messageBusImpl.ts:162-167): enqueue the task on every child in
order. An exception from a child's `publishImpl` aborts the loop (the failing
call itself mutates nothing, since its disposal check precedes mutation). -/
def broadcastChildren (m : Machine) (cs : List Nat) (t : Topic) (d : Nat) :
    Machine × Option JsErr :=
  match cs with
  | [] => (m, none)
  | c :: rest =>
    match publishImpl m c t d true false with
    | .ok m' => broadcastChildren m' rest t d
    | .error e => (m, some e)

def regPriority (m : Machine) (rid : Nat) : Int :=
  match getReg m rid with
  | none => 0
  | some reg => reg.priority

/-- Stable insertion step: the incoming element (earlier in subscription
order) goes before every element of equal priority already placed after it by
the recursion. -/
def insertByPriority (p : Nat → Int) (x : Nat) : List Nat → List Nat
  | [] => [x]
  | y :: ys => if p x ≤ p y then x :: y :: ys else y :: insertByPriority p x ys

/-- The effect of `registrations.sort((a, b) => a.priority - b.priority)`
(src/src/messageBusImpl.ts:186): a stable sort ascending by priority, as
required of `Array.prototype.sort`. -/
def sortByPriority (p : Nat → Int) : List Nat → List Nat
  | [] => []
  | x :: xs => insertByPriority p x (sortByPriority p xs)

/-- The `for (const registration of registrations)` loop
(src/src/messageBusImpl.ts:188-198) over the live registry array: the array
is re-read from the registry on every step (a registration disposing itself
splices that same array), the index advances by one per step, and a thrown
handler error is rethrown wrapped when `safePublishing` is false or routed to
the error handler otherwise. -/
def dispatchLoop (m : Machine) (b : Nat) (t : Topic) (d : Nat) (safe : Bool)
    (i : Nat) : Nat → Machine × Option JsErr
  | 0 => (m, none)
  | fuel + 1 =>
    match getBus m b with
    | none => (m, none)
    | some bus =>
      match ((registryGet bus.registry t.tid).getD [])[i]? with
      | none => (m, none)
      | some rid =>
        match regHandlerStep m rid d with
        | (m1, none) => dispatchLoop m1 b t d safe (i + 1) fuel
        | (m1, some e) =>
          if safe then
            dispatchLoop (emit m1 (.errorHandled b e)) b t d safe (i + 1) fuel
          else
            (m1, some (.taggedCause (tagMsg "unhandled error in message handler") e))

/-- `MessageBusImpl.publishMessage` (src/src/messageBusImpl.ts:156-200): the
body of one delivery task. Propagation to the declared direction only
enqueues on the target buses; then listeners fire with the current
registration count; then local registrations are stably sorted in place by
priority and invoked in order. -/
def publishMessage (m : Machine) (b : Nat) (tk : Task) : Machine × Option JsErr :=
  match getBus m b with
  | none => (m, none)
  | some bus =>
    let hop : Machine × Option JsErr :=
      if tk.broadcast then
        match tk.topic.broadcastDirection with
        | .children => broadcastChildren m bus.children tk.topic tk.data
        | .parent =>
          match bus.parent with
          | some p =>
            match publishImpl m p tk.topic tk.data false false with
            | .ok m' => (m', none)
            | .error e => (m, some e)
          | none => (m, none)
      else (m, none)
    match hop with
    | (m1, some e) => (m1, some e)
    | (m1, none) =>
      match getBus m1 b with
      | none => (m1, none)
      | some bus1 =>
        let registrations := registryGet bus1.registry tk.topic.tid
        let registrationCount := (registrations.getD []).length
        let m2 :=
          if tk.listeners then
            bus1.listeners.foldl
              (fun acc lid =>
                emit acc (.listened b lid tk.topic.tid tk.data registrationCount))
              m1
          else m1
        match registrations with
        | none => (m2, none)
        | some rs =>
          if registrationCount > 0 then
            let sorted := sortByPriority (regPriority m2) rs
            let m3 := updateBus m2 b fun s =>
              { s with registry := registryReplace s.registry tk.topic.tid sorted }
            dispatchLoop m3 b tk.topic tk.data bus1.safePublishing 0 sorted.length
          else (m2, none)

/-- The `while` loop of `MessageBusImpl.drainPublishQueue`
(src/src/messageBusImpl.ts:204-207): pop and execute tasks in FIFO order; an
escaping task error aborts the loop. -/
def drainLoop (m : Machine) (b : Nat) : Nat → Machine × Option JsErr
  | 0 => (m, none)
  | fuel + 1 =>
    match getBus m b with
    | none => (m, none)
    | some bus =>
      match bus.publishQueue with
      | [] => (m, none)
      | tk :: rest =>
        let m1 := setBus m b { bus with publishQueue := rest }
        match publishMessage m1 b tk with
        | (m2, some e) => (m2, some e)
        | (m2, none) => drainLoop m2 b fuel

/-- `MessageBusImpl.drainPublishQueue` (src/src/messageBusImpl.ts:202-211):
skip the loop when the bus is disposed; clear the publishing flag afterwards —
unless a task threw, in which case the exception skips the clearing line. -/
def drainRun (m : Machine) (b : Nat) (fuel : Nat) : Machine × Option JsErr :=
  match getBus m b with
  | none => (m, none)
  | some bus =>
    if bus.disposed then
      (updateBus m b fun s => { s with publishing := false }, none)
    else
      match drainLoop m b fuel with
      | (m1, some e) => (m1, some e)
      | (m1, none) => (updateBus m1 b fun s => { s with publishing := false }, none)

/-- The host microtask loop: run scheduled drains in FIFO order, collecting
errors that escape a drain (a microtask exception does not cancel the
remaining microtasks). -/
def runAll (m : Machine) : Nat → Machine × List JsErr
  | 0 => (m, [])
  | fuel + 1 =>
    match m.scheduler with
    | [] => (m, [])
    | b :: rest =>
      let m1 := { m with scheduler := rest }
      match drainRun m1 b fuel with
      | (m2, err?) =>
        match runAll m2 fuel with
        | (m3, errs) => (m3, err?.toList ++ errs)

/-- `MessageBusImpl.publish` (src/src/messageBusImpl.ts:63-65). -/
def publish (m : Machine) (b : Nat) (t : Topic) (d : Nat) : Except JsErr Machine :=
  publishImpl m b t d true true

/-- The `defaultPriority` constant (src/src/registry.ts:5). -/
def defaultPriority : Int := 1

/-- Modelled from the spec: the `defaultLimit` constant imported by
`messageBusImpl.ts` is missing from the registry file under `src/`; spec §3
fixes the unlimited sentinel to −1. -/
def defaultLimit : Int := -1

/-- `MessageBusImpl.subscribeImpl` (src/src/messageBusImpl.ts:82-98): with a
handler, build a `HandlerRegistration` and store it in the registry at once;
with no handler, build a `LazyAsyncRegistration` without touching the
registry. Returns the new registration's id. -/
def subscribeImpl (m : Machine) (b : Nat) (t : Topic) (handler : Option HandlerSpec)
    (limit : Int) (priority : Int) : Except JsErr (Machine × Nat) :=
  match getBus m b with
  | none => .ok (m, m.regs.length)
  | some bus =>
    if bus.disposed then .error disposedError
    else
      let rid := m.regs.length
      match handler with
      | some h =>
        let reg : RegState :=
          { owner := b, topic := t, priority := priority, remaining := limit,
            isDisposed := false, kind := .handlerReg h }
        let m1 : Machine := { m with regs := m.regs ++ [reg] }
        let m2 := updateBus m1 b fun s =>
          { s with registry := registrySet s.registry t.tid rid }
        .ok (m2, rid)
      | none =>
        let reg : RegState :=
          { owner := b, topic := t, priority := priority, remaining := limit,
            isDisposed := false, kind := .lazyReg [] [] false }
        .ok ({ m with regs := m.regs ++ [reg] }, rid)

/-- `MessageBusImpl.subscribe` with a handler (src/src/messageBusImpl.ts:69-71). -/
def subscribeHandler (m : Machine) (b : Nat) (t : Topic) (h : HandlerSpec) :
    Except JsErr (Machine × Nat) :=
  subscribeImpl m b t (some h) defaultLimit defaultPriority

/-- `MessageBusImpl.subscribe` without a handler (src/src/messageBusImpl.ts:69-71). -/
def subscribeLazy (m : Machine) (b : Nat) (t : Topic) : Except JsErr (Machine × Nat) :=
  subscribeImpl m b t none defaultLimit defaultPriority

/-- `MessageBusImpl.subscribeOnce` with a handler
(src/src/messageBusImpl.ts:73-80): a limit-1 subscription. -/
def subscribeOnceHandler (m : Machine) (b : Nat) (t : Topic) (h : HandlerSpec) :
    Except JsErr (Machine × Nat) :=
  subscribeImpl m b t (some h) 1 defaultPriority

/-- Result of the synchronous part of `LazyAsyncRegistration.next`. -/
inductive NextResult where
  | value (d : Nat)
  | finished
  | waiting (wid : Nat)
deriving DecidableEq, Repr

/-- `LazyAsyncRegistration.next` (src/src/lazyAsyncRegistration.ts:53-70):
drain the buffer first; a disposed registration yields a finished result;
otherwise register with the registry on first use and enqueue a fresh
waiter. -/
def lazyNext (m : Machine) (rid : Nat) : Machine × NextResult :=
  match getReg m rid with
  | none => (m, .finished)
  | some reg =>
    match reg.kind with
    | .handlerReg _ => (m, .finished)
    | .lazyReg dq pq isR =>
      match dq with
      | d :: restD => (setReg m rid { reg with kind := .lazyReg restD pq isR }, .value d)
      | [] =>
        if reg.isDisposed then (m, .finished)
        else
          let m1 :=
            if isR then m
            else
              updateBus m reg.owner fun s =>
                { s with registry := registrySet s.registry reg.topic.tid rid }
          let wid := m1.nextWaiterId
          let m2 := setReg m1 rid { reg with kind := .lazyReg [] (pq ++ [wid]) true }
          ({ m2 with nextWaiterId := wid + 1 }, .waiting wid)

/-- Result of `LazyAsyncRegistration.single`. -/
inductive SingleResult where
  | got (d : Nat)
  | failed (e : JsErr)
  | pending (wid : Nat)
deriving DecidableEq, Repr

/-- `LazyAsyncRegistration.single` (src/src/lazyAsyncRegistration.ts:48-51):
await `next`; a finished result becomes a thrown subscription-disposed
error. -/
def lazySingle (m : Machine) (rid : Nat) : Machine × SingleResult :=
  match lazyNext m rid with
  | (m1, .value d) => (m1, .got d)
  | (m1, .finished) => (m1, .failed (.tagged (tagMsg "the subscription is disposed")))
  | (m1, .waiting wid) => (m1, .pending wid)

/-- `LazyAsyncRegistration.return` (src/src/lazyAsyncRegistration.ts:73-83):
dispose, then resolve every pending waiter with a done result. -/
def lazyReturn (m : Machine) (rid : Nat) : Machine :=
  let m1 := regDispose m rid
  match getReg m1 rid with
  | none => m1
  | some reg =>
    match reg.kind with
    | .lazyReg dq pq isR =>
      let m2 := pq.foldl (fun acc wid => emit acc (.resolvedWaiter wid true none)) m1
      setReg m2 rid { reg with kind := .lazyReg dq [] isR }
    | .handlerReg _ => m1

/-- `LazyAsyncRegistration.throw` (src/src/lazyAsyncRegistration.ts:85-94):
dispose, reject every pending waiter with the given error, and rethrow it. -/
def lazyThrow (m : Machine) (rid : Nat) (e : JsErr) : Machine × JsErr :=
  let m1 := regDispose m rid
  match getReg m1 rid with
  | none => (m1, e)
  | some reg =>
    match reg.kind with
    | .lazyReg dq pq isR =>
      let m2 := pq.foldl (fun acc wid => emit acc (.rejectedWaiter wid e)) m1
      (setReg m2 rid { reg with kind := .lazyReg dq [] isR }, e)
    | .handlerReg _ => (m1, e)

/-- `MessageBusImpl.dispose` (src/src/messageBusImpl.ts:121-144): guard on the
flag, detach from the parent, dispose every registration reachable from the
registry snapshot, recursively dispose children, then clear children,
registry and listeners. Fuel bounds the recursion depth. -/
def busDispose : Nat → Machine → Nat → Machine
  | 0, m, _ => m
  | fuel + 1, m, b =>
    match getBus m b with
    | none => m
    | some bus =>
      if bus.disposed then m
      else
        let m1 := setBus m b { bus with disposed := true }
        let m2 :=
          match bus.parent with
          | some p => updateBus m1 p fun s => { s with children := s.children.erase b }
          | none => m1
        let m3 := (registryValues bus.registry).foldl (fun acc rid => regDispose acc rid) m2
        let m4 := bus.children.foldl (fun acc c => busDispose fuel acc c) m3
        updateBus m4 b fun s => { s with children := [], registry := [], listeners := [] }

/-- `MessageBusImpl.createChildBus` (src/src/messageBusImpl.ts:50-61): check
disposal, optionally copy the current listener set by value, inherit options
unless overridden, and link the child into the parent's child set. -/
def createChildBus (m : Machine) (b : Nat) (copyListeners : Bool)
    (safeOverride : Option Bool) : Except JsErr (Machine × Nat) :=
  match getBus m b with
  | none => .ok (m, m.buses.length)
  | some bus =>
    if bus.disposed then .error disposedError
    else
      let cid := m.buses.length
      let child : BusState :=
        { parent := some b, children := [],
          listeners := if copyListeners then bus.listeners else [],
          registry := [], publishQueue := [], publishing := false, disposed := false,
          safePublishing := safeOverride.getD bus.safePublishing }
      let m1 : Machine := { m with buses := m.buses ++ [child] }
      .ok (updateBus m1 b fun s => { s with children := s.children ++ [cid] }, cid)

/-- `MessageBusImpl.addListener` (src/src/messageBusImpl.ts:111-114); the
listener set keeps insertion order and ignores duplicates. -/
def addListener (m : Machine) (b : Nat) (lid : Nat) : Except JsErr Machine :=
  match getBus m b with
  | none => .ok m
  | some bus =>
    if bus.disposed then .error disposedError
    else if lid ∈ bus.listeners then .ok m
    else .ok (setBus m b { bus with listeners := bus.listeners ++ [lid] })

/-- A fresh root bus (`createMessageBus`, src/src/messageBus.ts:227-229). -/
def rootBus (safePublishing : Bool) : BusState :=
  { parent := none, children := [], listeners := [], registry := [],
    publishQueue := [], publishing := false, disposed := false,
    safePublishing := safePublishing }

/-- A machine holding a single fresh root bus (bus id 0). -/
def initMachine (safePublishing : Bool) : Machine :=
  { buses := [rootBus safePublishing], regs := [], scheduler := [], trace := [],
    nextWaiterId := 0 }

/-! ### Scenario builders and trace observations -/

/-- A `children`-direction topic used by the scenarios. -/
def topicC : Topic := ⟨0, .children⟩

/-- A `parent`-direction topic used by the scenarios. -/
def topicP : Topic := ⟨1, .parent⟩

/-- Unwrap an API result; the fallback is never reached in the scenarios,
which only call the API on non-disposed buses. -/
def unwrapM (r : Except JsErr Machine) (fallback : Machine) : Machine :=
  match r with
  | .ok m => m
  | .error _ => fallback

/-- Unwrap a subscription result, as `unwrapM`. -/
def unwrapS (r : Except JsErr (Machine × Nat)) (fallback : Machine) : Machine :=
  match r with
  | .ok p => p.1
  | .error _ => fallback

/-- Subscribe a list of recorder handlers on bus 0; each entry gives the
handler's `throwing` flag and its priority, and the handler id equals the
registration id. -/
def addRecorders (t : Topic) : Machine → List (Bool × Int) → Machine
  | m, [] => m
  | m, (thr, pr) :: rest =>
    addRecorders t (unwrapS (subscribeImpl m 0 t (some ⟨m.regs.length, thr⟩) defaultLimit pr) m) rest

/-- A root bus populated with recorder handlers on `topicC`. -/
def mkBus (safe : Bool) (specs : List (Bool × Int)) : Machine :=
  addRecorders topicC (initMachine safe) specs

/-- Issue a sequence of synchronous `publish` calls on one bus. -/
def publishAll (m : Machine) (b : Nat) (t : Topic) : List Nat → Machine
  | [] => m
  | d :: ds => publishAll (unwrapM (publish m b t d) m) b t ds

/-- Handler ids of the `invoked` events of a trace, in order. -/
def invokedIds (tr : List Event) : List Nat :=
  tr.filterMap fun e =>
    match e with
    | .invoked h _ => some h
    | _ => none

/-- The data values observed by one handler id, in trace order. -/
def observedData (tr : List Event) (hid : Nat) : List Nat :=
  tr.filterMap fun e =>
    match e with
    | .invoked h d => if h = hid then some d else none
    | _ => none

def childrenOf (m : Machine) (b : Nat) : List Nat :=
  match getBus m b with
  | some bus => bus.children
  | none => []

def listenersOf (m : Machine) (b : Nat) : List Nat :=
  match getBus m b with
  | some bus => bus.listeners
  | none => []

/-- The registration ids currently registered on bus `b` for topic id `tid`. -/
def regIdsOf (m : Machine) (b : Nat) (tid : Nat) : List Nat :=
  match getBus m b with
  | some bus => (registryGet bus.registry tid).getD []
  | none => []

/-! ### Lazy-registration operation sequences -/

/-- The operations that touch a lazy registration's buffer and waiter queue:
data arrival from dispatch, a consumer pull, iterator termination (`return`,
`throw`), and disposal. -/
inductive LazyOp where
  | arrive (d : Nat)
  | pull
  | finish
  | fail (e : JsErr)
  | disposeOp
deriving DecidableEq, Repr

def lazyStep (m : Machine) (rid : Nat) : LazyOp → Machine
  | .arrive d => (regHandlerStep m rid d).1
  | .pull => (lazyNext m rid).1
  | .finish => lazyReturn m rid
  | .fail e => (lazyThrow m rid e).1
  | .disposeOp => regDispose m rid

def lazyRun (m : Machine) (rid : Nat) : List LazyOp → Machine
  | [] => m
  | op :: ops => lazyRun (lazyStep m rid op) rid ops

/-- The buffer and waiter queue of a lazy registration, when `rid` is one. -/
def lazyQueues (m : Machine) (rid : Nat) : Option (List Nat × List Nat) :=
  match getReg m rid with
  | some reg =>
    match reg.kind with
    | .lazyReg dq pq _ => some (dq, pq)
    | .handlerReg _ => none
  | none => none

/-- The lazy-registration invariant of the claims: at most one of the data
buffer and the waiter queue is non-empty. -/
def lazyInv (m : Machine) (rid : Nat) : Prop :=
  match lazyQueues m rid with
  | some (dq, pq) => dq = [] ∨ pq = []
  | none => True

/-! ### Concrete scenario machines -/

/-- Root bus 0 with one child bus 1 and a recorder handler on each
(handler ids 0 and 1), after `publish(topicC, 7)` on the root. -/
def mC1 : Machine :=
  let m := initMachine false
  let m := unwrapS (createChildBus m 0 true none) m
  let m := unwrapS (subscribeHandler m 0 topicC ⟨0, false⟩) m
  let m := unwrapS (subscribeHandler m 1 topicC ⟨1, false⟩) m
  unwrapM (publish m 0 topicC 7) m

/-- The C1 scenario after the microtask loop has run to quiescence. -/
def mC1run : Machine := (runAll mC1 10).1

/-- Unsafe bus with a throwing handler (id 0) followed by a recorder (id 1). -/
def mC2 : Machine := mkBus false [(true, defaultPriority), (false, defaultPriority)]

/-- The publish call of the C2 scenario. -/
def mC2pub : Except JsErr Machine := publish mC2 0 topicC 5

/-- Root bus 0 with child bus 1, a handler registration on each, and an
unpulled lazy subscription (registration id 2) created on the root. -/
def mC5 : Machine :=
  let m := initMachine false
  let m := unwrapS (createChildBus m 0 true none) m
  let m := unwrapS (subscribeHandler m 0 topicC ⟨0, false⟩) m
  let m := unwrapS (subscribeHandler m 1 topicC ⟨1, false⟩) m
  unwrapS (subscribeLazy m 0 topicC) m

/-- The C5 scenario after disposing the root bus. -/
def mC5d : Machine := busDispose 5 mC5 0

/-- A lazy subscription (registration id 0) with one outstanding waiter
(waiter id 0) produced by a first pull. -/
def mC6 : Machine :=
  let m := initMachine false
  let m := unwrapS (subscribeLazy m 0 topicC) m
  (lazyNext m 0).1

/-- The C6 scenario after an external `dispose()` call. -/
def mC6d : Machine := regDispose mC6 0

/-- A limit-1 handler subscription (registration id 0) after one publish and
its drain. -/
def mC7 : Machine :=
  let m := initMachine false
  let m := unwrapS (subscribeOnceHandler m 0 topicC ⟨0, false⟩) m
  (runAll (unwrapM (publish m 0 topicC 1) m) 10).1

/-- A lazy subscription (registration id 0) disposed before any pull. -/
def mC8 : Machine :=
  regDispose (unwrapS (subscribeLazy (initMachine false) 0 topicC) (initMachine false)) 0

/-- The first pull of the C8 scenario, issued after disposal. -/
def mC8n : Machine × NextResult := lazyNext mC8 0

/-- The registration state of the C6 scenario's lazy registration. -/
def mC6reg : RegState :=
  { owner := 0, topic := topicC, priority := defaultPriority, remaining := defaultLimit,
    isDisposed := false, kind := .lazyReg [] [0] true }

/-- A limit-1 subscription after publishing `d1` and draining. -/
def mC7a (d1 : Nat) : Machine :=
  let m := initMachine false
  let m := unwrapS (subscribeOnceHandler m 0 topicC ⟨0, false⟩) m
  (runAll (unwrapM (publish m 0 topicC d1) m) 10).1

/-- The C7 machine after a second publish of `d2` and its drain. -/
def mC7b (d1 d2 : Nat) : Machine :=
  (runAll (unwrapM (publish (mC7a d1) 0 topicC d2) (mC7a d1)) 10).1

/-- The fresh registration built by `subscribeImpl` when no handler is given. -/
def freshLazyReg (b : Nat) (t : Topic) (limit priority : Int) : RegState :=
  { owner := b, topic := t, priority := priority, remaining := limit,
    isDisposed := false, kind := .lazyReg [] [] false }

/-- The machine state right after `subscribeImpl` with no handler: only the
registration store grows; no bus is touched. -/
def lazySubscribed (m : Machine) (b : Nat) (t : Topic) (limit priority : Int) : Machine :=
  { m with regs := m.regs ++ [freshLazyReg b t limit priority] }

/-- A fresh lazy subscription (registration id 0) on topic `topicC`. -/
def mC9base : Machine := unwrapS (subscribeLazy (initMachine false) 0 topicC) (initMachine false)

/-- The C7 machine before any publish: one limit-1 handler registration. -/
def mC7pre : Machine :=
  unwrapS (subscribeOnceHandler (initMachine false) 0 topicC ⟨0, false⟩) (initMachine false)

/-- The registration state of the C7 scenario before any publish. -/
def mC7reg : RegState :=
  { owner := 0, topic := topicC, priority := defaultPriority, remaining := 1,
    isDisposed := false, kind := .handlerReg ⟨0, false⟩ }

/-- The handler id wrapped by a handler registration (0 otherwise). -/
def hidOf (m : Machine) (rid : Nat) : Nat :=
  match getReg m rid with
  | some reg =>
    match reg.kind with
    | .handlerReg h => h.hid
    | .lazyReg _ _ _ => 0
  | none => 0

/-- Whether the handler registration's callback throws (false otherwise). -/
def thrOf (m : Machine) (rid : Nat) : Bool :=
  match getReg m rid with
  | some reg =>
    match reg.kind with
    | .handlerReg h => h.throwing
    | .lazyReg _ _ _ => false
  | none => false

/-- The registration `rid` is an unlimited handler registration on topic `t`. -/
def recorderAt (m : Machine) (t : Topic) (rid : Nat) : Prop :=
  match getReg m rid with
  | some reg =>
    reg.topic = t ∧ reg.remaining = -1 ∧
      reg.kind = .handlerReg ⟨hidOf m rid, thrOf m rid⟩
  | none => False

/-- The trace block of a safe-publishing dispatch: every handler is invoked
in order, each throwing handler followed by an `errorHandler` call. -/
def safeBlock (m : Machine) (b : Nat) (d : Nat) : List Nat → List Event
  | [] => []
  | rid :: rest =>
    if thrOf m rid then
      .invoked (hidOf m rid) d :: .errorHandled b (.raw (hidOf m rid) d) ::
        safeBlock m b d rest
    else .invoked (hidOf m rid) d :: safeBlock m b d rest

/-- The trace block of an unsafe dispatch: invocations up to and including
the first throwing handler. -/
def unsafeBlock (m : Machine) (d : Nat) : List Nat → List Event
  | [] => []
  | rid :: rest =>
    .invoked (hidOf m rid) d :: (if thrOf m rid then [] else unsafeBlock m d rest)

/-- The error escaping an unsafe dispatch: the first throwing handler's error
wrapped as the cause of the fatal dispatch error. -/
def unsafeErr (m : Machine) (d : Nat) : List Nat → Option JsErr
  | [] => none
  | rid :: rest =>
    if thrOf m rid then
      some (.taggedCause (tagMsg "unhandled error in message handler")
        (.raw (hidOf m rid) d))
    else unsafeErr m d rest

/-- The expected trace of draining several queued messages through the same
registration list: one block of invocations per message, in message order. -/
def invokeBlocks (m : Machine) (rs : List Nat) : List Nat → List Event
  | [] => []
  | d :: ds => rs.map (fun rid => Event.invoked (hidOf m rid) d) ++ invokeBlocks m rs ds

/-- The owning bus after the first pull: the lazy registration has been
appended to the topic's registry list. -/
def firstPullBus (bus : BusState) (t : Topic) (rid : Nat) : BusState :=
  { bus with registry := registrySet bus.registry t.tid rid }

/-- The lazy registration after the first pull: registered, with one waiter. -/
def firstPullReg (b : Nat) (t : Topic) (limit priority : Int) (wid : Nat) : RegState :=
  { freshLazyReg b t limit priority with kind := .lazyReg [] [wid] true }

/-- The machine after a lazy subscription's first pull. -/
def firstPullMachine (m : Machine) (b : Nat) (bus : BusState) (t : Topic)
    (limit priority : Int) : Machine :=
  { setReg
      (setBus (lazySubscribed m b t limit priority) b (firstPullBus bus t m.regs.length))
      m.regs.length (firstPullReg b t limit priority m.nextWaiterId) with
    nextWaiterId := m.nextWaiterId + 1 }

/-- The single-recorder bus machine of the FIFO-ordering witness scenario. -/
def mW3 : Machine := mkBus false [(false, 1)]

/-- The root bus state of `mW3`. -/
def busW3 : BusState :=
  { parent := none, children := [], listeners := [],
    registry := [(topicC.tid, [0])], publishQueue := [], publishing := false,
    disposed := false, safePublishing := false }

/-- The single-throwing-recorder unsafe bus machine of the wedged-drain
witness scenario. -/
def mW10 : Machine := mkBus false [(true, 1)]

/-- The root bus state of `mW10`. -/
def busW10 : BusState :=
  { parent := none, children := [], listeners := [],
    registry := [(topicC.tid, [0])], publishQueue := [], publishing := false,
    disposed := false, safePublishing := false }

/-- The error escaping `mW10`'s drain of a task with data 5. -/
def eW10 : JsErr :=
  .taggedCause (tagMsg "unhandled error in message handler") (.raw 0 5)

/-- The wedged machine left behind by `mW10`'s failed drain. -/
def MW10 : Machine :=
  { setBus mW10 0 { busW10 with publishing := true } with
    trace := mW10.trace ++ [Event.enqueued 0 topicC.tid 5] ++ unsafeBlock mW10 5 [0] }

/-- The machine right after `publish mW10 0 topicC 5` returns. -/
def M1W2 : Machine :=
  { setBus mW10 0 { busW10 with
      publishQueue := [⟨topicC, 5, true, true⟩], publishing := true } with
    trace := mW10.trace ++ [Event.enqueued 0 topicC.tid 5], scheduler := [0] }

/-- The machine after `mW10`'s drain aborts on the throwing handler. -/
def MuW2 : Machine :=
  { setBus mW10 0 { busW10 with publishing := true } with
    trace := mW10.trace ++ [Event.enqueued 0 topicC.tid 5] ++
      (([] : List Nat) ++ [0]).map (fun rid => Event.invoked (hidOf mW10 rid) 5) }

/-- The three-recorder safe bus of the priority-ordering witness scenario:
handlers 0, 1, 2 subscribed in that order with priorities 2, 1, 0. -/
def mW4 : Machine := mkBus true [(false, 2), (false, 1), (false, 0)]

/-- The root bus state of `mW4`. -/
def busW4 : BusState :=
  { parent := none, children := [], listeners := [],
    registry := [(topicC.tid, [0, 1, 2])], publishQueue := [], publishing := false,
    disposed := false, safePublishing := true }

/-- The machine a safe-publishing drain of the same task would produce. -/
def MsW2 : Machine :=
  { mW10 with
    trace := mW10.trace ++ [Event.enqueued 0 topicC.tid 5] ++
      (([] : List Nat).map (fun rid => Event.invoked (hidOf mW10 rid) 5) ++
        Event.invoked (hidOf mW10 0) 5 ::
        Event.errorHandled 0 (JsErr.raw (hidOf mW10 0) 5) ::
        ([] : List Nat).map (fun rid => Event.invoked (hidOf mW10 rid) 5)) }

/-! ### Bus-tree scenario family

A family of machines holding `n` buses linked into a tree by `par`/`cs`
(parent and children pointers), each bus `v` carrying one unlimited
non-throwing recorder handler with handler id `v` on `topicC` (registration
id `v`). `pending` lists the buses whose drain is scheduled: each of them
holds exactly its one queued broadcast task. -/

/-- The state of bus `v` in the tree family. -/
def treeBus (par : Nat → Option Nat) (cs : Nat → List Nat) (d : Nat)
    (pending : List Nat) (v : Nat) : BusState :=
  { parent := par v, children := cs v, listeners := [],
    registry := [(topicC.tid, [v])],
    publishQueue := if pending.contains v then [⟨topicC, d, true, v == 0⟩] else [],
    publishing := pending.contains v, disposed := false, safePublishing := false }

/-- The recorder registration of bus `v` in the tree family. -/
def treeReg (v : Nat) : RegState :=
  { owner := v, topic := topicC, priority := defaultPriority, remaining := -1,
    isDisposed := false, kind := .handlerReg ⟨v, false⟩ }

/-- The tree-family machine. -/
def treeMachine (par : Nat → Option Nat) (cs : Nat → List Nat) (n d : Nat)
    (pending : List Nat) (tr : List Event) : Machine :=
  { buses := (List.range n).map (treeBus par cs d pending),
    regs := (List.range n).map treeReg,
    scheduler := pending, trace := tr, nextWaiterId := 0 }

/-- The machine mid-drain of bus `v`: the already-enqueued children are `S`,
bus `v` itself holds the popped-task state `busV`. -/
def treeMid (par : Nat → Option Nat) (cs : Nat → List Nat) (n d v : Nat)
    (busV : BusState) (P sch : List Nat) (tr : List Event) (S : List Nat) : Machine :=
  { setBus (treeMachine par cs n d (P ++ S)
      (tr ++ S.map (fun c => Event.enqueued c topicC.tid d))) v busV with
    scheduler := sch ++ S }

/-- Validity of a breadth-first frontier: every popped bus is in range, fresh
with respect to the rest of the frontier and the already-visited buses, and
its children are in-range non-root buses that are equally fresh; the fuel
suffices to exhaust the frontier. -/
def bfsOKv (cs : Nat → List Nat) (n : Nat) : Nat → List Nat → List Nat → Prop
  | 0, _, pending => pending = []
  | _+1, _, [] => True
  | fuel+1, visited, v :: rest => v < n ∧ v ∉ rest ∧ v ∉ visited ∧ 1 ≤ fuel ∧
      (cs v).Nodup ∧
      (∀ c ∈ cs v, c < n ∧ c ≠ v ∧ c ≠ 0 ∧ c ∉ rest ∧ c ∉ visited) ∧
      bfsOKv cs n fuel (visited ++ [v]) (rest ++ cs v)

/-- The breadth-first visit order of a frontier. -/
def bfsOrder (cs : Nat → List Nat) : Nat → List Nat → List Nat
  | 0, _ => []
  | _+1, [] => []
  | fuel+1, v :: rest => v :: bfsOrder cs fuel (rest ++ cs v)

/-- The trace produced by a breadth-first run: per visited bus, first the
`enqueued` events of its children, then its own handler invocation. -/
def bfsTrace (cs : Nat → List Nat) (d : Nat) : Nat → List Nat → List Event
  | 0, _ => []
  | _+1, [] => []
  | fuel+1, v :: rest =>
      (cs v).map (fun c => Event.enqueued c topicC.tid d) ++
      Event.invoked v d :: bfsTrace cs d fuel (rest ++ cs v)

/-- Children pointers of the concrete example tree 0 → ⟨1, 2⟩, 1 → ⟨3⟩. -/
def csEx : Nat → List Nat :=
  fun v => if v = 0 then [1, 2] else if v = 1 then [3] else []

/-- Parent pointers of the concrete example tree. -/
def parEx : Nat → Option Nat :=
  fun v => if v = 1 ∨ v = 2 then some 0 else if v = 3 then some 1 else none

/-- The fully disposed state of a tree-family bus: flag set, children,
registry and listener sets cleared, parent pointer untouched. -/
def killBus (par : Nat → Option Nat) (v : Nat) : BusState :=
  { parent := par v, children := [], listeners := [], registry := [],
    publishQueue := [], publishing := false, disposed := true,
    safePublishing := false }

/-- The disposed state of a tree-family registration. -/
def killReg (v : Nat) : RegState := { treeReg v with isDisposed := true }

/-- Replace every bus and registration in `vs` by its disposed state. -/
def killNodes (par : Nat → Option Nat) (M : Machine) (vs : List Nat) : Machine :=
  vs.foldl (fun acc v => setBus (setReg acc v (killReg v)) v (killBus par v)) M

/-- The depth-first disposal order of the subtree rooted at `v`: the node
itself, then each child subtree in order — the order in which
`MessageBusImpl.dispose` reaches the nodes. -/
def dfsOrder (cs : Nat → List Nat) : Nat → Nat → List Nat
  | 0, _ => []
  | fuel + 1, v => v :: ((cs v).map (dfsOrder cs fuel)).flatten

mutual

/-- Validity of a depth-first disposal of the subtree at `v`: the node is in
range and fresh with respect to `avoid` (ancestors and previously disposed
nodes), its children point back to it, and each child subtree is valid with
the fuel decremented once per tree level. -/
def dfsOK (par : Nat → Option Nat) (cs : Nat → List Nat) (n : Nat) :
    Nat → List Nat → Nat → Prop
  | 0, _, _ => False
  | fuel + 1, avoid, v => v < n ∧ v ∉ avoid ∧ (∀ c ∈ cs v, par c = some v) ∧
      dfsSeqOK par cs n fuel (avoid ++ [v]) (cs v)
termination_by fuel avoid v => (fuel, 0)

/-- Validity of disposing a list of sibling subtrees in order. -/
def dfsSeqOK (par : Nat → Option Nat) (cs : Nat → List Nat) (n : Nat) :
    Nat → List Nat → List Nat → Prop
  | _, _, [] => True
  | fuel, avoid, c :: rest =>
      dfsOK par cs n fuel avoid c ∧
      dfsSeqOK par cs n fuel (avoid ++ dfsOrder cs fuel c) rest
termination_by fuel avoid l => (fuel, l.length + 1)

end

/-- Checks the validity of one sibling list of a depth-first disposal,
threading the accumulated avoid set; `f` checks a single subtree and `ord`
yields its disposal order. -/
def dfsSeqOKbAux (f : List Nat → Nat → Bool) (ord : Nat → List Nat) :
    List Nat → List Nat → Bool
  | _, [] => true
  | avoid, c :: rest => f avoid c && dfsSeqOKbAux f ord (avoid ++ ord c) rest

/-- Executable check of `dfsOK`, structural in the fuel so that concrete
instances evaluate. -/
def dfsOKb (par : Nat → Option Nat) (cs : Nat → List Nat) (n : Nat) :
    Nat → List Nat → Nat → Bool
  | 0, _, _ => false
  | fuel + 1, avoid, v =>
    decide (v < n) && !(avoid.contains v) &&
    (cs v).all (fun c => par c == some v) &&
    dfsSeqOKbAux (dfsOKb par cs n fuel) (dfsOrder cs fuel) (avoid ++ [v]) (cs v)

/-- A two-bus parent-direction scenario: bus 1 is a child of bus 0, each has
one recorder handler (handler id = bus id) on the parent-direction topic. -/
def mW1P : Machine :=
  { buses := [
      { parent := none, children := [1], listeners := [],
        registry := [(topicP.tid, [0])], publishQueue := [], publishing := false,
        disposed := false, safePublishing := false },
      { parent := some 0, children := [], listeners := [],
        registry := [(topicP.tid, [1])], publishQueue := [], publishing := false,
        disposed := false, safePublishing := false }],
    regs := [
      { owner := 0, topic := topicP, priority := 1, remaining := -1,
        isDisposed := false, kind := .handlerReg ⟨0, false⟩ },
      { owner := 1, topic := topicP, priority := 1, remaining := -1,
        isDisposed := false, kind := .handlerReg ⟨1, false⟩ }],
    scheduler := [], trace := [], nextWaiterId := 0 }

end EventBus

namespace EventBus

/-! ### Theorems -/

/-! #### Frame and store lemmas -/

theorem lt_length_of_getElem?_some {α : Type} {l : List α} {i : Nat} {a : α}
    (h : l[i]? = some a) : i < l.length := by
  by_contra hc
  rw [List.getElem?_eq_none (Nat.le_of_not_lt hc)] at h
  cases h

theorem set_of_getElem?_some {α : Type} {l : List α} {i : Nat} {a : α}
    (h : l[i]? = some a) : l.set i a = l := by
  induction l generalizing i with
  | nil => cases h
  | cons x xs ih =>
    cases i with
    | zero => simp at h; simp [List.set, h]
    | succ n => simp at h ⊢; exact ih h

@[simp] theorem getReg_emit (m : Machine) (e : Event) (r : Nat) :
    getReg (emit m e) r = getReg m r := rfl

@[simp] theorem getBus_emit (m : Machine) (e : Event) (b : Nat) :
    getBus (emit m e) b = getBus m b := rfl

@[simp] theorem trace_emit (m : Machine) (e : Event) :
    (emit m e).trace = m.trace ++ [e] := rfl

@[simp] theorem buses_emit (m : Machine) (e : Event) : (emit m e).buses = m.buses := rfl

@[simp] theorem regs_emit (m : Machine) (e : Event) : (emit m e).regs = m.regs := rfl

@[simp] theorem getReg_setBus (m : Machine) (b : Nat) (s : BusState) (r : Nat) :
    getReg (setBus m b s) r = getReg m r := rfl

@[simp] theorem regs_setBus (m : Machine) (b : Nat) (s : BusState) :
    (setBus m b s).regs = m.regs := rfl

@[simp] theorem trace_setBus (m : Machine) (b : Nat) (s : BusState) :
    (setBus m b s).trace = m.trace := rfl

@[simp] theorem scheduler_setBus (m : Machine) (b : Nat) (s : BusState) :
    (setBus m b s).scheduler = m.scheduler := rfl

@[simp] theorem getBus_setReg (m : Machine) (r : Nat) (s : RegState) (b : Nat) :
    getBus (setReg m r s) b = getBus m b := rfl

@[simp] theorem buses_setReg (m : Machine) (r : Nat) (s : RegState) :
    (setReg m r s).buses = m.buses := rfl

@[simp] theorem trace_setReg (m : Machine) (r : Nat) (s : RegState) :
    (setReg m r s).trace = m.trace := rfl

@[simp] theorem scheduler_setReg (m : Machine) (r : Nat) (s : RegState) :
    (setReg m r s).scheduler = m.scheduler := rfl

@[simp] theorem regs_updateBus (m : Machine) (b : Nat) (f : BusState → BusState) :
    (updateBus m b f).regs = m.regs := by
  unfold updateBus; split <;> rfl

@[simp] theorem trace_updateBus (m : Machine) (b : Nat) (f : BusState → BusState) :
    (updateBus m b f).trace = m.trace := by
  unfold updateBus; split <;> rfl

@[simp] theorem scheduler_updateBus (m : Machine) (b : Nat) (f : BusState → BusState) :
    (updateBus m b f).scheduler = m.scheduler := by
  unfold updateBus; split <;> rfl

@[simp] theorem getReg_updateBus (m : Machine) (b : Nat) (f : BusState → BusState) (r : Nat) :
    getReg (updateBus m b f) r = getReg m r := by
  unfold updateBus; split <;> rfl

@[simp] theorem nextWaiterId_setBus (m : Machine) (b : Nat) (s : BusState) :
    (setBus m b s).nextWaiterId = m.nextWaiterId := rfl

@[simp] theorem nextWaiterId_setReg (m : Machine) (r : Nat) (s : RegState) :
    (setReg m r s).nextWaiterId = m.nextWaiterId := rfl

@[simp] theorem nextWaiterId_emit (m : Machine) (e : Event) :
    (emit m e).nextWaiterId = m.nextWaiterId := rfl

@[simp] theorem nextWaiterId_updateBus (m : Machine) (b : Nat) (f : BusState → BusState) :
    (updateBus m b f).nextWaiterId = m.nextWaiterId := by
  unfold updateBus; split <;> rfl

@[simp] theorem regs_length_updateBus (m : Machine) (b : Nat) (f : BusState → BusState) :
    (updateBus m b f).regs.length = m.regs.length := by
  unfold updateBus; split <;> rfl

theorem getReg_setReg_self (m : Machine) (r : Nat) (s : RegState)
    (h : r < m.regs.length) : getReg (setReg m r s) r = some s := by
  simp [getReg, setReg, List.getElem?_set, h]

theorem getReg_setReg_ne (m : Machine) (r : Nat) (s : RegState) (r' : Nat)
    (h : r ≠ r') : getReg (setReg m r s) r' = getReg m r' := by
  simp [getReg, setReg, List.getElem?_set, h]

theorem getBus_setBus_self (m : Machine) (b : Nat) (s : BusState)
    (h : b < m.buses.length) : getBus (setBus m b s) b = some s := by
  simp [getBus, setBus, List.getElem?_set, h]

theorem getBus_setBus_ne (m : Machine) (b : Nat) (s : BusState) (b' : Nat)
    (h : b ≠ b') : getBus (setBus m b s) b' = getBus m b' := by
  simp [getBus, setBus, List.getElem?_set, h]

theorem getBus_updateBus_self (m : Machine) (b : Nat) (f : BusState → BusState)
    (bus : BusState) (h : getBus m b = some bus) :
    getBus (updateBus m b f) b = some (f bus) := by
  unfold updateBus
  rw [h]
  exact getBus_setBus_self m b (f bus) (lt_length_of_getElem?_some h)

theorem getBus_updateBus_ne (m : Machine) (b : Nat) (f : BusState → BusState)
    (b' : Nat) (h : b ≠ b') : getBus (updateBus m b f) b' = getBus m b' := by
  unfold updateBus
  cases hb : getBus m b with
  | none => rfl
  | some bus => exact getBus_setBus_ne m b _ b' h

/-! #### Registry lemmas -/

theorem registryGet_delete_self (reg : List (Nat × List Nat)) (tid rid : Nat) :
    registryGet (registryDelete reg tid rid) tid =
      (registryGet reg tid).map (fun rs => rs.erase rid) := by
  induction reg with
  | nil => rfl
  | cons kv rest ih =>
    obtain ⟨k, rs⟩ := kv
    by_cases hk : k = tid
    · simp [registryDelete, registryGet, hk]
    · simp [registryDelete, registryGet, hk, ih]

theorem registryGet_delete_ne (reg : List (Nat × List Nat)) (tid rid tid' : Nat)
    (h : tid ≠ tid') :
    registryGet (registryDelete reg tid rid) tid' = registryGet reg tid' := by
  induction reg with
  | nil => rfl
  | cons kv rest ih =>
    obtain ⟨k, rs⟩ := kv
    by_cases hk : k = tid
    · subst hk; simp [registryDelete, registryGet, h, ih]
    · by_cases hk' : k = tid'
      · subst hk'; simp [registryDelete, registryGet, hk]
      · simp [registryDelete, registryGet, hk, hk', ih]

theorem registryGet_set_self (reg : List (Nat × List Nat)) (tid rid : Nat) :
    registryGet (registrySet reg tid rid) tid =
      some ((registryGet reg tid).getD [] ++ [rid]) := by
  induction reg with
  | nil => simp [registrySet, registryGet]
  | cons kv rest ih =>
    obtain ⟨k, rs⟩ := kv
    by_cases hk : k = tid
    · simp [registrySet, registryGet, hk]
    · simp [registrySet, registryGet, hk, ih]

theorem registryGet_set_ne (reg : List (Nat × List Nat)) (tid rid tid' : Nat)
    (h : tid ≠ tid') :
    registryGet (registrySet reg tid rid) tid' = registryGet reg tid' := by
  induction reg with
  | nil => simp [registrySet, registryGet, h]
  | cons kv rest ih =>
    obtain ⟨k, rs⟩ := kv
    by_cases hk : k = tid
    · subst hk; simp [registrySet, registryGet, h, ih]
    · by_cases hk' : k = tid'
      · subst hk'; simp [registrySet, registryGet, hk]
      · simp [registrySet, registryGet, hk, hk', ih]

theorem registryGet_replace_self (reg : List (Nat × List Nat)) (tid : Nat)
    (rs' : List Nat) :
    registryGet (registryReplace reg tid rs') tid =
      (registryGet reg tid).map (fun _ => rs') := by
  induction reg with
  | nil => rfl
  | cons kv rest ih =>
    obtain ⟨k, rs⟩ := kv
    by_cases hk : k = tid
    · simp [registryReplace, registryGet, hk]
    · simp [registryReplace, registryGet, hk, ih]

theorem registryGet_replace_ne (reg : List (Nat × List Nat)) (tid : Nat)
    (rs' : List Nat) (tid' : Nat) (h : tid ≠ tid') :
    registryGet (registryReplace reg tid rs') tid' = registryGet reg tid' := by
  induction reg with
  | nil => rfl
  | cons kv rest ih =>
    obtain ⟨k, rs⟩ := kv
    by_cases hk : k = tid
    · subst hk; simp [registryReplace, registryGet, h, ih]
    · by_cases hk' : k = tid'
      · subst hk'; simp [registryReplace, registryGet, hk]
      · simp [registryReplace, registryGet, hk, hk', ih]

theorem foldl_emit_map {α : Type} (f : α → Event) (l : List α) (m : Machine) :
    l.foldl (fun acc x => emit acc (f x)) m = { m with trace := m.trace ++ l.map f } := by
  induction l generalizing m with
  | nil => simp
  | cons x xs ih =>
    rw [List.foldl_cons, ih]
    simp [emit]

/-! #### State-identity and sort lemmas -/

theorem setReg_self (m : Machine) (rid : Nat) (reg : RegState)
    (h : getReg m rid = some reg) : setReg m rid reg = m := by
  unfold setReg
  rw [set_of_getElem?_some h]

theorem setBus_self (m : Machine) (b : Nat) (bus : BusState)
    (h : getBus m b = some bus) : setBus m b bus = m := by
  unfold setBus
  rw [set_of_getElem?_some h]

theorem registryReplace_self (reg : List (Nat × List Nat)) (tid : Nat) (rs : List Nat)
    (h : registryGet reg tid = some rs) : registryReplace reg tid rs = reg := by
  induction reg with
  | nil => rfl
  | cons kv rest ih =>
    obtain ⟨k, old⟩ := kv
    by_cases hk : k = tid
    · simp [registryGet, hk] at h
      simp [registryReplace, hk, h]
    · simp [registryGet, hk] at h
      simp [registryReplace, hk, ih h]

theorem insertByPriority_const (p : Nat → Int) (x : Nat) (l : List Nat)
    (h : ∀ y ∈ l, p y = p x) : insertByPriority p x l = x :: l := by
  cases l with
  | nil => rfl
  | cons y ys =>
    have : p x ≤ p y := le_of_eq (h y (by simp)).symm
    simp [insertByPriority, this]

theorem sortByPriority_const (p : Nat → Int) (c : Int) (l : List Nat)
    (h : ∀ y ∈ l, p y = c) : sortByPriority p l = l := by
  induction l with
  | nil => rfl
  | cons x xs ih =>
    unfold sortByPriority
    rw [ih (fun y hy => h y (by simp [hy]))]
    exact insertByPriority_const p x xs
      (fun y hy => by rw [h y (by simp [hy]), h x (by simp)])

theorem hidOf_congr (m m' : Machine) (rid : Nat) (h : m.regs = m'.regs) :
    hidOf m rid = hidOf m' rid := by
  unfold hidOf getReg
  rw [h]

theorem thrOf_congr (m m' : Machine) (rid : Nat) (h : m.regs = m'.regs) :
    thrOf m rid = thrOf m' rid := by
  unfold thrOf getReg
  rw [h]

theorem safeBlock_congr (m m' : Machine) (b d : Nat) (rids : List Nat)
    (h : m.regs = m'.regs) : safeBlock m b d rids = safeBlock m' b d rids := by
  induction rids with
  | nil => rfl
  | cons rid rest ih =>
    unfold safeBlock
    rw [hidOf_congr m m' rid h, thrOf_congr m m' rid h, ih]

theorem unsafeBlock_congr (m m' : Machine) (d : Nat) (rids : List Nat)
    (h : m.regs = m'.regs) : unsafeBlock m d rids = unsafeBlock m' d rids := by
  induction rids with
  | nil => rfl
  | cons rid rest ih =>
    unfold unsafeBlock
    rw [hidOf_congr m m' rid h, thrOf_congr m m' rid h, ih]

theorem unsafeErr_congr (m m' : Machine) (d : Nat) (rids : List Nat)
    (h : m.regs = m'.regs) : unsafeErr m d rids = unsafeErr m' d rids := by
  induction rids with
  | nil => rfl
  | cons rid rest ih =>
    unfold unsafeErr
    rw [hidOf_congr m m' rid h, thrOf_congr m m' rid h, ih]

theorem regHandlerStep_recorder (m : Machine) (rid : Nat) (reg : RegState) (d : Nat)
    (h1 : getReg m rid = some reg) (hrm : reg.remaining = -1)
    (hkd : reg.kind = .handlerReg ⟨hidOf m rid, thrOf m rid⟩) :
    regHandlerStep m rid d =
      ({ m with trace := m.trace ++ [.invoked (hidOf m rid) d] },
        if thrOf m rid then some (.raw (hidOf m rid) d) else none) := by
  obtain ⟨ow, tp, pr, rm, dis, kd⟩ := reg
  dsimp only at hrm hkd
  subst hrm
  subst hkd
  unfold regHandlerStep
  rw [h1]
  have hset : setReg m rid
      ⟨ow, tp, pr, -1, dis, .handlerReg ⟨hidOf m rid, thrOf m rid⟩⟩ = m :=
    setReg_self m rid _ h1
  simp [hset, emit]

theorem dispatchLoop_safe (fuel : Nat) :
    ∀ (m : Machine) (bus : BusState) (b : Nat) (t : Topic) (d : Nat) (i : Nat)
      (rs : List Nat),
    getBus m b = some bus →
    registryGet bus.registry t.tid = some rs →
    (∀ rid ∈ rs, recorderAt m t rid) →
    rs.length ≤ i + fuel →
    dispatchLoop m b t d true i fuel =
      ({ m with trace := m.trace ++ safeBlock m b d (rs.drop i) }, none) := by
  induction fuel with
  | zero =>
    intro m bus b t d i rs hbus hreg hrec hfuel
    rw [List.drop_eq_nil_of_le (by omega)]
    show (m, none) = _
    simp [safeBlock]
  | succ fuel ih =>
    intro m bus b t d i rs hbus hreg hrec hfuel
    cases hi : rs[i]? with
    | none =>
      have hlen : rs.length ≤ i := by
        by_contra hc
        rw [List.getElem?_eq_getElem (by omega)] at hi
        cases hi
      rw [List.drop_eq_nil_of_le hlen]
      show dispatchLoop m b t d true i (fuel + 1) = _
      unfold dispatchLoop
      rw [hbus]
      simp [hreg, hi, safeBlock]
    | some rid =>
      have hilt : i < rs.length := by
        by_contra hc
        rw [List.getElem?_eq_none (by omega)] at hi
        cases hi
      have hmem : rid ∈ rs := by
        have := List.getElem?_eq_some.mp hi
        obtain ⟨hh, heq⟩ := this
        exact heq ▸ List.getElem_mem hh
      have hrc := hrec rid hmem
      unfold recorderAt at hrc
      cases hgr : getReg m rid with
      | none => rw [hgr] at hrc; cases hrc
      | some reg =>
        rw [hgr] at hrc
        obtain ⟨htp, hrm, hkd⟩ := hrc
        have hstep := regHandlerStep_recorder m rid reg d hgr hrm hkd
        have hdrop : rs.drop i = rid :: rs.drop (i + 1) := by
          have := List.drop_eq_getElem_cons hilt
          rw [List.getElem?_eq_some.mp hi |>.2] at this
          exact this
        show dispatchLoop m b t d true i (fuel + 1) = _
        unfold dispatchLoop
        rw [hbus]
        rw [hdrop]
        by_cases hthr : thrOf m rid
        · have ihx := ih { m with trace := m.trace ++
              [.invoked (hidOf m rid) d, .errorHandled b (.raw (hidOf m rid) d)] }
            bus b t d (i + 1) rs hbus hreg hrec (by omega)
          have hsb : safeBlock { m with trace := m.trace ++
                [Event.invoked (hidOf m rid) d,
                 Event.errorHandled b (JsErr.raw (hidOf m rid) d)] }
              b d (rs.drop (i + 1)) = safeBlock m b d (rs.drop (i + 1)) :=
            safeBlock_congr _ m b d _ rfl
          simp only [hreg, Option.getD_some, hi, hstep, hthr, if_true, ite_true]
          rw [show (emit { m with trace := m.trace ++ [Event.invoked (hidOf m rid) d] }
              (.errorHandled b (.raw (hidOf m rid) d))) =
              { m with trace := m.trace ++
                [.invoked (hidOf m rid) d, .errorHandled b (.raw (hidOf m rid) d)] } from by
            simp [emit]]
          rw [ihx, hsb]
          simp [safeBlock, hthr]
        · have ihx := ih { m with trace := m.trace ++ [.invoked (hidOf m rid) d] }
            bus b t d (i + 1) rs hbus hreg hrec (by omega)
          have hsb : safeBlock { m with trace := m.trace ++
                [Event.invoked (hidOf m rid) d] }
              b d (rs.drop (i + 1)) = safeBlock m b d (rs.drop (i + 1)) :=
            safeBlock_congr _ m b d _ rfl
          simp only [hreg, Option.getD_some, hi, hstep, hthr]
          simp only [Bool.false_eq_true, if_false, ite_false]
          rw [ihx, hsb]
          simp [safeBlock, hthr]

theorem dispatchLoop_unsafeRun (fuel : Nat) :
    ∀ (m : Machine) (bus : BusState) (b : Nat) (t : Topic) (d : Nat) (i : Nat)
      (rs : List Nat),
    getBus m b = some bus →
    registryGet bus.registry t.tid = some rs →
    (∀ rid ∈ rs, recorderAt m t rid) →
    rs.length ≤ i + fuel →
    dispatchLoop m b t d false i fuel =
      ({ m with trace := m.trace ++ unsafeBlock m d (rs.drop i) },
        unsafeErr m d (rs.drop i)) := by
  induction fuel with
  | zero =>
    intro m bus b t d i rs hbus hreg hrec hfuel
    rw [List.drop_eq_nil_of_le (by omega)]
    show (m, none) = _
    simp [unsafeBlock, unsafeErr]
  | succ fuel ih =>
    intro m bus b t d i rs hbus hreg hrec hfuel
    cases hi : rs[i]? with
    | none =>
      have hlen : rs.length ≤ i := by
        by_contra hc
        rw [List.getElem?_eq_getElem (by omega)] at hi
        cases hi
      rw [List.drop_eq_nil_of_le hlen]
      show dispatchLoop m b t d false i (fuel + 1) = _
      unfold dispatchLoop
      rw [hbus]
      simp [hreg, hi, unsafeBlock, unsafeErr]
    | some rid =>
      have hilt : i < rs.length := by
        by_contra hc
        rw [List.getElem?_eq_none (by omega)] at hi
        cases hi
      have hmem : rid ∈ rs := by
        have := List.getElem?_eq_some.mp hi
        obtain ⟨hh, heq⟩ := this
        exact heq ▸ List.getElem_mem hh
      have hrc := hrec rid hmem
      unfold recorderAt at hrc
      cases hgr : getReg m rid with
      | none => rw [hgr] at hrc; cases hrc
      | some reg =>
        rw [hgr] at hrc
        obtain ⟨htp, hrm, hkd⟩ := hrc
        have hstep := regHandlerStep_recorder m rid reg d hgr hrm hkd
        have hdrop : rs.drop i = rid :: rs.drop (i + 1) := by
          have := List.drop_eq_getElem_cons hilt
          rw [List.getElem?_eq_some.mp hi |>.2] at this
          exact this
        show dispatchLoop m b t d false i (fuel + 1) = _
        unfold dispatchLoop
        rw [hbus]
        rw [hdrop]
        by_cases hthr : thrOf m rid
        · simp only [hreg, Option.getD_some, hi, hstep, hthr, if_true, ite_true]
          simp [unsafeBlock, unsafeErr, hthr]
        · have ihx := ih { m with trace := m.trace ++ [.invoked (hidOf m rid) d] }
            bus b t d (i + 1) rs hbus hreg hrec (by omega)
          have hub : unsafeBlock { m with trace := m.trace ++
                [Event.invoked (hidOf m rid) d] }
              d (rs.drop (i + 1)) = unsafeBlock m d (rs.drop (i + 1)) :=
            unsafeBlock_congr _ m d _ rfl
          have hue : unsafeErr { m with trace := m.trace ++
                [Event.invoked (hidOf m rid) d] }
              d (rs.drop (i + 1)) = unsafeErr m d (rs.drop (i + 1)) :=
            unsafeErr_congr _ m d _ rfl
          simp only [hreg, Option.getD_some, hi, hstep, hthr]
          simp only [Bool.false_eq_true, if_false, ite_false]
          rw [ihx, hub, hue]
          simp [unsafeBlock, unsafeErr, hthr]

theorem updateBus_replace_self (m : Machine) (b : Nat) (bus : BusState) (tid : Nat)
    (rs : List Nat) (hbus : getBus m b = some bus)
    (hrepl : registryReplace bus.registry tid rs = bus.registry) :
    updateBus m b (fun s => { s with registry := registryReplace s.registry tid rs }) = m := by
  unfold updateBus
  rw [hbus]
  show setBus m b { bus with registry := registryReplace bus.registry tid rs } = m
  rw [hrepl]
  exact setBus_self m b bus hbus

theorem publishMessage_single_safe (m : Machine) (bus : BusState) (b : Nat) (t : Topic)
    (d : Nat) (lflag : Bool) (rs : List Nat)
    (hbus : getBus m b = some bus) (hch : bus.children = []) (hpar : bus.parent = none)
    (hreg : registryGet bus.registry t.tid = some rs) (hne : rs ≠ [])
    (hrec : ∀ rid ∈ rs, recorderAt m t rid)
    (hsort : sortByPriority (regPriority m) rs = rs)
    (hsafe : bus.safePublishing = true) :
    publishMessage m b ⟨t, d, true, lflag⟩ =
      ({ m with trace := m.trace ++
          ((if lflag then bus.listeners.map
            (fun lid => Event.listened b lid t.tid d rs.length) else []) ++
          safeBlock m b d rs) }, none) := by
  have hlen : 0 < rs.length := List.length_pos.mpr hne
  have hm2 : (if lflag then
        bus.listeners.foldl (fun acc lid =>
          emit acc (.listened b lid t.tid d rs.length)) m
      else m) =
      { m with trace := m.trace ++
        (if lflag then bus.listeners.map
          (fun lid => Event.listened b lid t.tid d rs.length) else []) } := by
    cases lflag with
    | true => simp [foldl_emit_map]
    | false => simp
  cases hdir : t.broadcastDirection with
  | children =>
    simp only [publishMessage, hbus, hch, hdir, broadcastChildren, hreg, Option.getD_some,
      if_true, ite_true]
    rw [if_pos hlen]
    rw [hm2]
    set M2 : Machine := { m with trace := m.trace ++
      (if lflag then bus.listeners.map
        (fun lid => Event.listened b lid t.tid d rs.length) else []) } with hM2def
    have hbus2 : getBus M2 b = some bus := hbus
    rw [show regPriority M2 = regPriority m from rfl]
    rw [hsort]
    rw [updateBus_replace_self M2 b bus t.tid rs hbus2 (registryReplace_self _ _ _ hreg)]
    rw [hsafe]
    rw [dispatchLoop_safe rs.length M2 bus b t d 0 rs hbus2 hreg
      (fun rid hr => hrec rid hr) (by omega)]
    rw [List.drop_zero]
    rw [safeBlock_congr M2 m b d rs rfl]
    simp [hM2def]
  | parent =>
    simp only [publishMessage, hbus, hpar, hdir, hreg, Option.getD_some, if_true, ite_true]
    rw [if_pos hlen]
    rw [hm2]
    set M2 : Machine := { m with trace := m.trace ++
      (if lflag then bus.listeners.map
        (fun lid => Event.listened b lid t.tid d rs.length) else []) } with hM2def
    have hbus2 : getBus M2 b = some bus := hbus
    rw [show regPriority M2 = regPriority m from rfl]
    rw [hsort]
    rw [updateBus_replace_self M2 b bus t.tid rs hbus2 (registryReplace_self _ _ _ hreg)]
    rw [hsafe]
    rw [dispatchLoop_safe rs.length M2 bus b t d 0 rs hbus2 hreg
      (fun rid hr => hrec rid hr) (by omega)]
    rw [List.drop_zero]
    rw [safeBlock_congr M2 m b d rs rfl]
    simp [hM2def]

theorem publishMessage_single_unsafe (m : Machine) (bus : BusState) (b : Nat) (t : Topic)
    (d : Nat) (lflag : Bool) (rs : List Nat)
    (hbus : getBus m b = some bus) (hch : bus.children = []) (hpar : bus.parent = none)
    (hreg : registryGet bus.registry t.tid = some rs) (hne : rs ≠ [])
    (hrec : ∀ rid ∈ rs, recorderAt m t rid)
    (hsort : sortByPriority (regPriority m) rs = rs)
    (hsafe : bus.safePublishing = false) :
    publishMessage m b ⟨t, d, true, lflag⟩ =
      ({ m with trace := m.trace ++
          ((if lflag then bus.listeners.map
            (fun lid => Event.listened b lid t.tid d rs.length) else []) ++
          unsafeBlock m d rs) }, unsafeErr m d rs) := by
  have hlen : 0 < rs.length := List.length_pos.mpr hne
  have hm2 : (if lflag then
        bus.listeners.foldl (fun acc lid =>
          emit acc (.listened b lid t.tid d rs.length)) m
      else m) =
      { m with trace := m.trace ++
        (if lflag then bus.listeners.map
          (fun lid => Event.listened b lid t.tid d rs.length) else []) } := by
    cases lflag with
    | true => simp [foldl_emit_map]
    | false => simp
  cases hdir : t.broadcastDirection with
  | children =>
    simp only [publishMessage, hbus, hch, hdir, broadcastChildren, hreg, Option.getD_some,
      if_true, ite_true]
    rw [if_pos hlen]
    rw [hm2]
    set M2 : Machine := { m with trace := m.trace ++
      (if lflag then bus.listeners.map
        (fun lid => Event.listened b lid t.tid d rs.length) else []) } with hM2def
    have hbus2 : getBus M2 b = some bus := hbus
    rw [show regPriority M2 = regPriority m from rfl]
    rw [hsort]
    rw [updateBus_replace_self M2 b bus t.tid rs hbus2 (registryReplace_self _ _ _ hreg)]
    rw [hsafe]
    rw [dispatchLoop_unsafeRun rs.length M2 bus b t d 0 rs hbus2 hreg
      (fun rid hr => hrec rid hr) (by omega)]
    rw [List.drop_zero]
    rw [unsafeBlock_congr M2 m d rs rfl, unsafeErr_congr M2 m d rs rfl]
    simp [hM2def]
  | parent =>
    simp only [publishMessage, hbus, hpar, hdir, hreg, Option.getD_some, if_true, ite_true]
    rw [if_pos hlen]
    rw [hm2]
    set M2 : Machine := { m with trace := m.trace ++
      (if lflag then bus.listeners.map
        (fun lid => Event.listened b lid t.tid d rs.length) else []) } with hM2def
    have hbus2 : getBus M2 b = some bus := hbus
    rw [show regPriority M2 = regPriority m from rfl]
    rw [hsort]
    rw [updateBus_replace_self M2 b bus t.tid rs hbus2 (registryReplace_self _ _ _ hreg)]
    rw [hsafe]
    rw [dispatchLoop_unsafeRun rs.length M2 bus b t d 0 rs hbus2 hreg
      (fun rid hr => hrec rid hr) (by omega)]
    rw [List.drop_zero]
    rw [unsafeBlock_congr M2 m d rs rfl, unsafeErr_congr M2 m d rs rfl]
    simp [hM2def]

theorem safeBlock_nothrow (m : Machine) (b d : Nat) (rids : List Nat)
    (h : ∀ rid ∈ rids, thrOf m rid = false) :
    safeBlock m b d rids = rids.map (fun rid => Event.invoked (hidOf m rid) d) := by
  induction rids with
  | nil => rfl
  | cons rid rest ih =>
    unfold safeBlock
    rw [h rid (by simp)]
    simp only [Bool.false_eq_true, if_false, ite_false]
    rw [ih (fun r hr => h r (by simp [hr]))]
    rfl

theorem unsafeBlock_nothrow (m : Machine) (d : Nat) (rids : List Nat)
    (h : ∀ rid ∈ rids, thrOf m rid = false) :
    unsafeBlock m d rids = rids.map (fun rid => Event.invoked (hidOf m rid) d) := by
  induction rids with
  | nil => rfl
  | cons rid rest ih =>
    unfold unsafeBlock
    rw [h rid (by simp)]
    simp only [Bool.false_eq_true, if_false, ite_false]
    rw [ih (fun r hr => h r (by simp [hr]))]
    rfl

theorem unsafeErr_nothrow (m : Machine) (d : Nat) (rids : List Nat)
    (h : ∀ rid ∈ rids, thrOf m rid = false) :
    unsafeErr m d rids = none := by
  induction rids with
  | nil => rfl
  | cons rid rest ih =>
    unfold unsafeErr
    rw [h rid (by simp)]
    simp only [Bool.false_eq_true, if_false, ite_false]
    exact ih (fun r hr => h r (by simp [hr]))

theorem invokeBlocks_congr (m m' : Machine) (rs : List Nat) (ds : List Nat)
    (h : m.regs = m'.regs) : invokeBlocks m rs ds = invokeBlocks m' rs ds := by
  induction ds with
  | nil => rfl
  | cons d ds ih =>
    unfold invokeBlocks
    rw [ih]
    have : ∀ rid, hidOf m rid = hidOf m' rid := fun rid => hidOf_congr m m' rid h
    simp [this]

theorem drainLoop_nothrow (fuel : Nat) :
    ∀ (m : Machine) (bus : BusState) (b : Nat) (t : Topic) (ds : List Nat)
      (rs : List Nat),
    getBus m b = some bus →
    bus.publishQueue = ds.map (fun d => (⟨t, d, true, true⟩ : Task)) →
    bus.children = [] → bus.parent = none → bus.listeners = [] →
    registryGet bus.registry t.tid = some rs → rs ≠ [] →
    (∀ rid ∈ rs, recorderAt m t rid) →
    (∀ rid ∈ rs, thrOf m rid = false) →
    sortByPriority (regPriority m) rs = rs →
    ds.length ≤ fuel →
    drainLoop m b fuel =
      ({ setBus m b { bus with publishQueue := [] } with
         trace := m.trace ++ invokeBlocks m rs ds }, none) := by
  induction fuel with
  | zero =>
    intro m bus b t ds rs hbus hq hch hpar hls hreg hne hrec hthr hsort hfuel
    have hds : ds = [] := List.length_eq_zero.mp (by omega)
    subst hds
    simp only [List.map_nil] at hq
    show (m, none) = _
    rw [show ({ bus with publishQueue := [] } : BusState) = bus from by rw [← hq]]
    rw [setBus_self m b bus hbus]
    simp [invokeBlocks]
  | succ fuel ih =>
    intro m bus b t ds rs hbus hq hch hpar hls hreg hne hrec hthr hsort hfuel
    cases ds with
    | nil =>
      simp only [List.map_nil] at hq
      show drainLoop m b (fuel + 1) = _
      simp only [drainLoop, hbus, hq]
      rw [show ({ bus with publishQueue := [] } : BusState) = bus from by rw [← hq]]
      rw [setBus_self m b bus hbus]
      simp [invokeBlocks]
    | cons d ds =>
      simp only [List.map_cons] at hq
      show drainLoop m b (fuel + 1) = _
      simp only [drainLoop, hbus, hq]
      have hblen : b < m.buses.length := lt_length_of_getElem?_some hbus
      set bus1 : BusState := { bus with
        publishQueue := ds.map (fun d => (⟨t, d, true, true⟩ : Task)) } with hbus1def
      set m1 : Machine := setBus m b bus1 with hm1def
      have hbus1 : getBus m1 b = some bus1 := getBus_setBus_self m b bus1 hblen
      have hthr1 : ∀ rid ∈ rs, thrOf m1 rid = false := fun rid hr => hthr rid hr
      set M2 : Machine := { m1 with
        trace := m1.trace ++ rs.map (fun rid => Event.invoked (hidOf m1 rid) d) } with hM2def
      have hpm : publishMessage m1 b ⟨t, d, true, true⟩ = (M2, none) := by
        by_cases hsp : bus.safePublishing = true
        · have := publishMessage_single_safe m1 bus1 b t d true rs hbus1
            hch hpar hreg hne (fun rid hr => hrec rid hr) hsort hsp
          rw [this]
          rw [show bus1.listeners = ([] : List Nat) from hls]
          rw [safeBlock_nothrow m1 b d rs hthr1]
          simp
        · have hspf : bus1.safePublishing = false := Bool.eq_false_iff.mpr hsp
          have := publishMessage_single_unsafe m1 bus1 b t d true rs hbus1
            hch hpar hreg hne (fun rid hr => hrec rid hr) hsort hspf
          rw [this]
          rw [show bus1.listeners = ([] : List Nat) from hls]
          rw [unsafeBlock_nothrow m1 d rs hthr1, unsafeErr_nothrow m1 d rs hthr1]
          simp
      simp only [hpm]
      have ihx := ih M2 bus1 b t ds rs hbus1 rfl hch hpar hls hreg hne
        (fun rid hr => hrec rid hr) (fun rid hr => hthr rid hr)
        hsort (by simp only [List.length_cons] at hfuel; omega)
      rw [ihx]
      have hib : invokeBlocks M2 rs ds = invokeBlocks m rs ds :=
        invokeBlocks_congr M2 m rs ds rfl
      rw [hib]
      have hid1 : ∀ rid, hidOf m1 rid = hidOf m rid := fun rid => hidOf_congr m1 m rid rfl
      simp [hM2def, hm1def, hbus1def, setBus, List.set_set, invokeBlocks, hid1]
      intro a _
      exact hidOf_congr _ m a rfl
theorem publish_disposed (m : Machine) (b : Nat) (bus : BusState) (t : Topic) (d : Nat)
    (hbus : getBus m b = some bus) (hdisp : bus.disposed = true) :
    publish m b t d = .error disposedError := by
  simp [publish, publishImpl, hbus, hdisp]

theorem publish_start (m : Machine) (bus : BusState) (b : Nat) (t : Topic) (d : Nat)
    (hbus : getBus m b = some bus) (hdisp : bus.disposed = false)
    (hpub : bus.publishing = false) :
    publish m b t d = .ok
      { setBus m b { bus with
          publishQueue := bus.publishQueue ++ [⟨t, d, true, true⟩],
          publishing := true } with
        trace := m.trace ++ [.enqueued b t.tid d],
        scheduler := m.scheduler ++ [b] } := by
  have hblen : b < m.buses.length := lt_length_of_getElem?_some hbus
  have hbus2 : getBus (emit (setBus m b
      { bus with publishQueue := bus.publishQueue ++ [⟨t, d, true, true⟩] })
      (.enqueued b t.tid d)) b =
      some { bus with publishQueue := bus.publishQueue ++ [⟨t, d, true, true⟩] } := by
    rw [getBus_emit]
    exact getBus_setBus_self m b _ hblen
  simp only [publish, publishImpl, hbus]
  rw [if_neg (show ¬ bus.disposed = true from by simp [hdisp])]
  rw [if_neg (show ¬ bus.publishing = true from by simp [hpub])]
  unfold updateBus
  simp only [hbus2]
  simp [emit, setBus, List.set_set]

theorem publish_queued (m : Machine) (bus : BusState) (b : Nat) (t : Topic) (d : Nat)
    (hbus : getBus m b = some bus) (hdisp : bus.disposed = false)
    (hpub : bus.publishing = true) :
    publish m b t d = .ok
      { setBus m b { bus with
          publishQueue := bus.publishQueue ++ [⟨t, d, true, true⟩] } with
        trace := m.trace ++ [.enqueued b t.tid d] } := by
  simp only [publish, publishImpl, hbus]
  rw [if_neg (show ¬ bus.disposed = true from by simp [hdisp])]
  rw [if_pos (show bus.publishing = true from hpub)]
  simp [emit, setBus]

theorem publishAll_publishing (ds : List Nat) :
    ∀ (m : Machine) (bus : BusState) (b : Nat) (t : Topic),
    getBus m b = some bus → bus.disposed = false → bus.publishing = true →
    publishAll m b t ds =
      { setBus m b { bus with
          publishQueue := bus.publishQueue ++ ds.map (fun d => (⟨t, d, true, true⟩ : Task)) } with
        trace := m.trace ++ ds.map (fun d => Event.enqueued b t.tid d) } := by
  induction ds with
  | nil =>
    intro m bus b t hbus hdisp hpub
    show m = _
    have : ({ bus with publishQueue := bus.publishQueue ++ [] } : BusState) = bus := by
      simp
    rw [List.map_nil, this, setBus_self m b bus hbus]
    simp
  | cons d ds ih =>
    intro m bus b t hbus hdisp hpub
    have hblen : b < m.buses.length := lt_length_of_getElem?_some hbus
    show publishAll (unwrapM (publish m b t d) m) b t ds = _
    rw [publish_queued m bus b t d hbus hdisp hpub]
    set bus1 : BusState := { bus with
      publishQueue := bus.publishQueue ++ [⟨t, d, true, true⟩] } with hbus1def
    set M1 : Machine := { setBus m b bus1 with
      trace := m.trace ++ [.enqueued b t.tid d] } with hM1def
    show publishAll M1 b t ds = _
    have hbusM1 : getBus M1 b = some bus1 := getBus_setBus_self m b bus1 hblen
    rw [ih M1 bus1 b t hbusM1 hdisp hpub]
    simp [hM1def, hbus1def, setBus, List.set_set, List.append_assoc]

theorem runAll_empty (fuel : Nat) (m : Machine) (hsched : m.scheduler = []) :
    runAll m fuel = (m, []) := by
  cases fuel with
  | zero => rfl
  | succ fuel =>
    unfold runAll
    rw [hsched]

theorem runAll_step (m : Machine) (b : Nat) (rest : List Nat) (fuel : Nat)
    (hs : m.scheduler = b :: rest) :
    runAll m (fuel + 1) =
      match drainRun { m with scheduler := rest } b fuel with
      | (m2, err?) =>
        match runAll m2 fuel with
        | (m3, errs) => (m3, err?.toList ++ errs) := by
  conv_lhs => unfold runAll
  rw [hs]

/-! #### Trace observation lemmas -/

theorem observedData_append (a c : List Event) (h : Nat) :
    observedData (a ++ c) h = observedData a h ++ observedData c h := by
  simp [observedData, List.filterMap_append]

theorem invokedIds_append (a c : List Event) :
    invokedIds (a ++ c) = invokedIds a ++ invokedIds c := by
  simp [invokedIds, List.filterMap_append]

theorem observedData_enqueued_map (b tid : Nat) (ds : List Nat) (h : Nat) :
    observedData (ds.map (fun d => Event.enqueued b tid d)) h = [] := by
  induction ds with
  | nil => rfl
  | cons d ds ih => simpa [observedData, List.filterMap_cons] using ih

theorem invokedIds_enqueued_map (b tid : Nat) (ds : List Nat) :
    invokedIds (ds.map (fun d => Event.enqueued b tid d)) = [] := by
  induction ds with
  | nil => rfl
  | cons d ds ih => simpa [invokedIds, List.filterMap_cons] using ih

theorem observedData_invoked_map_notmem (hs : List Nat) (d h : Nat) (hmem : h ∉ hs) :
    observedData (hs.map (fun x => Event.invoked x d)) h = [] := by
  induction hs with
  | nil => rfl
  | cons x xs ih =>
    have hx : ¬ x = h := fun e => hmem (by rw [← e]; exact List.mem_cons_self x xs)
    have hxs : h ∉ xs := fun e => hmem (List.mem_cons_of_mem x e)
    simpa [observedData, List.filterMap_cons, if_neg hx] using ih hxs

theorem observedData_invoked_map_mem (hs : List Nat) (d h : Nat)
    (hmem : h ∈ hs) (hnd : hs.Nodup) :
    observedData (hs.map (fun x => Event.invoked x d)) h = [d] := by
  induction hs with
  | nil => cases hmem
  | cons x xs ih =>
    rcases List.nodup_cons.mp hnd with ⟨hxnot, hndxs⟩
    by_cases hx : x = h
    · subst hx
      have hrest := observedData_invoked_map_notmem xs d x hxnot
      simp only [List.map_cons, observedData, List.filterMap_cons] at hrest ⊢
      simp [hrest]
    · have hmem' : h ∈ xs := by
        rcases List.mem_cons.mp hmem with h1 | h1
        · exact absurd h1.symm hx
        · exact h1
      simpa [observedData, List.filterMap_cons, if_neg hx] using ih hmem' hndxs

theorem observedData_invokeBlocks (m : Machine) (rs ds : List Nat) (rid : Nat)
    (hmem : rid ∈ rs) (hnd : (rs.map (hidOf m)).Nodup) :
    observedData (invokeBlocks m rs ds) (hidOf m rid) = ds := by
  induction ds with
  | nil => rfl
  | cons d ds ih =>
    have h1 : observedData (rs.map (fun r => Event.invoked (hidOf m r) d))
        (hidOf m rid) = [d] := by
      have := observedData_invoked_map_mem (rs.map (hidOf m)) d (hidOf m rid)
        (List.mem_map_of_mem _ hmem) hnd
      simpa [List.map_map, Function.comp] using this
    simp [invokeBlocks, observedData_append, h1, ih]

/-- C3: on a quiescent bus, a synchronous batch of `publish` calls only
enqueues — the trace gains exactly the `enqueued` events, no handler is
invoked, and the queue holds the tasks in issue order with one drain
scheduled; running the deferred drain then invokes the handlers so that each
handler observes the data values in exactly the publish order (FIFO); and a
`publish` on a disposed bus fails synchronously with the `DisposedError`. -/
theorem publish_fifo_order (m : Machine) (bus : BusState) (b : Nat) (t : Topic)
    (ds rs : List Nat)
    (hbus : getBus m b = some bus)
    (hdisp : bus.disposed = false) (hpub : bus.publishing = false)
    (hq : bus.publishQueue = [])
    (hch : bus.children = []) (hpar : bus.parent = none) (hls : bus.listeners = [])
    (hreg : registryGet bus.registry t.tid = some rs) (hne : rs ≠ [])
    (hrec : ∀ rid ∈ rs, recorderAt m t rid)
    (hthr : ∀ rid ∈ rs, thrOf m rid = false)
    (hsort : sortByPriority (regPriority m) rs = rs)
    (hnd : (rs.map (hidOf m)).Nodup)
    (hsched : m.scheduler = [])
    (hds : ds ≠ []) :
    publishAll m b t ds =
      { setBus m b { bus with
          publishQueue := ds.map (fun d => (⟨t, d, true, true⟩ : Task)),
          publishing := true } with
        trace := m.trace ++ ds.map (fun d => Event.enqueued b t.tid d),
        scheduler := [b] } ∧
    invokedIds (publishAll m b t ds).trace = invokedIds m.trace ∧
    runAll (publishAll m b t ds) (ds.length + 1) =
      ({ m with
          trace := m.trace ++ ds.map (fun d => Event.enqueued b t.tid d)
            ++ invokeBlocks m rs ds }, []) ∧
    (∀ rid ∈ rs,
      observedData (runAll (publishAll m b t ds) (ds.length + 1)).1.trace
          (hidOf m rid) =
        observedData m.trace (hidOf m rid) ++ ds) ∧
    (∀ (m₂ : Machine) (b₂ : Nat) (bus₂ : BusState) (t₂ : Topic) (d₂ : Nat),
      getBus m₂ b₂ = some bus₂ → bus₂.disposed = true →
      publish m₂ b₂ t₂ d₂ = Except.error disposedError) := by
  obtain ⟨d, ds', rfl⟩ : ∃ d ds', ds = d :: ds' := by
    cases ds with
    | nil => exact absurd rfl hds
    | cons d ds' => exact ⟨d, ds', rfl⟩
  have hblen : b < m.buses.length := lt_length_of_getElem?_some hbus
  set busF : BusState := { bus with
    publishQueue := (d :: ds').map (fun d => (⟨t, d, true, true⟩ : Task)),
    publishing := true } with hbusFdef
  set MF : Machine := { setBus m b busF with
    trace := m.trace ++ (d :: ds').map (fun d => Event.enqueued b t.tid d),
    scheduler := [b] } with hMFdef
  have hsyncEq : publishAll m b t (d :: ds') = MF := by
    have h1 := publish_start m bus b t d hbus hdisp hpub
    set bus1 : BusState := { bus with
      publishQueue := bus.publishQueue ++ [⟨t, d, true, true⟩],
      publishing := true } with hbus1def
    set M1 : Machine := { setBus m b bus1 with
      trace := m.trace ++ [Event.enqueued b t.tid d],
      scheduler := m.scheduler ++ [b] } with hM1def
    have hpA : publishAll m b t (d :: ds') = publishAll M1 b t ds' := by
      show publishAll (unwrapM (publish m b t d) m) b t ds' = _
      rw [h1]
      rfl
    have hbusM1 : getBus M1 b = some bus1 := getBus_setBus_self m b bus1 hblen
    have h2 := publishAll_publishing ds' M1 bus1 b t hbusM1 hdisp rfl
    rw [hpA, h2]
    simp [hMFdef, hM1def, hbus1def, hbusFdef, setBus, List.set_set, hq, hsched]
  have hbusMF : getBus MF b = some busF := getBus_setBus_self m b busF hblen
  set M1' : Machine := { MF with scheduler := [] } with hM1pdef
  have hbusM1' : getBus M1' b = some busF := getBus_setBus_self m b busF hblen
  have hdl := drainLoop_nothrow (ds'.length + 1) M1' busF b t (d :: ds') rs
    hbusM1' rfl hch hpar hls hreg hne
    (fun rid hr => hrec rid hr) (fun rid hr => hthr rid hr) hsort
    (by simp)
  have hbusEta : ({ bus with publishQueue := [], publishing := false } : BusState)
      = bus := by
    rw [← hq, ← hpub]
  have hsetid : m.buses.set b bus = m.buses :=
    congrArg Machine.buses (setBus_self m b bus hbus)
  have hdr : drainRun M1' b (ds'.length + 1) =
      ({ m with
          trace := m.trace ++ (d :: ds').map (fun d => Event.enqueued b t.tid d)
            ++ invokeBlocks m rs (d :: ds') }, none) := by
    unfold drainRun
    simp only [hbusM1']
    rw [if_neg (show ¬ busF.disposed = true from by simp [hbusFdef, hdisp])]
    simp only [hdl]
    unfold updateBus
    have hlen' : b < M1'.buses.length := by
      simpa [hM1pdef, hMFdef, setBus] using hblen
    set bus2 : BusState := { busF with publishQueue := [] } with hbus2def
    have hbus2get : getBus ({ setBus M1' b bus2 with
        trace := M1'.trace ++ invokeBlocks M1' rs (d :: ds') } : Machine) b =
        some bus2 := getBus_setBus_self M1' b bus2 hlen'
    simp only [hbus2get]
    have hib : invokeBlocks M1' rs (d :: ds') = invokeBlocks m rs (d :: ds') :=
      invokeBlocks_congr M1' m rs (d :: ds') rfl
    simp only [setBus, hM1pdef, hMFdef, hbus2def, hbusFdef, List.set_set, hib]
    rw [hbusEta]
    simp [hsetid, hsched]
    exact invokeBlocks_congr _ m rs (d :: ds') rfl
  have hrun : runAll MF ((d :: ds').length + 1) =
      ({ m with
          trace := m.trace ++ (d :: ds').map (fun d => Event.enqueued b t.tid d)
            ++ invokeBlocks m rs (d :: ds') }, []) := by
    rw [show (d :: ds').length + 1 = (ds'.length + 1) + 1 from by simp]
    rw [runAll_step MF b [] (ds'.length + 1) rfl]
    simp only [show ({ MF with scheduler := [] } : Machine) = M1' from rfl]
    simp only [hdr]
    have hre : runAll ({ m with
        trace := m.trace ++ (d :: ds').map (fun d => Event.enqueued b t.tid d)
          ++ invokeBlocks m rs (d :: ds') } : Machine) (ds'.length + 1) =
        ({ m with
          trace := m.trace ++ (d :: ds').map (fun d => Event.enqueued b t.tid d)
            ++ invokeBlocks m rs (d :: ds') }, []) :=
      runAll_empty (ds'.length + 1) _ hsched
    rw [hre]
    rfl
  refine ⟨hsyncEq, ?_, ?_, ?_, ?_⟩
  · rw [hsyncEq]
    simp [hMFdef, invokedIds_append, invokedIds_enqueued_map]
    exact invokedIds_enqueued_map b t.tid (d :: ds')
  · rw [hsyncEq]
    exact hrun
  · intro rid hr
    rw [hsyncEq, hrun]
    simp only []
    rw [observedData_append, observedData_append, observedData_enqueued_map,
      observedData_invokeBlocks m rs (d :: ds') rid hr hnd]
    simp
  · intro m₂ b₂ bus₂ t₂ d₂ hb hd
    exact publish_disposed m₂ b₂ bus₂ t₂ d₂ hb hd

/-- Witness for the C3 theorem: two publishes on the single-recorder bus are
observed by its handler as `[5, 6]`, in publish order. -/
theorem publish_fifo_order_witness :
    (0 : Nat) ∈ ([0] : List Nat) ∧
    observedData (runAll (publishAll mW3 0 topicC [5, 6]) 3).1.trace (hidOf mW3 0) =
      observedData mW3.trace (hidOf mW3 0) ++ [5, 6] :=
  ⟨by decide,
    (publish_fifo_order mW3 busW3 0 topicC [5, 6] [0] (by decide) (by decide)
      (by decide) (by decide) (by decide) (by decide) (by decide) (by decide)
      (by decide)
      (by intro rid hr; rw [List.mem_singleton.mp hr]; exact ⟨rfl, rfl, rfl⟩)
      (by decide) (by decide) (by decide) (by decide)
      (by decide)).2.2.2.1 0 (by decide)⟩

/-- C10: on an unsafe (`safePublishing = false`) quiescent bus, a publish
whose dispatch contains a throwing handler leaves the drain microtask with
an uncaught error and the `publishing` flag still set; afterwards every
`publish` on that bus succeeds and appends its task to the queue, but the
scheduler never receives another drain, so no later message ever invokes a
handler on that bus. -/
theorem throwing_drain_wedges_bus (m : Machine) (bus : BusState) (b : Nat)
    (t : Topic) (d : Nat) (e : JsErr) (rs : List Nat) (M' : Machine)
    (hbus : getBus m b = some bus)
    (hdisp : bus.disposed = false) (hpub : bus.publishing = false)
    (hq : bus.publishQueue = [])
    (hch : bus.children = []) (hpar : bus.parent = none) (hls : bus.listeners = [])
    (hreg : registryGet bus.registry t.tid = some rs) (hne : rs ≠ [])
    (hrec : ∀ rid ∈ rs, recorderAt m t rid)
    (hsort : sortByPriority (regPriority m) rs = rs)
    (hsafe : bus.safePublishing = false)
    (hsched : m.scheduler = [])
    (he : unsafeErr m d rs = some e)
    (hM' : M' = { setBus m b { bus with publishing := true } with
        trace := m.trace ++ [Event.enqueued b t.tid d] ++ unsafeBlock m d rs }) :
    runAll (unwrapM (publish m b t d) m) 2 = (M', [e]) ∧
    getBus M' b = some { bus with publishing := true } ∧
    (∀ (t' : Topic) (d' : Nat),
      publish M' b t' d' = Except.ok { setBus M' b { bus with
          publishQueue := [⟨t', d', true, true⟩], publishing := true } with
        trace := M'.trace ++ [Event.enqueued b t'.tid d'] }) ∧
    (∀ (t' : Topic) (d' : Nat),
      (unwrapM (publish M' b t' d') M').scheduler = m.scheduler) ∧
    (∀ (t' : Topic) (ds' : List Nat) (fuel : Nat),
      invokedIds (runAll (publishAll M' b t' ds') fuel).1.trace =
        invokedIds M'.trace) := by
  have hblen : b < m.buses.length := lt_length_of_getElem?_some hbus
  set bus1 : BusState := { bus with
    publishQueue := [⟨t, d, true, true⟩], publishing := true } with hbus1def
  set M1 : Machine := { setBus m b bus1 with
    trace := m.trace ++ [Event.enqueued b t.tid d],
    scheduler := [b] } with hM1def
  have h1 : publish m b t d = Except.ok M1 := by
    rw [publish_start m bus b t d hbus hdisp hpub]
    simp [hM1def, hbus1def, hq, hsched]
  have hup : unwrapM (publish m b t d) m = M1 := by rw [h1]; rfl
  set bus2 : BusState := { bus with publishing := true } with hbus2def
  have hbusM1 : getBus M1 b = some bus1 := getBus_setBus_self m b bus1 hblen
  set M1s : Machine := { M1 with scheduler := [] } with hM1sdef
  have hbusM1s : getBus M1s b = some bus1 := getBus_setBus_self m b bus1 hblen
  set m1 : Machine := setBus M1s b { bus1 with publishQueue := [] } with hm1def
  have hlen1 : b < M1s.buses.length := by
    simpa [hM1sdef, hM1def, setBus] using hblen
  have hbusm1 : getBus m1 b = some { bus1 with publishQueue := [] } :=
    getBus_setBus_self M1s b _ hlen1
  have hpm := publishMessage_single_unsafe m1 { bus1 with publishQueue := [] } b t d true rs
    hbusm1 hch hpar hreg hne (fun rid hr => hrec rid hr) hsort hsafe
  have hdl : drainLoop M1s b 1 =
      ({ m1 with trace := m1.trace ++ unsafeBlock m1 d rs }, unsafeErr m1 d rs) := by
    show drainLoop M1s b (0 + 1) = _
    unfold drainLoop
    simp only [hbusM1s]
    show (match publishMessage m1 b ⟨t, d, true, true⟩ with
      | (m2, some e) => (m2, some e)
      | (m2, none) => drainLoop m2 b 0) = _
    rw [hpm]
    have hlse : ({ bus1 with publishQueue := [] } : BusState).listeners = [] := hls
    rw [hlse]
    have hee : unsafeErr m1 d rs = some e := by
      rw [unsafeErr_congr m1 m d rs rfl]; exact he
    simp [hee]
  have hm2M' : ({ m1 with trace := m1.trace ++ unsafeBlock m1 d rs } : Machine) = M' := by
    rw [hM']
    have hub : unsafeBlock m1 d rs = unsafeBlock m d rs :=
      unsafeBlock_congr m1 m d rs rfl
    simp only [hm1def, hM1sdef, hM1def, hbus1def, hbus2def, setBus, List.set_set, hub]
    simp [hq, hsched, List.append_assoc]
    exact unsafeBlock_congr _ m d rs rfl
  have hrun1 : runAll (unwrapM (publish m b t d) m) 2 = (M', [e]) := by
    rw [hup]
    rw [runAll_step M1 b [] 1 rfl]
    simp only [show ({ M1 with scheduler := [] } : Machine) = M1s from rfl]
    have hdr : drainRun M1s b 1 = (M', some e) := by
      unfold drainRun
      simp only [hbusM1s]
      rw [if_neg (show ¬ bus1.disposed = true from by simp [hbus1def, hdisp])]
      rw [hdl, hm2M']
      rw [show unsafeErr m1 d rs = some e from by
        rw [unsafeErr_congr m1 m d rs rfl]; exact he]
    rw [hdr]
    have hM'sched : M'.scheduler = [] := by rw [hM']; simp [setBus, hsched]
    rw [runAll_empty 1 M' hM'sched]
    rfl
  have hbusM' : getBus M' b = some bus2 := by
    rw [hM']
    exact getBus_setBus_self m b bus2 hblen
  have hpub2 : ∀ (t' : Topic) (d' : Nat),
      publish M' b t' d' = Except.ok { setBus M' b { bus with
          publishQueue := [⟨t', d', true, true⟩], publishing := true } with
        trace := M'.trace ++ [Event.enqueued b t'.tid d'] } := by
    intro t' d'
    rw [publish_queued M' bus2 b t' d' hbusM' hdisp rfl]
    simp [hbus2def, hq]
  refine ⟨hrun1, hbusM', hpub2, ?_, ?_⟩
  · intro t' d'
    rw [hpub2 t' d']
    show ({ setBus M' b { bus with
        publishQueue := [⟨t', d', true, true⟩], publishing := true } with
      trace := M'.trace ++ [Event.enqueued b t'.tid d'] } : Machine).scheduler =
      m.scheduler
    show M'.scheduler = m.scheduler
    rw [hM']
    rfl
  · intro t' ds' fuel
    have hpa := publishAll_publishing ds' M' bus2 b t' hbusM' hdisp rfl
    rw [hpa]
    set X : Machine := { setBus M' b { bus2 with
      publishQueue := bus2.publishQueue ++
        ds'.map (fun d => (⟨t', d, true, true⟩ : Task)) } with
      trace := M'.trace ++ ds'.map (fun d => Event.enqueued b t'.tid d) } with hXdef
    have hXs : X.scheduler = [] := by
      have : M'.scheduler = [] := by rw [hM']; simp [setBus, hsched]
      simpa [hXdef, setBus] using this
    rw [runAll_empty fuel X hXs]
    simp only [hXdef]
    rw [invokedIds_append, invokedIds_enqueued_map]
    simp

/-- Witness for the C10 theorem: on the one-throwing-handler unsafe bus, the
publish of data 5 drains into an uncaught wrapped error and leaves the wedged
machine `MW10`. -/
theorem throwing_drain_wedges_bus_witness :
    unsafeErr mW10 5 [0] = some eW10 ∧
    runAll (unwrapM (publish mW10 0 topicC 5) mW10) 2 = (MW10, [eW10]) :=
  ⟨by decide,
    (throwing_drain_wedges_bus mW10 busW10 0 topicC 5 eW10 [0] MW10
      (by decide) (by decide) (by decide) (by decide) (by decide) (by decide)
      (by decide) (by decide) (by decide)
      (by intro rid hr; rw [List.mem_singleton.mp hr]; exact ⟨rfl, rfl, rfl⟩)
      (by decide) (by decide) (by decide) (by decide) rfl).1⟩

theorem unsafeBlock_first_throw (m : Machine) (d : Nat) (rs1 rs2 : List Nat) (rid0 : Nat)
    (h1 : ∀ rid ∈ rs1, thrOf m rid = false) (h0 : thrOf m rid0 = true) :
    unsafeBlock m d (rs1 ++ rid0 :: rs2) =
      (rs1 ++ [rid0]).map (fun rid => Event.invoked (hidOf m rid) d) := by
  induction rs1 with
  | nil => simp [unsafeBlock, h0]
  | cons r rs ih =>
    have hr : thrOf m r = false := h1 r (List.mem_cons_self r rs)
    have hrest : ∀ rid ∈ rs, thrOf m rid = false :=
      fun rid hrid => h1 rid (List.mem_cons_of_mem r hrid)
    simp [unsafeBlock, hr, ih hrest]

theorem unsafeErr_first_throw (m : Machine) (d : Nat) (rs1 rs2 : List Nat) (rid0 : Nat)
    (h1 : ∀ rid ∈ rs1, thrOf m rid = false) (h0 : thrOf m rid0 = true) :
    unsafeErr m d (rs1 ++ rid0 :: rs2) =
      some (JsErr.taggedCause (tagMsg "unhandled error in message handler")
        (JsErr.raw (hidOf m rid0) d)) := by
  induction rs1 with
  | nil => simp [unsafeErr, h0]
  | cons r rs ih =>
    have hr : thrOf m r = false := h1 r (List.mem_cons_self r rs)
    simp [unsafeErr, hr, ih (fun rid hrid => h1 rid (List.mem_cons_of_mem r hrid))]

theorem safeBlock_single_throw (m : Machine) (b d : Nat) (rs1 rs2 : List Nat) (rid0 : Nat)
    (h1 : ∀ rid ∈ rs1, thrOf m rid = false) (h2 : ∀ rid ∈ rs2, thrOf m rid = false)
    (h0 : thrOf m rid0 = true) :
    safeBlock m b d (rs1 ++ rid0 :: rs2) =
      rs1.map (fun rid => Event.invoked (hidOf m rid) d) ++
      Event.invoked (hidOf m rid0) d ::
      Event.errorHandled b (JsErr.raw (hidOf m rid0) d) ::
      rs2.map (fun rid => Event.invoked (hidOf m rid) d) := by
  induction rs1 with
  | nil =>
    simp only [List.nil_append, List.map_nil]
    rw [show safeBlock m b d (rid0 :: rs2) = Event.invoked (hidOf m rid0) d ::
        Event.errorHandled b (JsErr.raw (hidOf m rid0) d) :: safeBlock m b d rs2 from by
      simp [safeBlock, h0]]
    rw [safeBlock_nothrow m b d rs2 h2]
  | cons r rs ih =>
    have hr : thrOf m r = false := h1 r (List.mem_cons_self r rs)
    have hrest : ∀ rid ∈ rs, thrOf m rid = false :=
      fun rid hrid => h1 rid (List.mem_cons_of_mem r hrid)
    simp only [List.cons_append, List.map_cons]
    rw [show safeBlock m b d (r :: (rs ++ rid0 :: rs2)) = Event.invoked (hidOf m r) d ::
        safeBlock m b d (rs ++ rid0 :: rs2) from by simp [safeBlock, hr]]
    rw [ih hrest]

theorem runAll_single_task_unsafe (m : Machine) (bus : BusState) (b : Nat) (t : Topic)
    (d : Nat) (e : JsErr) (rs : List Nat)
    (hbus : getBus m b = some bus)
    (hdisp : bus.disposed = false) (hq : bus.publishQueue = [])
    (hch : bus.children = []) (hpar : bus.parent = none) (hls : bus.listeners = [])
    (hreg : registryGet bus.registry t.tid = some rs) (hne : rs ≠ [])
    (hrec : ∀ rid ∈ rs, recorderAt m t rid)
    (hsort : sortByPriority (regPriority m) rs = rs)
    (hsafe : bus.safePublishing = false)
    (hsched : m.scheduler = [])
    (he : unsafeErr m d rs = some e) :
    runAll ({ setBus m b { bus with
        publishQueue := [⟨t, d, true, true⟩],
        publishing := true } with
      trace := m.trace ++ [Event.enqueued b t.tid d], scheduler := [b] } : Machine) 2 =
      ({ setBus m b { bus with publishing := true } with
        trace := m.trace ++ [Event.enqueued b t.tid d] ++ unsafeBlock m d rs }, [e]) := by
  have hblen : b < m.buses.length := lt_length_of_getElem?_some hbus
  set bus1 : BusState := { bus with
    publishQueue := [⟨t, d, true, true⟩], publishing := true } with hbus1def
  set M1 : Machine := { setBus m b bus1 with
    trace := m.trace ++ [Event.enqueued b t.tid d],
    scheduler := [b] } with hM1def
  show runAll M1 2 = _
  set M1s : Machine := { M1 with scheduler := [] } with hM1sdef
  have hbusM1s : getBus M1s b = some bus1 := getBus_setBus_self m b bus1 hblen
  set m1 : Machine := setBus M1s b { bus1 with publishQueue := [] } with hm1def
  have hlen1 : b < M1s.buses.length := by
    simpa [hM1sdef, hM1def, setBus] using hblen
  have hbusm1 : getBus m1 b = some { bus1 with publishQueue := [] } :=
    getBus_setBus_self M1s b _ hlen1
  have hpm := publishMessage_single_unsafe m1 { bus1 with publishQueue := [] } b t d true rs
    hbusm1 hch hpar hreg hne (fun rid hr => hrec rid hr) hsort hsafe
  have hdl : drainLoop M1s b 1 =
      ({ m1 with trace := m1.trace ++ unsafeBlock m1 d rs }, unsafeErr m1 d rs) := by
    show drainLoop M1s b (0 + 1) = _
    unfold drainLoop
    simp only [hbusM1s]
    show (match publishMessage m1 b ⟨t, d, true, true⟩ with
      | (m2, some e) => (m2, some e)
      | (m2, none) => drainLoop m2 b 0) = _
    rw [hpm]
    have hlse : ({ bus1 with publishQueue := [] } : BusState).listeners = [] := hls
    rw [hlse]
    have hee : unsafeErr m1 d rs = some e := by
      rw [unsafeErr_congr m1 m d rs rfl]; exact he
    simp [hee]
  have hm2M' : ({ m1 with trace := m1.trace ++ unsafeBlock m1 d rs } : Machine) =
      { setBus m b { bus with publishing := true } with
        trace := m.trace ++ [Event.enqueued b t.tid d] ++ unsafeBlock m d rs } := by
    have hub : unsafeBlock m1 d rs = unsafeBlock m d rs :=
      unsafeBlock_congr m1 m d rs rfl
    simp only [hm1def, hM1sdef, hM1def, hbus1def, setBus, List.set_set, hub]
    simp [hq, hsched, List.append_assoc]
    exact unsafeBlock_congr _ m d rs rfl
  rw [runAll_step M1 b [] 1 rfl]
  simp only [show ({ M1 with scheduler := [] } : Machine) = M1s from rfl]
  have hdr : drainRun M1s b 1 =
      ({ setBus m b { bus with publishing := true } with
        trace := m.trace ++ [Event.enqueued b t.tid d] ++ unsafeBlock m d rs },
        some e) := by
    unfold drainRun
    simp only [hbusM1s]
    rw [if_neg (show ¬ bus1.disposed = true from by simp [hbus1def, hdisp])]
    rw [hdl, hm2M']
    rw [show unsafeErr m1 d rs = some e from by
      rw [unsafeErr_congr m1 m d rs rfl]; exact he]
  rw [hdr]
  have hsch' : ({ setBus m b { bus with publishing := true } with
      trace := m.trace ++ [Event.enqueued b t.tid d] ++ unsafeBlock m d rs } :
        Machine).scheduler = [] := by
    simp [setBus, hsched]
  rw [runAll_empty 1 _ hsch']
  rfl

theorem runAll_single_task_safe (m : Machine) (bus : BusState) (b : Nat) (t : Topic)
    (d : Nat) (rs : List Nat)
    (hbus : getBus m b = some bus)
    (hdisp : bus.disposed = false) (hpub : bus.publishing = false)
    (hq : bus.publishQueue = [])
    (hch : bus.children = []) (hpar : bus.parent = none) (hls : bus.listeners = [])
    (hreg : registryGet bus.registry t.tid = some rs) (hne : rs ≠ [])
    (hrec : ∀ rid ∈ rs, recorderAt m t rid)
    (hsort : sortByPriority (regPriority m) rs = rs)
    (hsafe : bus.safePublishing = true)
    (hsched : m.scheduler = []) :
    runAll ({ setBus m b { bus with
        publishQueue := [⟨t, d, true, true⟩],
        publishing := true } with
      trace := m.trace ++ [Event.enqueued b t.tid d], scheduler := [b] } : Machine) 2 =
      ({ m with
        trace := m.trace ++ [Event.enqueued b t.tid d] ++ safeBlock m b d rs }, []) := by
  have hblen : b < m.buses.length := lt_length_of_getElem?_some hbus
  set bus1 : BusState := { bus with
    publishQueue := [⟨t, d, true, true⟩], publishing := true } with hbus1def
  set M1 : Machine := { setBus m b bus1 with
    trace := m.trace ++ [Event.enqueued b t.tid d],
    scheduler := [b] } with hM1def
  show runAll M1 2 = _
  set M1s : Machine := { M1 with scheduler := [] } with hM1sdef
  have hbusM1s : getBus M1s b = some bus1 := getBus_setBus_self m b bus1 hblen
  set m1 : Machine := setBus M1s b { bus1 with publishQueue := [] } with hm1def
  have hlen1 : b < M1s.buses.length := by
    simpa [hM1sdef, hM1def, setBus] using hblen
  have hbusm1 : getBus m1 b = some { bus1 with publishQueue := [] } :=
    getBus_setBus_self M1s b _ hlen1
  have hpm := publishMessage_single_safe m1 { bus1 with publishQueue := [] } b t d true rs
    hbusm1 hch hpar hreg hne (fun rid hr => hrec rid hr) hsort hsafe
  set m2 : Machine := { m1 with trace := m1.trace ++ safeBlock m1 b d rs } with hm2def
  have hdl : drainLoop M1s b 1 = (m2, none) := by
    show drainLoop M1s b (0 + 1) = _
    unfold drainLoop
    simp only [hbusM1s]
    show (match publishMessage m1 b ⟨t, d, true, true⟩ with
      | (mx, some e) => (mx, some e)
      | (mx, none) => drainLoop mx b 0) = _
    rw [hpm]
    have hlse : ({ bus1 with publishQueue := [] } : BusState).listeners = [] := hls
    rw [hlse]
    simp [hm2def]
    rfl
  have hbusEta : ({ bus with publishQueue := [], publishing := false } : BusState)
      = bus := by
    rw [← hq, ← hpub]
  have hsetid : m.buses.set b bus = m.buses :=
    congrArg Machine.buses (setBus_self m b bus hbus)
  have hdr : drainRun M1s b 1 =
      ({ m with
        trace := m.trace ++ [Event.enqueued b t.tid d] ++ safeBlock m b d rs },
        none) := by
    unfold drainRun
    simp only [hbusM1s]
    rw [if_neg (show ¬ bus1.disposed = true from by simp [hbus1def, hdisp])]
    rw [hdl]
    unfold updateBus
    have hlen2 : b < M1s.buses.length := hlen1
    have hbusm2 : getBus m2 b = some { bus1 with publishQueue := [] } := hbusm1
    simp only [hbusm2]
    have hsb : safeBlock m1 b d rs = safeBlock m b d rs :=
      safeBlock_congr m1 m b d rs rfl
    simp only [setBus, hm2def, hm1def, hM1sdef, hM1def, hbus1def, List.set_set, hsb]
    rw [hbusEta]
    simp [hsetid, hq, hsched]
    exact safeBlock_congr _ m b d rs rfl
  rw [runAll_step M1 b [] 1 rfl]
  simp only [show ({ M1 with scheduler := [] } : Machine) = M1s from rfl]
  rw [hdr]
  have hsch' : ({ m with
      trace := m.trace ++ [Event.enqueued b t.tid d] ++ safeBlock m b d rs } :
        Machine).scheduler = [] := hsched
  rw [runAll_empty 1 _ hsch']
  rfl

/-- C2 (amended): with `safePublishing = false`, a throwing handler does not
raise at the `publish` call — the call returns normally; the wrapped error
(original error as cause) instead escapes the deferred drain microtask, and
the handlers after the thrower in the same delivery task are not invoked.
With `safePublishing = true`, nothing escapes, the `errorHandler` is called
exactly once with the thrown error, and dispatch continues to the remaining
registrations. -/
theorem throwing_handler_dispatch (m : Machine) (bus : BusState) (b : Nat)
    (t : Topic) (d : Nat) (rs1 rs2 : List Nat) (rid0 : Nat) (M1 Mu Ms : Machine)
    (hbus : getBus m b = some bus)
    (hdisp : bus.disposed = false) (hpub : bus.publishing = false)
    (hq : bus.publishQueue = [])
    (hch : bus.children = []) (hpar : bus.parent = none) (hls : bus.listeners = [])
    (hreg : registryGet bus.registry t.tid = some (rs1 ++ rid0 :: rs2))
    (hrec : ∀ rid ∈ rs1 ++ rid0 :: rs2, recorderAt m t rid)
    (hsort : sortByPriority (regPriority m) (rs1 ++ rid0 :: rs2) = rs1 ++ rid0 :: rs2)
    (hthr1 : ∀ rid ∈ rs1, thrOf m rid = false)
    (hthr2 : ∀ rid ∈ rs2, thrOf m rid = false)
    (hthr0 : thrOf m rid0 = true)
    (hsched : m.scheduler = [])
    (hM1 : M1 = { setBus m b { bus with
        publishQueue := [⟨t, d, true, true⟩],
        publishing := true } with
      trace := m.trace ++ [Event.enqueued b t.tid d], scheduler := [b] })
    (hMu : Mu = { setBus m b { bus with publishing := true } with
      trace := m.trace ++ [Event.enqueued b t.tid d] ++
        (rs1 ++ [rid0]).map (fun rid => Event.invoked (hidOf m rid) d) })
    (hMs : Ms = { m with trace := m.trace ++ [Event.enqueued b t.tid d] ++
        (rs1.map (fun rid => Event.invoked (hidOf m rid) d) ++
          Event.invoked (hidOf m rid0) d ::
          Event.errorHandled b (JsErr.raw (hidOf m rid0) d) ::
          rs2.map (fun rid => Event.invoked (hidOf m rid) d)) }) :
    publish m b t d = Except.ok M1 ∧
    (bus.safePublishing = false →
      runAll M1 2 =
        (Mu, [JsErr.taggedCause (tagMsg "unhandled error in message handler")
          (JsErr.raw (hidOf m rid0) d)])) ∧
    (bus.safePublishing = true → runAll M1 2 = (Ms, [])) := by
  have hne : rs1 ++ rid0 :: rs2 ≠ [] := by cases rs1 <;> simp
  refine ⟨?_, ?_, ?_⟩
  · rw [publish_start m bus b t d hbus hdisp hpub, hM1]
    simp [hq, hsched]
  · intro hsafe
    rw [hM1, hMu, ← unsafeBlock_first_throw m d rs1 rs2 rid0 hthr1 hthr0]
    exact runAll_single_task_unsafe m bus b t d _ (rs1 ++ rid0 :: rs2)
      hbus hdisp hq hch hpar hls hreg hne hrec hsort hsafe hsched
      (unsafeErr_first_throw m d rs1 rs2 rid0 hthr1 hthr0)
  · intro hsafe
    rw [hM1, hMs, ← safeBlock_single_throw m b d rs1 rs2 rid0 hthr1 hthr2 hthr0]
    exact runAll_single_task_safe m bus b t d (rs1 ++ rid0 :: rs2)
      hbus hdisp hpub hq hch hpar hls hreg hne hrec hsort hsafe hsched

/-- Witness for the C2 amended theorem on the one-throwing-handler unsafe
bus: the publish call returns `.ok` and the wrapped error escapes the drain. -/
theorem throwing_handler_dispatch_witness :
    busW10.safePublishing = false ∧
    publish mW10 0 topicC 5 = Except.ok M1W2 ∧
    runAll M1W2 2 = (MuW2,
      [JsErr.taggedCause (tagMsg "unhandled error in message handler")
        (JsErr.raw (hidOf mW10 0) 5)]) := by
  have h := throwing_handler_dispatch mW10 busW10 0 topicC 5 [] [] 0 M1W2 MuW2 MsW2
    (by decide) (by decide) (by decide) (by decide) (by decide) (by decide)
    (by decide) (by decide)
    (by intro rid hr; rw [List.mem_singleton.mp hr]; exact ⟨rfl, rfl, rfl⟩)
    (by decide) (by decide) (by decide) (by decide) (by decide) rfl rfl rfl
  exact ⟨by decide, h.1, h.2.1 (by decide)⟩

/-! #### Sort-order lemmas -/

theorem mem_insertByPriority (p : Nat → Int) (x a : Nat) (l : List Nat) :
    a ∈ insertByPriority p x l ↔ a = x ∨ a ∈ l := by
  induction l with
  | nil => simp [insertByPriority]
  | cons y ys ih =>
    unfold insertByPriority
    by_cases hxy : p x ≤ p y
    · simp [hxy]
    · simp only [hxy, if_false, List.mem_cons, ih]
      tauto

theorem mem_sortByPriority (p : Nat → Int) (a : Nat) (l : List Nat) :
    a ∈ sortByPriority p l ↔ a ∈ l := by
  induction l with
  | nil => simp [sortByPriority]
  | cons x xs ih =>
    simp [sortByPriority, mem_insertByPriority, ih]

theorem insertByPriority_perm (p : Nat → Int) (x : Nat) (l : List Nat) :
    (insertByPriority p x l).Perm (x :: l) := by
  induction l with
  | nil => simp [insertByPriority]
  | cons y ys ih =>
    unfold insertByPriority
    by_cases hxy : p x ≤ p y
    · simp [hxy]
    · simp only [hxy, if_false]
      exact (ih.cons y).trans (List.Perm.swap x y ys)

theorem sortByPriority_perm (p : Nat → Int) (l : List Nat) :
    (sortByPriority p l).Perm l := by
  induction l with
  | nil => simp [sortByPriority]
  | cons x xs ih =>
    exact (insertByPriority_perm p x (sortByPriority p xs)).trans (ih.cons x)

theorem insertByPriority_sorted (p : Nat → Int) (x : Nat) (l : List Nat)
    (h : List.Pairwise (fun a b => p a ≤ p b) l) :
    List.Pairwise (fun a b => p a ≤ p b) (insertByPriority p x l) := by
  induction l with
  | nil => simp [insertByPriority]
  | cons y ys ih =>
    rcases List.pairwise_cons.mp h with ⟨hy, hys⟩
    unfold insertByPriority
    by_cases hxy : p x ≤ p y
    · rw [if_pos hxy]
      refine List.pairwise_cons.mpr ⟨?_, h⟩
      intro a ha
      rcases List.mem_cons.mp ha with rfl | ha
      · exact hxy
      · exact le_trans hxy (hy a ha)
    · rw [if_neg hxy]
      push_neg at hxy
      refine List.pairwise_cons.mpr ⟨?_, ih hys⟩
      intro a ha
      rcases (mem_insertByPriority p x a ys).mp ha with rfl | ha
      · exact le_of_lt hxy
      · exact hy a ha

theorem sortByPriority_sorted (p : Nat → Int) (l : List Nat) :
    List.Pairwise (fun a b => p a ≤ p b) (sortByPriority p l) := by
  induction l with
  | nil => simp [sortByPriority]
  | cons x xs ih => exact insertByPriority_sorted p x (sortByPriority p xs) ih

theorem filter_insertByPriority (p : Nat → Int) (x : Nat) (l : List Nat) (c : Int) :
    (insertByPriority p x l).filter (fun a => decide (p a = c)) =
      if p x = c then x :: l.filter (fun a => decide (p a = c))
      else l.filter (fun a => decide (p a = c)) := by
  induction l with
  | nil => by_cases hx : p x = c <;> simp [insertByPriority, hx]
  | cons y ys ih =>
    unfold insertByPriority
    by_cases hxy : p x ≤ p y
    · rw [if_pos hxy]
      by_cases hx : p x = c <;> simp [List.filter_cons, hx]
    · rw [if_neg hxy]
      push_neg at hxy
      by_cases hx : p x = c
      · have hy : ¬ p y = c := by intro hyc; rw [hx] at hxy; omega
        simp [List.filter_cons, hx, hy, ih]
      · by_cases hy : p y = c <;> simp [List.filter_cons, hx, hy, ih]

theorem filter_sortByPriority (p : Nat → Int) (l : List Nat) (c : Int) :
    (sortByPriority p l).filter (fun a => decide (p a = c)) =
      l.filter (fun a => decide (p a = c)) := by
  induction l with
  | nil => rfl
  | cons x xs ih =>
    show (insertByPriority p x (sortByPriority p xs)).filter _ = _
    rw [filter_insertByPriority]
    by_cases hx : p x = c <;> simp [List.filter_cons, hx, ih]

theorem invokedIds_invoked_map (hs : List Nat) (d : Nat) :
    invokedIds (hs.map (fun x => Event.invoked x d)) = hs := by
  induction hs with
  | nil => rfl
  | cons x xs ih => simpa [invokedIds, List.filterMap_cons] using ih

theorem publishMessage_single_sorting (m : Machine) (bus : BusState) (b : Nat)
    (t : Topic) (d : Nat) (lflag : Bool) (rs : List Nat)
    (hbus : getBus m b = some bus) (hch : bus.children = []) (hpar : bus.parent = none)
    (hreg : registryGet bus.registry t.tid = some rs) (hne : rs ≠ [])
    (hrec : ∀ rid ∈ rs, recorderAt m t rid)
    (hsafe : bus.safePublishing = true) :
    publishMessage m b ⟨t, d, true, lflag⟩ =
      ({ setBus m b { bus with
          registry := registryReplace bus.registry t.tid
            (sortByPriority (regPriority m) rs) } with
        trace := m.trace ++
          ((if lflag then bus.listeners.map
            (fun lid => Event.listened b lid t.tid d rs.length) else []) ++
          safeBlock m b d (sortByPriority (regPriority m) rs)) }, none) := by
  have hlen : 0 < rs.length := List.length_pos.mpr hne
  have hm2 : (if lflag then
        bus.listeners.foldl (fun acc lid =>
          emit acc (.listened b lid t.tid d rs.length)) m
      else m) =
      { m with trace := m.trace ++
        (if lflag then bus.listeners.map
          (fun lid => Event.listened b lid t.tid d rs.length) else []) } := by
    cases lflag with
    | true => simp [foldl_emit_map]
    | false => simp
  set sorted : List Nat := sortByPriority (regPriority m) rs with hsorteddef
  set bus3 : BusState := { bus with
    registry := registryReplace bus.registry t.tid sorted } with hbus3def
  have hcommon : ∀ (M2 : Machine), M2 = { m with trace := m.trace ++
      (if lflag then bus.listeners.map
        (fun lid => Event.listened b lid t.tid d rs.length) else []) } →
      dispatchLoop (updateBus M2 b fun s =>
          { s with
            registry := registryReplace s.registry t.tid
              (sortByPriority (regPriority M2) rs) })
        b t d bus.safePublishing 0 (sortByPriority (regPriority M2) rs).length =
      ({ setBus m b bus3 with
        trace := m.trace ++
          ((if lflag then bus.listeners.map
            (fun lid => Event.listened b lid t.tid d rs.length) else []) ++
          safeBlock m b d sorted) }, none) := by
    intro M2 hM2def
    have hbus2 : getBus M2 b = some bus := by rw [hM2def]; exact hbus
    have hblen2 : b < M2.buses.length := by
      rw [hM2def]; exact lt_length_of_getElem?_some hbus
    rw [show regPriority M2 = regPriority m from by rw [hM2def]; rfl]
    rw [← hsorteddef]
    have hup : (updateBus M2 b fun s =>
        { s with registry := registryReplace s.registry t.tid sorted }) =
        setBus M2 b bus3 := by
      unfold updateBus
      rw [hbus2]
    rw [hup, hsafe]
    have hbus3get : getBus (setBus M2 b bus3) b = some bus3 :=
      getBus_setBus_self M2 b bus3 hblen2
    have hreg3 : registryGet bus3.registry t.tid = some sorted := by
      show registryGet (registryReplace bus.registry t.tid sorted) t.tid = some sorted
      rw [registryGet_replace_self, hreg]
      rfl
    have hrec3 : ∀ rid ∈ sorted, recorderAt (setBus M2 b bus3) t rid := by
      intro rid hr
      have : rid ∈ rs := (mem_sortByPriority (regPriority m) rid rs).mp hr
      have h0 : recorderAt m t rid := hrec rid this
      rw [hM2def] at hbus3get ⊢
      exact h0
    rw [dispatchLoop_safe sorted.length (setBus M2 b bus3) bus3 b t d 0 sorted
      hbus3get hreg3 hrec3 (by omega)]
    rw [List.drop_zero]
    rw [safeBlock_congr (setBus M2 b bus3) m b d sorted (by rw [hM2def]; rfl)]
    rw [hM2def]
    simp [setBus, List.append_assoc]
  cases hdir : t.broadcastDirection with
  | children =>
    simp only [publishMessage, hbus, hch, hdir, broadcastChildren, hreg, Option.getD_some,
      if_true, ite_true]
    rw [if_pos hlen]
    rw [hm2]
    exact hcommon _ rfl
  | parent =>
    simp only [publishMessage, hbus, hpar, hdir, hreg, Option.getD_some, if_true, ite_true]
    rw [if_pos hlen]
    rw [hm2]
    exact hcommon _ rfl

theorem runAll_single_task_sorting (m : Machine) (bus : BusState) (b : Nat) (t : Topic)
    (d : Nat) (rs : List Nat)
    (hbus : getBus m b = some bus)
    (hdisp : bus.disposed = false) (hpub : bus.publishing = false)
    (hq : bus.publishQueue = [])
    (hch : bus.children = []) (hpar : bus.parent = none) (hls : bus.listeners = [])
    (hreg : registryGet bus.registry t.tid = some rs) (hne : rs ≠ [])
    (hrec : ∀ rid ∈ rs, recorderAt m t rid)
    (hsafe : bus.safePublishing = true)
    (hsched : m.scheduler = []) :
    runAll ({ setBus m b { bus with
        publishQueue := [⟨t, d, true, true⟩],
        publishing := true } with
      trace := m.trace ++ [Event.enqueued b t.tid d], scheduler := [b] } : Machine) 2 =
      ({ setBus m b { bus with
          registry := registryReplace bus.registry t.tid
            (sortByPriority (regPriority m) rs) } with
        trace := m.trace ++ [Event.enqueued b t.tid d] ++
          safeBlock m b d (sortByPriority (regPriority m) rs) }, []) := by
  have hblen : b < m.buses.length := lt_length_of_getElem?_some hbus
  set sorted : List Nat := sortByPriority (regPriority m) rs with hsorteddef
  set bus1 : BusState := { bus with
    publishQueue := [⟨t, d, true, true⟩], publishing := true } with hbus1def
  set M1 : Machine := { setBus m b bus1 with
    trace := m.trace ++ [Event.enqueued b t.tid d],
    scheduler := [b] } with hM1def
  show runAll M1 2 = _
  set M1s : Machine := { M1 with scheduler := [] } with hM1sdef
  have hbusM1s : getBus M1s b = some bus1 := getBus_setBus_self m b bus1 hblen
  set m1 : Machine := setBus M1s b { bus1 with publishQueue := [] } with hm1def
  have hlen1 : b < M1s.buses.length := by
    simpa [hM1sdef, hM1def, setBus] using hblen
  have hbusm1 : getBus m1 b = some { bus1 with publishQueue := [] } :=
    getBus_setBus_self M1s b _ hlen1
  have hpm := publishMessage_single_sorting m1 { bus1 with publishQueue := [] } b t d true rs
    hbusm1 hch hpar hreg hne (fun rid hr => hrec rid hr) hsafe
  have hlen2 : b < m1.buses.length := by
    simpa [hm1def, hM1sdef, hM1def, setBus] using hblen
  set bus4 : BusState := { ({ bus1 with publishQueue := [] } : BusState) with
    registry := registryReplace
      (({ bus1 with publishQueue := [] } : BusState)).registry t.tid
      (sortByPriority (regPriority m1) rs) } with hbus4def
  set m2 : Machine := { setBus m1 b bus4 with
    trace := m1.trace ++ ([] ++ safeBlock m1 b d (sortByPriority (regPriority m1) rs)) }
    with hm2def
  have hdl : drainLoop M1s b 1 = (m2, none) := by
    show drainLoop M1s b (0 + 1) = _
    unfold drainLoop
    simp only [hbusM1s]
    show (match publishMessage m1 b ⟨t, d, true, true⟩ with
      | (mx, some e) => (mx, some e)
      | (mx, none) => drainLoop mx b 0) = _
    rw [hpm]
    have hlse : ({ bus1 with publishQueue := [] } : BusState).listeners = [] := hls
    rw [hlse]
    simp only [List.map_nil, if_true, ite_true]
    rfl
  have hregccongr : regPriority m1 = regPriority m := rfl
  have hsbcongr : safeBlock m1 b d sorted = safeBlock m b d sorted :=
    safeBlock_congr m1 m b d sorted rfl
  have hbusEta4 : ({ bus with
      publishQueue := [],
      publishing := false,
      registry := registryReplace bus.registry t.tid sorted } : BusState) =
      { bus with registry := registryReplace bus.registry t.tid sorted } := by
    rw [← hq, ← hpub]
  have hdr : drainRun M1s b 1 =
      ({ setBus m b { bus with
          registry := registryReplace bus.registry t.tid sorted } with
        trace := m.trace ++ [Event.enqueued b t.tid d] ++
          safeBlock m b d sorted }, none) := by
    unfold drainRun
    simp only [hbusM1s]
    rw [if_neg (show ¬ bus1.disposed = true from by simp [hbus1def, hdisp])]
    rw [hdl]
    unfold updateBus
    have hbusm2 : getBus m2 b = some bus4 := getBus_setBus_self m1 b bus4 hlen2
    simp only [hbusm2]
    simp only [hm2def, hbus4def, hregccongr, hsbcongr, ← hsorteddef]
    simp only [setBus, hm1def, hM1sdef, hM1def, hbus1def, List.set_set]
    rw [hbusEta4]
    simp [hsched, List.append_assoc]
  rw [runAll_step M1 b [] 1 rfl]
  simp only [show ({ M1 with scheduler := [] } : Machine) = M1s from rfl]
  rw [hdr]
  have hsch' : ({ setBus m b { bus with
      registry := registryReplace bus.registry t.tid sorted } with
    trace := m.trace ++ [Event.enqueued b t.tid d] ++
      safeBlock m b d sorted } : Machine).scheduler = [] := by
    simp [setBus, hsched]
  rw [runAll_empty 1 _ hsch']
  rfl

/-- C4: the dispatch sort step reorders a topic's registration list into a
permutation that is ascending in priority and, for equal priorities, keeps
the subscription (insertion) order; a safe drain of one task then invokes the
handlers exactly in that sorted order, and in the concrete scenario of
handlers 0, 1, 2 subscribed with priorities 2, 1, 0 the invocation order is
2, 1, 0. -/
theorem priority_order_dispatch :
    (∀ (p : Nat → Int) (l : List Nat), (sortByPriority p l).Perm l) ∧
    (∀ (p : Nat → Int) (l : List Nat),
      List.Pairwise (fun a b => p a ≤ p b) (sortByPriority p l)) ∧
    (∀ (p : Nat → Int) (l : List Nat) (c : Int),
      (sortByPriority p l).filter (fun a => decide (p a = c)) =
        l.filter (fun a => decide (p a = c))) ∧
    (∀ (m : Machine) (bus : BusState) (b : Nat) (t : Topic) (d : Nat)
        (rs : List Nat),
      getBus m b = some bus → bus.disposed = false → bus.publishing = false →
      bus.publishQueue = [] → bus.children = [] → bus.parent = none →
      bus.listeners = [] → registryGet bus.registry t.tid = some rs → rs ≠ [] →
      (∀ rid ∈ rs, recorderAt m t rid) → bus.safePublishing = true →
      m.scheduler = [] →
      runAll ({ setBus m b { bus with
          publishQueue := [⟨t, d, true, true⟩],
          publishing := true } with
        trace := m.trace ++ [Event.enqueued b t.tid d],
        scheduler := [b] } : Machine) 2 =
        ({ setBus m b { bus with
            registry := registryReplace bus.registry t.tid
              (sortByPriority (regPriority m) rs) } with
          trace := m.trace ++ [Event.enqueued b t.tid d] ++
            safeBlock m b d (sortByPriority (regPriority m) rs) }, [])) ∧
    (∀ (m : Machine) (b d : Nat) (rids : List Nat),
      (∀ rid ∈ rids, thrOf m rid = false) →
      invokedIds (safeBlock m b d rids) = rids.map (hidOf m)) ∧
    invokedIds (runAll (publishAll mW4 0 topicC [7]) 2).1.trace = [2, 1, 0] := by
  refine ⟨sortByPriority_perm, sortByPriority_sorted, filter_sortByPriority,
    ?_, ?_, by decide⟩
  · intro m bus b t d rs hbus hdisp hpub hq hch hpar hls hreg hne hrec hsafe hsched
    exact runAll_single_task_sorting m bus b t d rs hbus hdisp hpub hq hch hpar
      hls hreg hne hrec hsafe hsched
  · intro m b d rids hthr
    rw [safeBlock_nothrow m b d rids hthr]
    rw [show rids.map (fun rid => Event.invoked (hidOf m rid) d) =
      (rids.map (hidOf m)).map (fun x => Event.invoked x d) from by
        rw [List.map_map]; rfl]
    exact invokedIds_invoked_map (rids.map (hidOf m)) d

/-- Witness for the C4 theorem: the quiescent-bus drain conjunct applied to
the three-recorder bus `mW4` sorts the registry and dispatches in priority
order. -/
theorem priority_order_dispatch_witness :
    getBus mW4 0 = some busW4 ∧
    runAll ({ setBus mW4 0 { busW4 with
        publishQueue := [⟨topicC, 7, true, true⟩],
        publishing := true } with
      trace := mW4.trace ++ [Event.enqueued 0 topicC.tid 7],
      scheduler := [0] } : Machine) 2 =
      ({ setBus mW4 0 { busW4 with
          registry := registryReplace busW4.registry topicC.tid
            (sortByPriority (regPriority mW4) [0, 1, 2]) } with
        trace := mW4.trace ++ [Event.enqueued 0 topicC.tid 7] ++
          safeBlock mW4 0 7 (sortByPriority (regPriority mW4) [0, 1, 2]) }, []) :=
  ⟨by decide,
    priority_order_dispatch.2.2.2.1 mW4 busW4 0 topicC 7 [0, 1, 2]
      (by decide) (by decide) (by decide) (by decide) (by decide) (by decide)
      (by decide) (by decide) (by decide)
      (by intro rid hr; fin_cases hr <;> exact ⟨rfl, rfl, rfl⟩)
      (by decide) (by decide)⟩

/-! #### Bus-tree lemmas -/

theorem getBus_treeMachine (par : Nat → Option Nat) (cs : Nat → List Nat)
    (n d : Nat) (pending : List Nat) (tr : List Event) (v : Nat) (hv : v < n) :
    getBus (treeMachine par cs n d pending tr) v =
      some (treeBus par cs d pending v) := by
  show ((List.range n).map (treeBus par cs d pending))[v]? = _
  rw [List.getElem?_map, List.getElem?_range hv]
  rfl

theorem getReg_treeMachine (par : Nat → Option Nat) (cs : Nat → List Nat)
    (n d : Nat) (pending : List Nat) (tr : List Event) (v : Nat) (hv : v < n) :
    getReg (treeMachine par cs n d pending tr) v = some (treeReg v) := by
  show ((List.range n).map treeReg)[v]? = _
  rw [List.getElem?_map, List.getElem?_range hv]
  rfl

theorem treeBus_congr (par : Nat → Option Nat) (cs : Nat → List Nat) (d : Nat)
    (P Q : List Nat) (v : Nat) (h : P.contains v = Q.contains v) :
    treeBus par cs d P v = treeBus par cs d Q v := by
  unfold treeBus
  rw [h]

theorem treeBuses_snoc (par : Nat → Option Nat) (cs : Nat → List Nat) (d : Nat)
    (n : Nat) (P : List Nat) (c : Nat) (hc : c < n) (hfresh : c ∉ P) :
    ((List.range n).map (treeBus par cs d P)).set c (treeBus par cs d (P ++ [c]) c) =
      (List.range n).map (treeBus par cs d (P ++ [c])) := by
  apply List.ext_getElem?
  intro i
  by_cases hi : i < n
  · by_cases hic : i = c
    · subst hic
      rw [List.getElem?_set_eq (by simpa using hi), List.getElem?_map,
        List.getElem?_range hi]
      rfl
    · rw [List.getElem?_set_ne (fun hh => hic hh.symm), List.getElem?_map,
        List.getElem?_map, List.getElem?_range hi]
      show some (treeBus par cs d P i) = some (treeBus par cs d (P ++ [c]) i)
      rw [treeBus_congr par cs d P (P ++ [c]) i (by simp [hic])]
  · rw [List.getElem?_set_ne (fun hh => absurd hc (by rw [hh]; exact hi))]
    rw [List.getElem?_eq_none (by simpa using Nat.le_of_not_lt hi),
      List.getElem?_eq_none (by simpa using Nat.le_of_not_lt hi)]

theorem treeBuses_pop (par : Nat → Option Nat) (cs : Nat → List Nat) (d : Nat)
    (n v : Nat) (P : List Nat) (hv : v < n) (hvP : v ∉ P) :
    ((List.range n).map (treeBus par cs d (v :: P))).set v (treeBus par cs d P v) =
      (List.range n).map (treeBus par cs d P) := by
  apply List.ext_getElem?
  intro i
  by_cases hi : i < n
  · by_cases hiv : i = v
    · subst hiv
      rw [List.getElem?_set_eq (by simpa using hi), List.getElem?_map,
        List.getElem?_range hi]
      rfl
    · rw [List.getElem?_set_ne (fun hh => hiv hh.symm), List.getElem?_map,
        List.getElem?_map, List.getElem?_range hi]
      show some (treeBus par cs d (v :: P) i) = some (treeBus par cs d P i)
      rw [treeBus_congr par cs d (v :: P) P i (by simp [hiv])]
  · rw [List.getElem?_set_ne (fun hh => absurd hv (by rw [hh]; exact hi))]
    rw [List.getElem?_eq_none (by simpa using Nat.le_of_not_lt hi),
      List.getElem?_eq_none (by simpa using Nat.le_of_not_lt hi)]

theorem publishImpl_start (m : Machine) (bus : BusState) (b : Nat) (t : Topic)
    (d : Nat) (br lf : Bool)
    (hbus : getBus m b = some bus) (hdisp : bus.disposed = false)
    (hpub : bus.publishing = false) :
    publishImpl m b t d br lf = .ok
      { setBus m b { bus with
          publishQueue := bus.publishQueue ++ [⟨t, d, br, lf⟩],
          publishing := true } with
        trace := m.trace ++ [.enqueued b t.tid d],
        scheduler := m.scheduler ++ [b] } := by
  have hblen : b < m.buses.length := lt_length_of_getElem?_some hbus
  have hbus2 : getBus (emit (setBus m b
      { bus with publishQueue := bus.publishQueue ++ [⟨t, d, br, lf⟩] })
      (.enqueued b t.tid d)) b =
      some { bus with publishQueue := bus.publishQueue ++ [⟨t, d, br, lf⟩] } := by
    rw [getBus_emit]
    exact getBus_setBus_self m b _ hblen
  simp only [publishImpl, hbus]
  rw [if_neg (show ¬ bus.disposed = true from by simp [hdisp])]
  rw [if_neg (show ¬ bus.publishing = true from by simp [hpub])]
  unfold updateBus
  simp only [hbus2]
  simp [emit, setBus, List.set_set]

theorem broadcastChildren_tree (par : Nat → Option Nat) (cs : Nat → List Nat)
    (n d v : Nat) (busV : BusState) (P sch : List Nat) (tr : List Event)
    (hv : v < n) :
    ∀ (cs' S : List Nat),
    (S ++ cs').Nodup →
    (∀ c ∈ cs', c < n ∧ c ≠ v ∧ c ≠ 0 ∧ c ∉ P) →
    broadcastChildren (treeMid par cs n d v busV P sch tr S) cs' topicC d =
      (treeMid par cs n d v busV P sch tr (S ++ cs'), none) := by
  intro cs'
  induction cs' with
  | nil =>
    intro S hnd hc
    simp [broadcastChildren]
  | cons c cs'' ih =>
    intro S hnd hc
    obtain ⟨hcn, hcv, hc0, hcP⟩ := hc c (List.mem_cons_self c cs'')
    have hcS : c ∉ S := by
      have hdj := (List.nodup_append.mp hnd).2.2
      exact fun hm => hdj hm (List.mem_cons_self c cs'')
    have hgb : getBus (treeMid par cs n d v busV P sch tr S) c =
        some (treeBus par cs d (P ++ S) c) := by
      show (((List.range n).map (treeBus par cs d (P ++ S))).set v busV)[c]? = _
      rw [List.getElem?_set_ne (fun hh => hcv hh.symm), List.getElem?_map,
        List.getElem?_range hcn]
      rfl
    have hcont : (P ++ S).contains c = false := by simp [hcP, hcS]
    have hpubc : (treeBus par cs d (P ++ S) c).publishing = false := by
      unfold treeBus
      exact hcont
    have hpi := publishImpl_start (treeMid par cs n d v busV P sch tr S)
      (treeBus par cs d (P ++ S) c) c topicC d true false hgb rfl hpubc
    have hnewc : ({ treeBus par cs d (P ++ S) c with
        publishQueue := (treeBus par cs d (P ++ S) c).publishQueue ++
          [⟨topicC, d, true, false⟩],
        publishing := true } : BusState) = treeBus par cs d ((P ++ S) ++ [c]) c := by
      unfold treeBus
      simp only [hcont]
      simp [hcP, hcS, hc0]
    have hbuses : ((((List.range n).map (treeBus par cs d (P ++ S))).set v busV).set c
        ({ treeBus par cs d (P ++ S) c with
          publishQueue := (treeBus par cs d (P ++ S) c).publishQueue ++
            [⟨topicC, d, true, false⟩],
          publishing := true })) =
        ((List.range n).map (treeBus par cs d (P ++ (S ++ [c])))).set v busV := by
      rw [hnewc]
      rw [List.set_comm busV (treeBus par cs d ((P ++ S) ++ [c]) c) _
        (fun hh => hcv hh.symm)]
      rw [treeBuses_snoc par cs d n (P ++ S) c hcn (by simp [hcP, hcS])]
      rw [List.append_assoc]
    have hM : ({ setBus (treeMid par cs n d v busV P sch tr S) c
        { treeBus par cs d (P ++ S) c with
          publishQueue := (treeBus par cs d (P ++ S) c).publishQueue ++
            [⟨topicC, d, true, false⟩],
          publishing := true } with
        trace := (treeMid par cs n d v busV P sch tr S).trace ++
          [.enqueued c topicC.tid d],
        scheduler := (treeMid par cs n d v busV P sch tr S).scheduler ++ [c] } :
          Machine) =
        treeMid par cs n d v busV P sch tr (S ++ [c]) := by
      unfold treeMid treeMachine setBus
      simp only []
      rw [show (((List.range n).map (treeBus par cs d (P ++ S))).set v busV).set c _ =
        ((List.range n).map (treeBus par cs d (P ++ (S ++ [c])))).set v busV from hbuses]
      simp [List.append_assoc]
    show (match publishImpl (treeMid par cs n d v busV P sch tr S) c topicC d true false
        with
      | .ok m' => broadcastChildren m' cs'' topicC d
      | .error e => (treeMid par cs n d v busV P sch tr S, some e)) = _
    rw [hpi]
    show broadcastChildren _ cs'' topicC d = _
    rw [hM]
    have hnd' : ((S ++ [c]) ++ cs'').Nodup := by
      rw [← List.append_cons]
      exact hnd
    have hc' : ∀ c' ∈ cs'', c' < n ∧ c' ≠ v ∧ c' ≠ 0 ∧ c' ∉ P :=
      fun c' hm => hc c' (List.mem_cons_of_mem c hm)
    rw [ih (S ++ [c]) hnd' hc']
    rw [← List.append_cons]

theorem drainLoop_qempty (m : Machine) (b : Nat) (fuel : Nat) (bus : BusState)
    (hbus : getBus m b = some bus) (hq : bus.publishQueue = []) :
    drainLoop m b fuel = (m, none) := by
  cases fuel with
  | zero => rfl
  | succ f =>
    unfold drainLoop
    simp only [hbus, hq]

theorem treeStep (par : Nat → Option Nat) (cs : Nat → List Nat) (n d : Nat)
    (fuel v : Nat) (rest : List Nat) (tr : List Event)
    (hv : v < n) (hvr : v ∉ rest)
    (hnd : (cs v).Nodup)
    (hcs : ∀ c ∈ cs v, c < n ∧ c ≠ v ∧ c ≠ 0 ∧ c ∉ rest)
    (hfuel : 1 ≤ fuel) :
    runAll (treeMachine par cs n d (v :: rest) tr) (fuel + 1) =
      runAll (treeMachine par cs n d (rest ++ cs v)
        (tr ++ (cs v).map (fun c => Event.enqueued c topicC.tid d) ++
          [Event.invoked v d])) fuel := by
  obtain ⟨f, rfl⟩ : ∃ f, fuel = f + 1 := ⟨fuel - 1, by omega⟩
  have hvcs : v ∉ cs v := fun hm => ((hcs v hm).2.1) rfl
  set busV0 : BusState := treeBus par cs d (v :: rest) v with hbusV0def
  set busVp : BusState := { busV0 with publishQueue := [] } with hbusVpdef
  set tm1 : Machine := treeMachine par cs n d (v :: rest) tr with htm1def
  set m1 : Machine := { tm1 with scheduler := rest } with hm1def
  have hbusV0get : getBus m1 v = some busV0 :=
    getBus_treeMachine par cs n d (v :: rest) tr v hv
  have hq0 : busV0.publishQueue = [⟨topicC, d, true, v == 0⟩] := by
    rw [hbusV0def]
    unfold treeBus
    simp
  set m2 : Machine := setBus m1 v busVp with hm2def
  have hm2mid : m2 = treeMid par cs n d v busVp (v :: rest) rest tr [] := by
    unfold treeMid
    simp [hm2def, hm1def, htm1def, setBus, treeMachine]
  have hbc := broadcastChildren_tree par cs n d v busVp (v :: rest) rest tr hv
    (cs v) [] (by simpa using hnd)
    (fun c hm => ⟨(hcs c hm).1, (hcs c hm).2.1,
      (hcs c hm).2.2.1, by
        intro hP
        rcases List.mem_cons.mp hP with h1 | h1
        · exact (hcs c hm).2.1 h1
        · exact (hcs c hm).2.2.2 h1⟩)
  set m3 : Machine := treeMid par cs n d v busVp (v :: rest) rest tr (cs v) with hm3def
  have hbc3 : broadcastChildren m2 (cs v) topicC d = (m3, none) := by
    rw [hm2mid]
    simpa using hbc
  have hlenm1 : v < m1.buses.length := by
    simpa [hm1def, htm1def, treeMachine] using hv
  have hbusVpget3 : getBus m3 v = some busVp := by
    show (((List.range n).map (treeBus par cs d ((v :: rest) ++ cs v))).set v busVp)[v]? = _
    rw [List.getElem?_set_eq (by simpa using hv)]
  have hgr3 : getReg m3 v = some (treeReg v) := by
    show ((List.range n).map treeReg)[v]? = _
    rw [List.getElem?_map, List.getElem?_range hv]
    rfl
  have hhid3 : hidOf m3 v = v := by
    unfold hidOf
    simp only [hgr3]
    rfl
  have hthr3 : thrOf m3 v = false := by
    unfold thrOf
    simp only [hgr3]
    rfl
  have hrec3 : ∀ rid ∈ [v], recorderAt m3 topicC rid := by
    intro rid hm
    rw [List.mem_singleton.mp hm]
    simp only [recorderAt, hgr3]
    refine ⟨rfl, rfl, ?_⟩
    rw [hhid3, hthr3]
    rfl
  have hregVp : registryGet busVp.registry topicC.tid = some [v] := by
    show registryGet [(topicC.tid, [v])] topicC.tid = _
    simp [registryGet]
  have hdirC : topicC.broadcastDirection = BroadcastDirection.children := rfl
  have hpmv : publishMessage m2 v ⟨topicC, d, true, v == 0⟩ =
      ({ m3 with trace := m3.trace ++ [Event.invoked v d] }, none) := by
    have hbusVpget2 : getBus m2 v = some busVp := by
      rw [hm2def]
      exact getBus_setBus_self m1 v busVp hlenm1
    have hchV0 : busV0.children = cs v := by rw [hbusV0def]; rfl
    have hlsV0 : busV0.listeners = [] := by rw [hbusV0def]; rfl
    have hsafeV0 : busV0.safePublishing = false := by rw [hbusV0def]; rfl
    have hregV0 : registryGet busV0.registry topicC.tid = some [v] := by
      rw [hbusV0def]
      show registryGet [(topicC.tid, [v])] topicC.tid = _
      simp [registryGet]
    simp only [publishMessage, hbusVpget2, hdirC, hchV0, if_true, ite_true, hbc3,
      hbusVpget3, hregV0, Option.getD_some, hlsV0, List.foldl_nil, ite_self]
    rw [if_pos (show [v].length > 0 from by simp)]
    rw [show sortByPriority (regPriority m3) [v] = [v] from rfl]
    rw [updateBus_replace_self m3 v busVp topicC.tid [v] hbusVpget3
      (registryReplace_self _ _ _ hregVp)]
    rw [hsafeV0]
    rw [show ([v] : List Nat).length = 1 from rfl]
    rw [dispatchLoop_unsafeRun 1 m3 busVp v topicC d 0 [v] hbusVpget3 hregVp hrec3
      (by simp)]
    rw [List.drop_zero]
    rw [show unsafeBlock m3 d [v] = [Event.invoked v d] from by
      unfold unsafeBlock
      rw [hthr3, hhid3]
      rfl]
    rw [show unsafeErr m3 d [v] = none from by
      unfold unsafeErr
      rw [hthr3]
      rfl]
  set m5 : Machine := { m3 with trace := m3.trace ++ [Event.invoked v d] } with hm5def
  have hdl : drainLoop m1 v (f + 1) = (m5, none) := by
    unfold drainLoop
    simp only [hbusV0get, hq0]
    rw [show setBus m1 v { busV0 with publishQueue := [] } = m2 from rfl]
    rw [hpmv]
    exact drainLoop_qempty m5 v f busVp (by
      show getBus m3 v = some busVp
      exact hbusVpget3) rfl
  have hfinbus : ({ busVp with publishing := false } : BusState) =
      treeBus par cs d (rest ++ cs v) v := by
    rw [hbusVpdef, hbusV0def]
    unfold treeBus
    simp [hvr, hvcs]
  set tmF : Machine := treeMachine par cs n d (rest ++ cs v)
    (tr ++ (cs v).map (fun c => Event.enqueued c topicC.tid d) ++
      [Event.invoked v d]) with htmFdef
  have hdr : drainRun m1 v (f + 1) = (tmF, none) := by
    unfold drainRun
    simp only [hbusV0get]
    rw [if_neg (show ¬ busV0.disposed = true from by
      rw [hbusV0def]
      unfold treeBus
      simp)]
    simp only [hdl]
    unfold updateBus
    simp only [show getBus m5 v = some busVp from hbusVpget3]
    rw [show ({ busVp with publishing := false } : BusState) =
      treeBus par cs d (rest ++ cs v) v from hfinbus]
    show ({ m5 with buses := m5.buses.set v (treeBus par cs d (rest ++ cs v) v) },
      (none : Option JsErr)) = (tmF, none)
    rw [show m5.buses =
      ((List.range n).map (treeBus par cs d ((v :: rest) ++ cs v))).set v busVp
      from rfl]
    rw [List.set_set]
    rw [show ((v : Nat) :: rest) ++ cs v = v :: (rest ++ cs v) from rfl]
    rw [treeBuses_pop par cs d n v (rest ++ cs v) hv (by
      intro hm
      rcases List.mem_append.mp hm with h1 | h1
      · exact hvr h1
      · exact hvcs h1)]
    rw [htmFdef]
    unfold treeMachine
    simp [hm5def, hm3def, treeMid, treeMachine, setBus, List.append_assoc]
  rw [runAll_step (treeMachine par cs n d (v :: rest) tr) v rest (f + 1) rfl]
  rw [show ({ treeMachine par cs n d (v :: rest) tr with scheduler := rest } :
    Machine) = m1 from rfl]
  rw [hdr]
  show (match runAll tmF (f + 1) with
    | (m3x, errs) => (m3x, (none : Option JsErr).toList ++ errs)) = runAll tmF (f + 1)
  cases hrr : runAll tmF (f + 1) with
  | mk mf errs => simp

theorem treeRun (par : Nat → Option Nat) (cs : Nat → List Nat) (n d : Nat) :
    ∀ (fuel : Nat) (visited pending : List Nat) (tr : List Event),
    bfsOKv cs n fuel visited pending →
    runAll (treeMachine par cs n d pending tr) fuel =
      (treeMachine par cs n d [] (tr ++ bfsTrace cs d fuel pending), []) := by
  intro fuel
  induction fuel with
  | zero =>
    intro visited pending tr h
    have hp : pending = [] := h
    subst hp
    show (treeMachine par cs n d [] tr, []) = _
    rw [show bfsTrace cs d 0 [] = [] from rfl]
    rw [List.append_nil]
  | succ f ih =>
    intro visited pending tr h
    cases pending with
    | nil =>
      rw [runAll_empty (f + 1) _ rfl]
      rw [show bfsTrace cs d (f + 1) [] = [] from rfl]
      rw [List.append_nil]
    | cons v rest =>
      obtain ⟨hv, hvr, hvis, hf1, hnd, hcsH, hrec⟩ := h
      rw [treeStep par cs n d f v rest tr hv hvr hnd
        (fun c hm => ⟨(hcsH c hm).1, (hcsH c hm).2.1, (hcsH c hm).2.2.1,
          (hcsH c hm).2.2.2.1⟩) hf1]
      rw [ih (visited ++ [v]) (rest ++ cs v) _ hrec]
      rw [show bfsTrace cs d (f + 1) (v :: rest) =
        (cs v).map (fun c => Event.enqueued c topicC.tid d) ++
        Event.invoked v d :: bfsTrace cs d f (rest ++ cs v) from rfl]
      simp [List.append_assoc]

theorem invokedIds_enqueued_map_bus (csl : List Nat) (tid d : Nat) :
    invokedIds (csl.map (fun c => Event.enqueued c tid d)) = [] := by
  induction csl with
  | nil => rfl
  | cons c cs ih => simpa [invokedIds, List.filterMap_cons] using ih

theorem invokedIds_bfsTrace (cs : Nat → List Nat) (d : Nat) :
    ∀ (fuel : Nat) (pending : List Nat),
    invokedIds (bfsTrace cs d fuel pending) = bfsOrder cs fuel pending := by
  intro fuel
  induction fuel with
  | zero => intro pending; rfl
  | succ f ih =>
    intro pending
    cases pending with
    | nil => rfl
    | cons v rest =>
      show invokedIds ((cs v).map (fun c => Event.enqueued c topicC.tid d) ++
        Event.invoked v d :: bfsTrace cs d f (rest ++ cs v)) =
        v :: bfsOrder cs f (rest ++ cs v)
      rw [invokedIds_append, invokedIds_enqueued_map_bus]
      simp only [List.nil_append]
      show List.filterMap _ (Event.invoked v d :: bfsTrace cs d f (rest ++ cs v)) = _
      rw [List.filterMap_cons]
      simp only []
      show v :: invokedIds (bfsTrace cs d f (rest ++ cs v)) = _
      rw [ih]

theorem bfsOrder_nodup (cs : Nat → List Nat) (n : Nat) :
    ∀ (fuel : Nat) (visited pending : List Nat),
    bfsOKv cs n fuel visited pending →
    (bfsOrder cs fuel pending).Nodup ∧
      ∀ x ∈ bfsOrder cs fuel pending, x ∉ visited := by
  intro fuel
  induction fuel with
  | zero =>
    intro visited pending h
    exact ⟨List.nodup_nil, fun x hx => absurd hx (List.not_mem_nil x)⟩
  | succ f ih =>
    intro visited pending h
    cases pending with
    | nil => exact ⟨List.nodup_nil, fun x hx => absurd hx (List.not_mem_nil x)⟩
    | cons v rest =>
      obtain ⟨hv, hvr, hvis, hf1, hnd, hcsH, hrec⟩ := h
      obtain ⟨ndtail, htail⟩ := ih (visited ++ [v]) (rest ++ cs v) hrec
      constructor
      · refine List.nodup_cons.mpr ⟨?_, ndtail⟩
        intro hvtail
        exact (htail v hvtail) (by simp)
      · intro x hx
        rcases List.mem_cons.mp hx with rfl | hx
        · exact hvis
        · intro hxv
          exact htail x hx (by simp [hxv])

theorem bfsOrder_mem (cs : Nat → List Nat) (n : Nat) :
    ∀ (fuel : Nat) (visited pending : List Nat),
    bfsOKv cs n fuel visited pending →
    ∀ v ∈ pending, v ∈ bfsOrder cs fuel pending := by
  intro fuel
  induction fuel with
  | zero =>
    intro visited pending h v hv
    have hp : pending = [] := h
    subst hp
    cases hv
  | succ f ih =>
    intro visited pending h x hx
    cases pending with
    | nil => cases hx
    | cons v rest =>
      obtain ⟨hv, hvr, hvis, hf1, hnd, hcsH, hrec⟩ := h
      rcases List.mem_cons.mp hx with rfl | hx
      · exact List.mem_cons_self _ _
      · exact List.mem_cons_of_mem _
          (ih (visited ++ [v]) (rest ++ cs v) hrec x (List.mem_append_left _ hx))

theorem bfsOrder_closed (cs : Nat → List Nat) (n : Nat) :
    ∀ (fuel : Nat) (visited pending : List Nat),
    bfsOKv cs n fuel visited pending →
    ∀ v ∈ bfsOrder cs fuel pending, ∀ c ∈ cs v, c ∈ bfsOrder cs fuel pending := by
  intro fuel
  induction fuel with
  | zero =>
    intro visited pending h v hv
    exact absurd hv (List.not_mem_nil v)
  | succ f ih =>
    intro visited pending h x hx c hc
    cases pending with
    | nil => exact absurd hx (List.not_mem_nil x)
    | cons v rest =>
      obtain ⟨hv, hvr, hvis, hf1, hnd, hcsH, hrec⟩ := h
      rcases List.mem_cons.mp hx with rfl | hx
      · exact List.mem_cons_of_mem _
          (bfsOrder_mem cs n f (visited ++ [x]) (rest ++ cs x) hrec c
            (List.mem_append_right _ hc))
      · exact List.mem_cons_of_mem _
          (ih (visited ++ [v]) (rest ++ cs v) hrec x hx c hc)

theorem treePublish (par : Nat → Option Nat) (cs : Nat → List Nat) (n d : Nat)
    (tr : List Event) (hn : 0 < n) :
    publish (treeMachine par cs n d [] tr) 0 topicC d =
      .ok (treeMachine par cs n d [0] (tr ++ [Event.enqueued 0 topicC.tid d])) := by
  have hb : getBus (treeMachine par cs n d [] tr) 0 = some (treeBus par cs d [] 0) :=
    getBus_treeMachine par cs n d [] tr 0 hn
  rw [publish_start (treeMachine par cs n d [] tr) (treeBus par cs d [] 0) 0 topicC d
    hb rfl rfl]
  have hnb : ({ treeBus par cs d [] 0 with
      publishQueue := (treeBus par cs d [] 0).publishQueue ++ [⟨topicC, d, true, true⟩],
      publishing := true } : BusState) = treeBus par cs d [0] 0 := by
    unfold treeBus
    simp
  have hbuses : ((List.range n).map (treeBus par cs d [])).set 0
      ({ treeBus par cs d [] 0 with
        publishQueue := (treeBus par cs d [] 0).publishQueue ++
          [⟨topicC, d, true, true⟩],
        publishing := true }) =
      (List.range n).map (treeBus par cs d [0]) := by
    rw [hnb]
    have := treeBuses_snoc par cs d n [] 0 hn (List.not_mem_nil 0)
    simpa using this
  show Except.ok ({ setBus (treeMachine par cs n d [] tr) 0 _ with
    trace := tr ++ [Event.enqueued 0 topicC.tid d],
    scheduler := [] ++ [0] } : Machine) = _
  unfold setBus treeMachine
  simp only []
  rw [show ((List.range n).map (treeBus par cs d [])).set 0 _ =
    (List.range n).map (treeBus par cs d [0]) from hbuses]
  rfl

/-- C1 (amended): `children`-direction delivery over the bus tree is
breadth-first with the origin first, not last: the publish enqueues one task
on the origin; each drained bus first enqueues the message on its direct
children (scheduling their drains) and only then invokes its own handlers,
so the origin's handlers observe the message before any descendant's, and
the breadth-first run delivers to every reachable bus exactly once. For the
`parent` direction, the single hop is likewise enqueued on the parent bus,
whose handler runs after the origin's. -/
theorem publish_children_bfs_delivery :
    (∀ (par : Nat → Option Nat) (cs : Nat → List Nat) (n d : Nat) (tr : List Event),
      0 < n →
      publish (treeMachine par cs n d [] tr) 0 topicC d =
        .ok (treeMachine par cs n d [0] (tr ++ [Event.enqueued 0 topicC.tid d]))) ∧
    (∀ (par : Nat → Option Nat) (cs : Nat → List Nat) (n d fuel : Nat)
        (visited pending : List Nat) (tr : List Event),
      bfsOKv cs n fuel visited pending →
      runAll (treeMachine par cs n d pending tr) fuel =
        (treeMachine par cs n d [] (tr ++ bfsTrace cs d fuel pending), [])) ∧
    (∀ (cs : Nat → List Nat) (d fuel : Nat) (pending : List Nat),
      invokedIds (bfsTrace cs d fuel pending) = bfsOrder cs fuel pending) ∧
    (∀ (cs : Nat → List Nat) (n fuel : Nat) (visited pending : List Nat),
      bfsOKv cs n fuel visited pending → (bfsOrder cs fuel pending).Nodup) ∧
    (∀ (cs : Nat → List Nat) (n fuel : Nat) (visited pending : List Nat),
      bfsOKv cs n fuel visited pending →
      ∀ v ∈ pending, v ∈ bfsOrder cs fuel pending) ∧
    (∀ (cs : Nat → List Nat) (n fuel : Nat) (visited pending : List Nat),
      bfsOKv cs n fuel visited pending →
      ∀ v ∈ bfsOrder cs fuel pending, ∀ c ∈ cs v, c ∈ bfsOrder cs fuel pending) ∧
    (∀ (cs : Nat → List Nat) (d fuel v : Nat) (rest : List Nat),
      bfsTrace cs d (fuel + 1) (v :: rest) =
        (cs v).map (fun c => Event.enqueued c topicC.tid d) ++
        Event.invoked v d :: bfsTrace cs d fuel (rest ++ cs v)) ∧
    (runAll (unwrapM (publish (treeMachine parEx csEx 4 7 [] []) 0 topicC 7)
        (treeMachine parEx csEx 4 7 [] [])) 6).1.trace =
      [Event.enqueued 0 topicC.tid 7, Event.enqueued 1 topicC.tid 7,
       Event.enqueued 2 topicC.tid 7, Event.invoked 0 7,
       Event.enqueued 3 topicC.tid 7, Event.invoked 1 7,
       Event.invoked 2 7, Event.invoked 3 7] ∧
    (runAll (unwrapM (publish mW1P 1 topicP 9) mW1P) 4).1.trace =
      [Event.enqueued 1 topicP.tid 9, Event.enqueued 0 topicP.tid 9,
       Event.invoked 1 9, Event.invoked 0 9] := by
  refine ⟨treePublish, ?_, invokedIds_bfsTrace, ?_, bfsOrder_mem, bfsOrder_closed,
    fun cs d fuel v rest => rfl, by decide, by decide⟩
  · intro par cs n d fuel visited pending tr h
    exact treeRun par cs n d fuel visited pending tr h
  · intro cs n fuel visited pending h
    exact (bfsOrder_nodup cs n fuel visited pending h).1

/-- Witness for the C1 amended theorem: the breadth-first run conjunct
applied to the concrete four-bus tree 0 → ⟨1, 2⟩, 1 → ⟨3⟩. -/
theorem publish_children_bfs_delivery_witness :
    bfsOKv csEx 4 5 [] [0] ∧
    runAll (treeMachine parEx csEx 4 7 [0] [Event.enqueued 0 topicC.tid 7]) 5 =
      (treeMachine parEx csEx 4 7 []
        ([Event.enqueued 0 topicC.tid 7] ++ bfsTrace csEx 7 5 [0]), []) := by
  have hOK : bfsOKv csEx 4 5 [] [0] :=
    ⟨by decide, of_decide_eq_true rfl, by decide, of_decide_eq_true rfl,
     by decide, of_decide_eq_true rfl, by decide, of_decide_eq_true rfl,
     by decide, of_decide_eq_true rfl, by decide, of_decide_eq_true rfl,
     by decide, of_decide_eq_true rfl, by decide, of_decide_eq_true rfl,
     by decide, of_decide_eq_true rfl, by decide, of_decide_eq_true rfl,
     by decide, of_decide_eq_true rfl, by decide, of_decide_eq_true rfl,
     trivial⟩
  exact ⟨hOK, publish_children_bfs_delivery.2.1 parEx csEx 4 7 5 [] [0]
    [Event.enqueued 0 topicC.tid 7] hOK⟩

/-! #### Disposal-simulation lemmas -/

theorem setBus_comm (M : Machine) (u v : Nat) (bu bv : BusState) (h : u ≠ v) :
    setBus (setBus M u bu) v bv = setBus (setBus M v bv) u bu := by
  show ({ M with buses := (M.buses.set u bu).set v bv } : Machine) =
    { M with buses := (M.buses.set v bv).set u bu }
  rw [List.set_comm bu bv M.buses h]

theorem setBus_setReg_comm (M : Machine) (v r : Nat) (b : BusState) (rg : RegState) :
    setBus (setReg M r rg) v b = setReg (setBus M v b) r rg := rfl

theorem setReg_comm (M : Machine) (u v : Nat) (ru rv : RegState) (h : u ≠ v) :
    setReg (setReg M u ru) v rv = setReg (setReg M v rv) u ru := by
  show ({ M with regs := (M.regs.set u ru).set v rv } : Machine) =
    { M with regs := (M.regs.set v rv).set u ru }
  rw [List.set_comm ru rv M.regs h]

theorem updateBus_eq_setBus (M : Machine) (v : Nat) (f : BusState → BusState)
    (bv : BusState) (h : getBus M v = some bv) :
    updateBus M v f = setBus M v (f bv) := by
  unfold updateBus
  rw [h]

theorem killNodes_append (par : Nat → Option Nat) (M : Machine) (A B : List Nat) :
    killNodes par M (A ++ B) = killNodes par (killNodes par M A) B := by
  simp [killNodes, List.foldl_append]

theorem getBus_killNodes_notmem (par : Nat → Option Nat) :
    ∀ (vs : List Nat) (M : Machine) (w : Nat), w ∉ vs →
    getBus (killNodes par M vs) w = getBus M w := by
  intro vs
  induction vs with
  | nil => intro M w _; rfl
  | cons u rest ih =>
    intro M w hw
    have hwu : w ≠ u := fun hh => hw (hh ▸ List.mem_cons_self u rest)
    have hwr : w ∉ rest := fun hh => hw (List.mem_cons_of_mem u hh)
    show getBus (killNodes par (setBus (setReg M u (killReg u)) u (killBus par u)) rest) w = _
    rw [ih _ w hwr]
    rw [getBus_setBus_ne _ u _ w (fun hh => hwu hh.symm), getBus_setReg]

theorem getReg_killNodes_notmem (par : Nat → Option Nat) :
    ∀ (vs : List Nat) (M : Machine) (w : Nat), w ∉ vs →
    getReg (killNodes par M vs) w = getReg M w := by
  intro vs
  induction vs with
  | nil => intro M w _; rfl
  | cons u rest ih =>
    intro M w hw
    have hwu : w ≠ u := fun hh => hw (hh ▸ List.mem_cons_self u rest)
    have hwr : w ∉ rest := fun hh => hw (List.mem_cons_of_mem u hh)
    show getReg (killNodes par (setBus (setReg M u (killReg u)) u (killBus par u)) rest) w = _
    rw [ih _ w hwr]
    rw [getReg_setBus]
    exact getReg_setReg_ne M u (killReg u) w (fun hh => hwu hh.symm)

theorem getBus_killNodes_mem (par : Nat → Option Nat) :
    ∀ (vs : List Nat) (M : Machine) (w : Nat), w ∈ vs → vs.Nodup →
    w < M.buses.length →
    getBus (killNodes par M vs) w = some (killBus par w) := by
  intro vs
  induction vs with
  | nil => intro M w hw _ _; cases hw
  | cons u rest ih =>
    intro M w hw hnd hlt
    rcases List.nodup_cons.mp hnd with ⟨hur, hndr⟩
    show getBus (killNodes par (setBus (setReg M u (killReg u)) u (killBus par u)) rest) w = _
    rcases List.mem_cons.mp hw with rfl | hw
    · rw [getBus_killNodes_notmem par rest _ w hur]
      exact getBus_setBus_self _ w _ (by simpa [setBus, setReg] using hlt)
    · exact ih _ w hw hndr (by simpa [setBus, setReg] using hlt)

theorem getReg_killNodes_mem (par : Nat → Option Nat) :
    ∀ (vs : List Nat) (M : Machine) (w : Nat), w ∈ vs → vs.Nodup →
    w < M.regs.length →
    getReg (killNodes par M vs) w = some (killReg w) := by
  intro vs
  induction vs with
  | nil => intro M w hw _ _; cases hw
  | cons u rest ih =>
    intro M w hw hnd hlt
    rcases List.nodup_cons.mp hnd with ⟨hur, hndr⟩
    show getReg (killNodes par (setBus (setReg M u (killReg u)) u (killBus par u)) rest) w = _
    rcases List.mem_cons.mp hw with rfl | hw
    · rw [getReg_killNodes_notmem par rest _ w hur]
      rw [getReg_setBus]
      exact getReg_setReg_self _ w _ (by simpa [setBus, setReg] using hlt)
    · exact ih _ w hw hndr (by simpa [setBus, setReg] using hlt)

theorem killNodes_setBus_comm (par : Nat → Option Nat) :
    ∀ (vs : List Nat) (M : Machine) (v : Nat) (b : BusState), v ∉ vs →
    killNodes par (setBus M v b) vs = setBus (killNodes par M vs) v b := by
  intro vs
  induction vs with
  | nil => intro M v b _; rfl
  | cons u rest ih =>
    intro M v b hv
    have hvu : v ≠ u := fun hh => hv (hh ▸ List.mem_cons_self u rest)
    have hvr : v ∉ rest := fun hh => hv (List.mem_cons_of_mem u hh)
    show killNodes par
      (setBus (setReg (setBus M v b) u (killReg u)) u (killBus par u)) rest = _
    rw [show setReg (setBus M v b) u (killReg u) =
      setBus (setReg M u (killReg u)) v b from (setBus_setReg_comm M v u b _).symm]
    rw [setBus_comm _ v u b (killBus par u) hvu]
    exact ih _ v b hvr

theorem killNodes_setReg_comm (par : Nat → Option Nat) :
    ∀ (vs : List Nat) (M : Machine) (r : Nat) (rg : RegState), r ∉ vs →
    killNodes par (setReg M r rg) vs = setReg (killNodes par M vs) r rg := by
  intro vs
  induction vs with
  | nil => intro M r rg _; rfl
  | cons u rest ih =>
    intro M r rg hr
    have hru : r ≠ u := fun hh => hr (hh ▸ List.mem_cons_self u rest)
    have hrr : r ∉ rest := fun hh => hr (List.mem_cons_of_mem u hh)
    show killNodes par
      (setBus (setReg (setReg M r rg) u (killReg u)) u (killBus par u)) rest = _
    rw [setReg_comm M r u rg (killReg u) hru]
    rw [setBus_setReg_comm _ u r _ rg]
    exact ih _ r rg hrr

theorem dfs_head (par : Nat → Option Nat) (cs : Nat → List Nat) (n fuel : Nat)
    (avoid : List Nat) (v : Nat) (h : dfsOK par cs n fuel avoid v) :
    v ∈ dfsOrder cs fuel v := by
  cases fuel with
  | zero => simp only [dfsOK] at h
  | succ f => exact List.mem_cons_self _ _

theorem dfs_nodes (par : Nat → Option Nat) (cs : Nat → List Nat) (n : Nat) :
    ∀ (fuel : Nat) (avoid : List Nat) (v : Nat), dfsOK par cs n fuel avoid v →
    ∀ w ∈ dfsOrder cs fuel v, w < n ∧ w ∉ avoid := by
  intro fuel
  induction fuel with
  | zero => intro avoid v h; simp only [dfsOK] at h
  | succ f ih =>
    have seq : ∀ (kids : List Nat) (avoid : List Nat),
        dfsSeqOK par cs n f avoid kids →
        ∀ w ∈ ((kids.map (dfsOrder cs f)).flatten), w < n ∧ w ∉ avoid := by
      intro kids
      induction kids with
      | nil =>
        intro avoid _ w hw
        simp at hw
      | cons c rest ihk =>
        intro avoid h w hw
        simp only [dfsSeqOK] at h
        obtain ⟨hc, hrest⟩ := h
        rw [List.map_cons, List.flatten_cons] at hw
        rcases List.mem_append.mp hw with h1 | h1
        · exact ih avoid c hc w h1
        · have := ihk (avoid ++ dfsOrder cs f c) hrest w h1
          exact ⟨this.1, fun hm => this.2 (List.mem_append_left _ hm)⟩
    intro avoid v h w hw
    simp only [dfsOK] at h
    obtain ⟨hv, hva, hpars, hseq⟩ := h
    rcases List.mem_cons.mp hw with rfl | hw
    · exact ⟨hv, hva⟩
    · have := seq (cs v) (avoid ++ [v]) hseq w hw
      exact ⟨this.1, fun hm => this.2 (List.mem_append_left _ hm)⟩

theorem dfs_seq_nodes (par : Nat → Option Nat) (cs : Nat → List Nat) (n : Nat)
    (fuel : Nat) :
    ∀ (kids : List Nat) (avoid : List Nat), dfsSeqOK par cs n fuel avoid kids →
    ∀ w ∈ ((kids.map (dfsOrder cs fuel)).flatten), w < n ∧ w ∉ avoid := by
  intro kids
  induction kids with
  | nil =>
    intro avoid _ w hw
    simp at hw
  | cons c rest ihk =>
    intro avoid h w hw
    simp only [dfsSeqOK] at h
    obtain ⟨hc, hrest⟩ := h
    rw [List.map_cons, List.flatten_cons] at hw
    rcases List.mem_append.mp hw with h1 | h1
    · exact dfs_nodes par cs n fuel avoid c hc w h1
    · have := ihk (avoid ++ dfsOrder cs fuel c) hrest w h1
      exact ⟨this.1, fun hm => this.2 (List.mem_append_left _ hm)⟩

theorem dfs_nodup (par : Nat → Option Nat) (cs : Nat → List Nat) (n : Nat) :
    ∀ (fuel : Nat) (avoid : List Nat) (v : Nat), dfsOK par cs n fuel avoid v →
    (dfsOrder cs fuel v).Nodup := by
  intro fuel
  induction fuel with
  | zero => intro avoid v h; simp only [dfsOK] at h
  | succ f ih =>
    have seq : ∀ (kids : List Nat) (avoid : List Nat),
        dfsSeqOK par cs n f avoid kids →
        ((kids.map (dfsOrder cs f)).flatten).Nodup := by
      intro kids
      induction kids with
      | nil => intro avoid _; simp
      | cons c rest ihk =>
        intro avoid h
        simp only [dfsSeqOK] at h
        obtain ⟨hc, hrest⟩ := h
        rw [List.map_cons, List.flatten_cons]
        refine List.nodup_append.mpr ⟨ih avoid c hc, ihk _ hrest, ?_⟩
        intro w hwc hwrest
        have := dfs_seq_nodes par cs n f rest (avoid ++ dfsOrder cs f c) hrest w hwrest
        exact this.2 (List.mem_append_right _ hwc)
    intro avoid v h
    simp only [dfsOK] at h
    obtain ⟨hv, hva, hpars, hseq⟩ := h
    refine List.nodup_cons.mpr ⟨?_, seq (cs v) (avoid ++ [v]) hseq⟩
    intro hvflat
    have := dfs_seq_nodes par cs n f (cs v) (avoid ++ [v]) hseq v hvflat
    exact this.2 (List.mem_append_right _ (List.mem_singleton_self v))

theorem dfs_seq_heads (par : Nat → Option Nat) (cs : Nat → List Nat) (n fuel : Nat) :
    ∀ (kids : List Nat) (avoid : List Nat), dfsSeqOK par cs n fuel avoid kids →
    ∀ c ∈ kids, c ∈ dfsOrder cs fuel c := by
  intro kids
  induction kids with
  | nil => intro avoid _ c hc; cases hc
  | cons c0 rest ihk =>
    intro avoid h c hc
    simp only [dfsSeqOK] at h
    obtain ⟨hc0, hrest⟩ := h
    rcases List.mem_cons.mp hc with rfl | hc
    · exact dfs_head par cs n fuel avoid c hc0
    · exact ihk _ hrest c hc

theorem dfs_closed (par : Nat → Option Nat) (cs : Nat → List Nat) (n : Nat) :
    ∀ (fuel : Nat) (avoid : List Nat) (v : Nat), dfsOK par cs n fuel avoid v →
    ∀ w ∈ dfsOrder cs fuel v, ∀ c ∈ cs w, c ∈ dfsOrder cs fuel v := by
  intro fuel
  induction fuel with
  | zero => intro avoid v h; simp only [dfsOK] at h
  | succ f ih =>
    have seq : ∀ (kids : List Nat) (avoid : List Nat),
        dfsSeqOK par cs n f avoid kids →
        ∀ w ∈ ((kids.map (dfsOrder cs f)).flatten), ∀ c ∈ cs w,
          c ∈ ((kids.map (dfsOrder cs f)).flatten) := by
      intro kids
      induction kids with
      | nil => intro avoid _ w hw; simp at hw
      | cons c0 rest ihk =>
        intro avoid h w hw c hc
        simp only [dfsSeqOK] at h
        obtain ⟨hc0, hrest⟩ := h
        rw [List.map_cons, List.flatten_cons] at hw ⊢
        rcases List.mem_append.mp hw with h1 | h1
        · exact List.mem_append_left _ (ih avoid c0 hc0 w h1 c hc)
        · exact List.mem_append_right _ (ihk _ hrest w h1 c hc)
    intro avoid v h w hw c hc
    simp only [dfsOK] at h
    obtain ⟨hv, hva, hpars, hseq⟩ := h
    rcases List.mem_cons.mp hw with rfl | hw
    · refine List.mem_cons_of_mem _ ?_
      exact List.mem_flatten.mpr ⟨dfsOrder cs f c,
        List.mem_map_of_mem _ hc, dfs_seq_heads par cs n f (cs w) _ hseq c hc⟩
    · exact List.mem_cons_of_mem _ (seq (cs v) (avoid ++ [v]) hseq w hw c hc)

theorem setBus_setBus (M : Machine) (v : Nat) (a b : BusState) :
    setBus (setBus M v a) v b = setBus M v b := by
  show ({ M with buses := (M.buses.set v a).set v b } : Machine) =
    { M with buses := M.buses.set v b }
  rw [List.set_set]

theorem busDisposeFold_sim (par : Nat → Option Nat) (cs : Nat → List Nat)
    (n d : Nat) (f : Nat)
    (node_ih : ∀ (M : Machine) (avoid : List Nat) (v : Nat),
      dfsOK par cs n f avoid v →
      (∀ p, par v = some p → p ∈ avoid) →
      (∀ w ∈ dfsOrder cs f v,
        getBus M w = some (treeBus par cs d [] w) ∧ getReg M w = some (treeReg w)) →
      busDispose f M v =
        killNodes par
          (match par v with
           | some p => updateBus M p (fun s => { s with children := s.children.erase v })
           | none => M)
          (dfsOrder cs f v)) :
    ∀ (kids : List Nat) (M : Machine) (avoid : List Nat) (v : Nat) (busv : BusState),
    dfsSeqOK par cs n f avoid kids →
    (∀ c ∈ kids, par c = some v) →
    getBus M v = some busv →
    v ∈ avoid →
    (∀ w ∈ ((kids.map (dfsOrder cs f)).flatten),
      getBus M w = some (treeBus par cs d [] w) ∧ getReg M w = some (treeReg w)) →
    kids.foldl (fun acc c => busDispose f acc c) M =
      killNodes par (setBus M v { busv with
        children := kids.foldl (fun l c => l.erase c) busv.children })
        ((kids.map (dfsOrder cs f)).flatten) := by
  intro kids
  induction kids with
  | nil =>
    intro M avoid v busv _ _ hbusv _ _
    show M = killNodes par (setBus M v { busv with children := busv.children }) []
    show M = setBus M v { busv with children := busv.children }
    rw [show ({ busv with children := busv.children } : BusState) = busv from rfl]
    exact (setBus_self M v busv hbusv).symm
  | cons c rest ihk =>
    intro M avoid v busv hseq hpars hbusv hvav hlive
    simp only [dfsSeqOK] at hseq
    obtain ⟨hcOK, hrest⟩ := hseq
    have hpc : par c = some v := hpars c (List.mem_cons_self c rest)
    have hlivec : ∀ w ∈ dfsOrder cs f c,
        getBus M w = some (treeBus par cs d [] w) ∧ getReg M w = some (treeReg w) :=
      fun w hw => hlive w (by
        rw [List.map_cons, List.flatten_cons]
        exact List.mem_append_left _ hw)
    have hvlen : v < M.buses.length := lt_length_of_getElem?_some hbusv
    have hvnotc : v ∉ dfsOrder cs f c := fun hm =>
      (dfs_nodes par cs n f avoid c hcOK v hm).2 hvav
    have hstep : busDispose f M c =
        killNodes par (setBus M v { busv with children := busv.children.erase c })
          (dfsOrder cs f c) := by
      rw [node_ih M avoid c hcOK (fun p hp => by
          rw [hpc] at hp
          cases hp
          exact hvav) hlivec]
      rw [hpc]
      show killNodes par (updateBus M v fun s => { s with children := s.children.erase c })
        (dfsOrder cs f c) = _
      rw [updateBus_eq_setBus M v _ busv hbusv]
    set busv1 : BusState := { busv with children := busv.children.erase c } with hbusv1def
    set M' : Machine := killNodes par (setBus M v busv1) (dfsOrder cs f c) with hMpdef
    have hbusv' : getBus M' v = some busv1 := by
      rw [hMpdef, getBus_killNodes_notmem par _ _ v hvnotc]
      exact getBus_setBus_self M v busv1 hvlen
    have hlive' : ∀ w ∈ ((rest.map (dfsOrder cs f)).flatten),
        getBus M' w = some (treeBus par cs d [] w) ∧ getReg M' w = some (treeReg w) := by
      intro w hw
      have hwav := dfs_seq_nodes par cs n f rest (avoid ++ dfsOrder cs f c) hrest w hw
      have hwv : w ≠ v := fun hh => hwav.2 (List.mem_append_left _ (hh ▸ hvav))
      have hwc : w ∉ dfsOrder cs f c := fun hm =>
        hwav.2 (List.mem_append_right _ hm)
      have hworig := hlive w (by
        rw [List.map_cons, List.flatten_cons]
        exact List.mem_append_right _ hw)
      constructor
      · rw [hMpdef, getBus_killNodes_notmem par _ _ w hwc,
          getBus_setBus_ne M v busv1 w (fun hh => hwv hh.symm)]
        exact hworig.1
      · rw [hMpdef, getReg_killNodes_notmem par _ _ w hwc, getReg_setBus]
        exact hworig.2
    have hrec := ihk M' (avoid ++ dfsOrder cs f c) v busv1 hrest
      (fun c' hc' => hpars c' (List.mem_cons_of_mem c hc')) hbusv'
      (List.mem_append_left _ hvav) hlive'
    show rest.foldl (fun acc c => busDispose f acc c) (busDispose f M c) = _
    rw [hstep, hrec]
    rw [hMpdef]
    rw [← killNodes_setBus_comm par (dfsOrder cs f c) (setBus M v busv1) v
      ({ busv1 with children := rest.foldl (fun l c => l.erase c) busv1.children })
      hvnotc]
    rw [setBus_setBus]
    rw [← killNodes_append]
    rw [show ({ busv1 with
        children := rest.foldl (fun l c => l.erase c) busv1.children } : BusState) =
      { busv with
        children := (c :: rest).foldl (fun l c => l.erase c) busv.children } from rfl]
    rw [show (((c :: rest).map (dfsOrder cs f)).flatten) =
      dfsOrder cs f c ++ ((rest.map (dfsOrder cs f)).flatten) from by
        rw [List.map_cons, List.flatten_cons]]

theorem busDispose_sim (par : Nat → Option Nat) (cs : Nat → List Nat) (n d : Nat) :
    ∀ (fuel : Nat) (M : Machine) (avoid : List Nat) (v : Nat),
    dfsOK par cs n fuel avoid v →
    (∀ p, par v = some p → p ∈ avoid) →
    (∀ w ∈ dfsOrder cs fuel v,
      getBus M w = some (treeBus par cs d [] w) ∧ getReg M w = some (treeReg w)) →
    busDispose fuel M v =
      killNodes par
        (match par v with
         | some p => updateBus M p (fun s => { s with children := s.children.erase v })
         | none => M)
        (dfsOrder cs fuel v) := by
  intro fuel
  induction fuel with
  | zero => intro M avoid v h _ _; simp only [dfsOK] at h
  | succ f ih =>
    intro M avoid v h hpav hlive
    simp only [dfsOK] at h
    obtain ⟨hv, hva, hpars, hseq⟩ := h
    obtain ⟨hbusM, hregM⟩ := hlive v (List.mem_cons_self _ _)
    have hvlen : v < M.buses.length := lt_length_of_getElem?_some hbusM
    set liveV : BusState := treeBus par cs d [] v with hliveVdef
    set dB : BusState := { liveV with disposed := true } with hdBdef
    have hvflat : v ∉ ((cs v).map (dfsOrder cs f)).flatten := fun hm =>
      (dfs_seq_nodes par cs n f (cs v) (avoid ++ [v]) hseq v hm).2
        (List.mem_append_right _ (List.mem_singleton_self v))
    have hdel : registryDelete [(topicC.tid, [v])] topicC.tid v = [(topicC.tid, [])] := by
      unfold registryDelete
      simp
    have core : ∀ (M2c : Machine) (dB2 : BusState), dB2 = dB →
        (∀ w ∈ dfsOrder cs (f + 1) v, getBus M2c w = getBus M w) →
        M2c.regs = M.regs →
        updateBus
          (liveV.children.foldl (fun acc c => busDispose f acc c)
            ((registryValues liveV.registry).foldl (fun acc rid => regDispose acc rid)
              (setBus M2c v dB2)))
          v (fun s => { s with children := [], registry := [], listeners := [] }) =
        killNodes par M2c (dfsOrder cs (f + 1) v) := by
      intro M2c dB2 hdB2 hsame hregs
      subst hdB2
      have hlen2 : v < M2c.buses.length := by
        have hg2 : getBus M2c v = some liveV := (hsame v (List.mem_cons_self _ _)).trans hbusM
        exact lt_length_of_getElem?_some hg2
      have hgr2 : getReg M2c v = some (treeReg v) := by
        show M2c.regs[v]? = _
        rw [hregs]
        exact hregM
      -- the registration-disposal stage
      have hrdisp : (registryValues liveV.registry).foldl
          (fun acc rid => regDispose acc rid) (setBus M2c v dB) =
          setBus (setReg (setBus M2c v dB) v (killReg v)) v
            { dB with registry := [(topicC.tid, [])] } := by
        show regDispose (setBus M2c v dB) v = _
        unfold regDispose
        rw [show getReg (setBus M2c v dB) v = some (treeReg v) from hgr2]
        show updateBus (setReg (setBus M2c v dB) v { treeReg v with isDisposed := true })
          (treeReg v).owner (fun bus =>
            { bus with registry := registryDelete bus.registry (treeReg v).topic.tid v }) = _
        rw [show (treeReg v).owner = v from rfl]
        have hgb : getBus (setReg (setBus M2c v dB) v { treeReg v with isDisposed := true })
            v = some dB := by
          rw [getBus_setReg]
          exact getBus_setBus_self M2c v dB hlen2
        rw [updateBus_eq_setBus _ v _ dB hgb]
        rw [show ({ dB with
            registry := registryDelete dB.registry (treeReg v).topic.tid v } : BusState) =
          { dB with registry := [(topicC.tid, [])] } from by
            rw [show dB.registry = [(topicC.tid, [v])] from by
              rw [hdBdef, hliveVdef]
              unfold treeBus
              rfl]
            rw [show (treeReg v).topic.tid = topicC.tid from rfl]
            rw [hdel]]
        rfl
      set m3 : Machine := setBus (setReg (setBus M2c v dB) v (killReg v)) v
        { dB with registry := [(topicC.tid, [])] } with hm3def
      have hbusm3 : getBus m3 v = some { dB with registry := [(topicC.tid, [])] } := by
        rw [hm3def]
        apply getBus_setBus_self
        simpa [setBus, setReg] using hlen2
      have hlivem3 : ∀ w ∈ ((cs v).map (dfsOrder cs f)).flatten,
          getBus m3 w = some (treeBus par cs d [] w) ∧ getReg m3 w = some (treeReg w) := by
        intro w hw
        have hwav := dfs_seq_nodes par cs n f (cs v) (avoid ++ [v]) hseq w hw
        have hwv : w ≠ v := fun hh =>
          hwav.2 (List.mem_append_right _ (by rw [hh]; exact List.mem_singleton_self v))
        have hworig := hlive w (List.mem_cons_of_mem _ hw)
        constructor
        · rw [hm3def, getBus_setBus_ne _ v _ w (fun hh => hwv hh.symm), getBus_setReg,
            getBus_setBus_ne _ v _ w (fun hh => hwv hh.symm)]
          rw [hsame w (List.mem_cons_of_mem _ hw)]
          exact hworig.1
        · rw [hm3def, getReg_setBus,
            getReg_setReg_ne _ v _ w (fun hh => hwv hh.symm), getReg_setBus]
          show M2c.regs[w]? = _
          rw [hregs]
          exact hworig.2
      have hfold := busDisposeFold_sim par cs n d f
        (fun M' avoid' v' h' hp' hl' => ih M' avoid' v' h' hp' hl')
        (cs v) m3 (avoid ++ [v]) v { dB with registry := [(topicC.tid, [])] }
        hseq hpars hbusm3 (List.mem_append_right _ (List.mem_singleton_self v)) hlivem3
      rw [hrdisp]
      rw [show liveV.children = cs v from by rw [hliveVdef]; rfl]
      rw [hfold]
      set B : BusState := { ({ dB with registry := [(topicC.tid, [])] } : BusState) with
        children := (cs v).foldl (fun l c => l.erase c)
          (({ dB with registry := [(topicC.tid, [])] } : BusState)).children } with hBdef
      have hgetB : getBus (killNodes par (setBus m3 v B)
          (((cs v).map (dfsOrder cs f)).flatten)) v = some B := by
        rw [getBus_killNodes_notmem par _ _ v hvflat]
        apply getBus_setBus_self
        simpa [hm3def, setBus, setReg] using hlen2
      rw [updateBus_eq_setBus _ v _ B hgetB]
      rw [killNodes_setBus_comm par _ _ v _ hvflat]
      rw [setBus_setBus]
      rw [show ({ B with children := [], registry := [], listeners := [] } : BusState) =
        killBus par v from by
          rw [hBdef, hdBdef, hliveVdef]
          unfold treeBus killBus
          rfl]
      rw [← killNodes_setBus_comm par (((cs v).map (dfsOrder cs f)).flatten) m3 v
        (killBus par v) hvflat]
      rw [hm3def, setBus_setBus]
      rw [show setReg (setBus M2c v dB) v (killReg v) =
        setBus (setReg M2c v (killReg v)) v dB from
        (setBus_setReg_comm M2c v v dB (killReg v)).symm]
      rw [setBus_setBus]
      rfl
    -- unfold the dispose body
    show busDispose (f + 1) M v = _
    unfold busDispose
    simp only [hbusM]
    rw [if_neg (show ¬ liveV.disposed = true from by
      rw [hliveVdef]
      unfold treeBus
      simp)]
    rw [show liveV.parent = par v from by rw [hliveVdef]; rfl]
    cases hpv : par v with
    | none =>
      have hlitn : ({ liveV with parent := none, disposed := true } : BusState) = dB := by
        rw [hdBdef]
        rw [show liveV.parent = par v from rfl, hpv]
      exact core M _ hlitn (fun w _ => rfl) rfl
    | some p =>
      have hpavd : p ∈ avoid := hpav p hpv
      have hpv' : p ≠ v := fun hh => hva (hh ▸ hpavd)
      set dBp : BusState := { liveV with parent := some p, disposed := true } with hdBpdef
      have hlitp : dBp = dB := by
        rw [hdBpdef, hdBdef]
        rw [show liveV.parent = par v from rfl, hpv]
      have hcomm : updateBus (setBus M v dBp) p
          (fun s => { s with children := s.children.erase v }) =
          setBus (updateBus M p (fun s => { s with children := s.children.erase v })) v dBp := by
        cases hgp : getBus M p with
        | none =>
          have hgp' : getBus (setBus M v dBp) p = none := by
            rw [getBus_setBus_ne M v dBp p (fun hh => hpv' hh.symm)]
            exact hgp
          unfold updateBus
          rw [hgp, hgp']
        | some bp =>
          have hgp' : getBus (setBus M v dBp) p = some bp := by
            rw [getBus_setBus_ne M v dBp p (fun hh => hpv' hh.symm)]
            exact hgp
          rw [updateBus_eq_setBus _ p _ bp hgp', updateBus_eq_setBus M p _ bp hgp]
          exact setBus_comm M v p dBp _ (fun hh => hpv' hh.symm)
      have hctx : ∀ X Y : Machine, X = Y →
          updateBus
            (liveV.children.foldl (fun acc c => busDispose f acc c)
              ((registryValues liveV.registry).foldl (fun acc rid => regDispose acc rid) X))
            v (fun s => { s with children := [], registry := [], listeners := [] }) =
          updateBus
            (liveV.children.foldl (fun acc c => busDispose f acc c)
              ((registryValues liveV.registry).foldl (fun acc rid => regDispose acc rid) Y))
            v (fun s => { s with children := [], registry := [], listeners := [] }) := by
        intro X Y hXY
        rw [hXY]
      refine Eq.trans (hctx _ _ hcomm)
        (core (updateBus M p (fun s => { s with children := s.children.erase v })) dBp hlitp
          ?_ ?_)
      · intro w hw
        have hwp : w ≠ p := fun hh =>
          (dfs_nodes par cs n (f + 1) avoid v
            (by
              simp only [dfsOK]
              exact ⟨hv, hva, hpars, hseq⟩) w hw).2 (hh ▸ hpavd)
        cases hgp : getBus M p with
        | none => unfold updateBus; rw [hgp]
        | some bp =>
          rw [updateBus_eq_setBus M p _ bp hgp]
          exact getBus_setBus_ne M p _ w (fun hh => hwp hh.symm)
      · cases hgp : getBus M p with
        | none => unfold updateBus; rw [hgp]
        | some bp =>
          rw [updateBus_eq_setBus M p _ bp hgp]
          rfl

/-! #### Registration disposal lemmas -/

theorem regDispose_getReg (m : Machine) (rid : Nat) (reg : RegState)
    (h1 : getReg m rid = some reg) :
    getReg (regDispose m rid) rid = some { reg with isDisposed := true } := by
  unfold regDispose
  rw [h1, getReg_updateBus]
  exact getReg_setReg_self m rid _ (lt_length_of_getElem?_some h1)

theorem regDispose_trace (m : Machine) (rid : Nat) :
    (regDispose m rid).trace = m.trace := by
  unfold regDispose
  cases h : getReg m rid <;> simp

theorem regIdsOf_eq (m : Machine) (b tid : Nat) :
    regIdsOf m b tid =
      ((getBus m b).map (fun bus => (registryGet bus.registry tid).getD [])).getD [] := by
  unfold regIdsOf
  cases getBus m b <;> rfl

theorem regIdsOf_congr_buses (m m' : Machine) (b tid : Nat)
    (h : m.buses = m'.buses) : regIdsOf m b tid = regIdsOf m' b tid := by
  rw [regIdsOf_eq, regIdsOf_eq]
  unfold getBus
  rw [h]

theorem regDispose_regIdsOf (m : Machine) (rid : Nat) (reg : RegState)
    (h1 : getReg m rid = some reg) :
    regIdsOf (regDispose m rid) reg.owner reg.topic.tid =
      (regIdsOf m reg.owner reg.topic.tid).erase rid := by
  have hstep : regDispose m rid =
      updateBus (setReg m rid { reg with isDisposed := true }) reg.owner
        (fun bus => { bus with registry := registryDelete bus.registry reg.topic.tid rid }) := by
    unfold regDispose
    rw [h1]
  rw [hstep, regIdsOf_eq, regIdsOf_eq]
  cases hb : getBus m reg.owner with
  | none =>
    have hb' : getBus (setReg m rid { reg with isDisposed := true }) reg.owner = none := by
      rw [getBus_setReg]; exact hb
    unfold updateBus
    rw [hb']
    simp [hb]
  | some bus =>
    have hb' : getBus (setReg m rid { reg with isDisposed := true }) reg.owner = some bus := by
      rw [getBus_setReg]; exact hb
    rw [getBus_updateBus_self _ _ _ bus hb']
    show (registryGet (registryDelete bus.registry reg.topic.tid rid) reg.topic.tid).getD [] =
      ((registryGet bus.registry reg.topic.tid).getD []).erase rid
    rw [registryGet_delete_self]
    cases registryGet bus.registry reg.topic.tid <;> simp

theorem regDispose_buses_lazyQueues (m : Machine) (rid : Nat) (reg : RegState)
    (dq pq : List Nat) (isR : Bool)
    (h1 : getReg m rid = some reg) (h2 : reg.kind = .lazyReg dq pq isR) :
    lazyQueues (regDispose m rid) rid = some (dq, pq) := by
  unfold lazyQueues
  rw [regDispose_getReg m rid reg h1]
  simp [h2]

theorem lazyReturn_eq (m : Machine) (rid : Nat) (reg : RegState)
    (dq pq : List Nat) (isR : Bool)
    (h1 : getReg m rid = some reg) (h2 : reg.kind = .lazyReg dq pq isR) :
    lazyReturn m rid =
      setReg
        { regDispose m rid with
          trace := (regDispose m rid).trace ++
            pq.map (fun wid => Event.resolvedWaiter wid true none) }
        rid { reg with isDisposed := true, kind := .lazyReg dq [] isR } := by
  unfold lazyReturn
  simp only [regDispose_getReg m rid reg h1, h2]
  rw [foldl_emit_map]

theorem lazyThrow_eq (m : Machine) (rid : Nat) (reg : RegState)
    (dq pq : List Nat) (isR : Bool) (e : JsErr)
    (h1 : getReg m rid = some reg) (h2 : reg.kind = .lazyReg dq pq isR) :
    lazyThrow m rid e =
      (setReg
        { regDispose m rid with
          trace := (regDispose m rid).trace ++
            pq.map (fun wid => Event.rejectedWaiter wid e) }
        rid { reg with isDisposed := true, kind := .lazyReg dq [] isR }, e) := by
  unfold lazyThrow
  simp only [regDispose_getReg m rid reg h1, h2]
  rw [foldl_emit_map]

/-- C6 (amended): terminating the pull sequence — `return()` or `throw()` —
settles every outstanding waiter (resolving each with a done result,
resp. rejecting each with the thrown error) and removes the registration from
the registry; plain `dispose()`, the path taken by external disposal and by
limit exhaustion (`remaining == 0` delivery), removes the registration and
sets the disposed flag but leaves outstanding waiters pending and
unsettled. -/
theorem lazy_disposal_waiter_settlement (m : Machine) (rid : Nat) (reg : RegState)
    (dq pq : List Nat) (isR : Bool) (d : Nat) (e : JsErr)
    (h1 : getReg m rid = some reg) (h2 : reg.kind = .lazyReg dq pq isR) :
    ((getReg (lazyReturn m rid) rid).map (fun r => r.isDisposed) = some true ∧
      lazyQueues (lazyReturn m rid) rid = some (dq, []) ∧
      (lazyReturn m rid).trace =
        m.trace ++ pq.map (fun wid => Event.resolvedWaiter wid true none) ∧
      regIdsOf (lazyReturn m rid) reg.owner reg.topic.tid =
        (regIdsOf m reg.owner reg.topic.tid).erase rid) ∧
    ((getReg (lazyThrow m rid e).1 rid).map (fun r => r.isDisposed) = some true ∧
      lazyQueues (lazyThrow m rid e).1 rid = some (dq, []) ∧
      (lazyThrow m rid e).1.trace =
        m.trace ++ pq.map (fun wid => Event.rejectedWaiter wid e) ∧
      (lazyThrow m rid e).2 = e) ∧
    ((getReg (regDispose m rid) rid).map (fun r => r.isDisposed) = some true ∧
      lazyQueues (regDispose m rid) rid = some (dq, pq) ∧
      (regDispose m rid).trace = m.trace ∧
      regIdsOf (regDispose m rid) reg.owner reg.topic.tid =
        (regIdsOf m reg.owner reg.topic.tid).erase rid) ∧
    (reg.remaining = 0 → regHandlerStep m rid d = (regDispose m rid, none)) := by
  have hdg : getReg (regDispose m rid) rid = some { reg with isDisposed := true } :=
    regDispose_getReg m rid reg h1
  have hlen' : rid < (regDispose m rid).regs.length := lt_length_of_getElem?_some hdg
  refine ⟨?_, ?_, ?_, ?_⟩
  · rw [lazyReturn_eq m rid reg dq pq isR h1 h2]
    refine ⟨?_, ?_, ?_, ?_⟩
    · rw [getReg_setReg_self _ _ _ (by simpa using hlen')]
      rfl
    · unfold lazyQueues
      rw [getReg_setReg_self _ _ _ (by simpa using hlen')]
    · rw [trace_setReg]
      simp [regDispose_trace]
    · exact regDispose_regIdsOf m rid reg h1
  · rw [lazyThrow_eq m rid reg dq pq isR e h1 h2]
    refine ⟨?_, ?_, ?_, ?_⟩
    · rw [getReg_setReg_self _ _ _ (by simpa using hlen')]
      rfl
    · unfold lazyQueues
      rw [getReg_setReg_self _ _ _ (by simpa using hlen')]
    · rw [trace_setReg]
      simp [regDispose_trace]
    · rfl
  · refine ⟨?_, ?_, ?_, ?_⟩
    · rw [hdg]; rfl
    · exact regDispose_buses_lazyQueues m rid reg dq pq isR h1 h2
    · exact regDispose_trace m rid
    · exact regDispose_regIdsOf m rid reg h1
  · intro hrem
    unfold regHandlerStep
    rw [h1]
    simp [hrem]

/-- C1 counterexample: in the two-bus scenario `mC1` (root bus 0 with child
bus 1, one handler each), the run delivers the root's own handler invocation
before the child's, so the subtree delivery does not complete before the
origin's local handlers run. The claim's ordering would require the child's
invocation to precede the root's in the trace; it is the other way around. -/
theorem publish_children_origin_handlers_first :
    mC1run.trace =
      [.enqueued 0 0 7, .enqueued 1 0 7, .invoked 0 7, .invoked 1 7] ∧
    Event.invoked 1 7 ∈ mC1run.trace ∧ Event.invoked 0 7 ∈ mC1run.trace ∧
    ¬ mC1run.trace.indexOf (Event.invoked 1 7) <
        mC1run.trace.indexOf (Event.invoked 0 7) := by
  decide

/-- C2 counterexample: with `safePublishing = false` and a throwing handler
subscribed, the `publish` call itself succeeds — nothing propagates
synchronously to the publish call site; the wrapped error instead escapes the
deferred drain microtask. -/
theorem throwing_handler_publish_call_succeeds :
    mC2pub.isOk = true ∧
    (runAll (unwrapM mC2pub mC2) 10).2 =
      [.taggedCause (tagMsg "unhandled error in message handler") (.raw 0 5)] := by
  decide

/-- C5 counterexample: disposing the root bus of `mC5` disposes both buses
and the handler registrations reachable from the registries, but the
never-pulled lazy registration (id 2), created on the root by `subscribe`
with no handler, is not in any registry and survives undisposed. -/
theorem dispose_skips_unpulled_lazy_registration :
    (getBus mC5d 0).map (fun bus => bus.disposed) = some true ∧
    (getBus mC5d 1).map (fun bus => bus.disposed) = some true ∧
    (getReg mC5d 0).map (fun reg => reg.isDisposed) = some true ∧
    (getReg mC5d 1).map (fun reg => reg.isDisposed) = some true ∧
    (getReg mC5d 2).map (fun reg => reg.isDisposed) = some false := by
  decide

/-- C6 counterexample: an external `dispose()` on a lazy registration with an
outstanding waiter marks it disposed but leaves the waiter queued and emits
no settlement event, so the pending pull stays unsettled. -/
theorem dispose_leaves_waiter_pending :
    lazyQueues mC6 0 = some ([], [0]) ∧
    (getReg mC6d 0).map (fun reg => reg.isDisposed) = some true ∧
    lazyQueues mC6d 0 = some ([], [0]) ∧
    mC6d.trace = [] := by
  decide

/-- C7 counterexample: after the single permitted delivery of a limit-1
registration, the remaining-count is zero, yet the registration is neither
disposed nor removed from the registry — destruction is deferred to the next
delivery attempt rather than happening when the count reaches zero. -/
theorem limit_one_not_disposed_after_first_delivery :
    observedData mC7.trace 0 = [1] ∧
    (getReg mC7 0).map (fun reg => reg.remaining) = some 0 ∧
    (getReg mC7 0).map (fun reg => reg.isDisposed) = some false ∧
    regIdsOf mC7 0 0 = [0] := by
  decide

/-- C8 counterexample: pulling a lazy subscription that was disposed before
its first pull returns a finished result and inserts no registry entry, so
the first pull does not insert exactly one entry for every lazy
subscription. -/
theorem first_pull_after_dispose_inserts_nothing :
    regIdsOf mC8 0 0 = [] ∧
    mC8n.2 = NextResult.finished ∧
    regIdsOf mC8n.1 0 0 = [] := by
  decide

/-- Witness for the C6 amended theorem at the concrete one-waiter scenario. -/
theorem lazy_disposal_waiter_settlement_witness :
    getReg mC6 0 = some mC6reg ∧
    mC6reg.kind = RegKind.lazyReg [] [0] true ∧
    lazyQueues (regDispose mC6 0) 0 = some ([], [0]) :=
  ⟨by decide, by decide,
    (lazy_disposal_waiter_settlement mC6 0 mC6reg [] [0] true 5 (JsErr.raw 9 9)
      (by decide) (by decide)).2.2.1.2.1⟩

/-- C7 (amended): a non-throwing handler registration whose remaining-count
is 1 is invoked on delivery with the count dropping to 0 and nothing removed
from any registry; a delivery to a registration whose remaining-count is
already 0 disposes it without invoking the handler. Concretely, in the
limit-1 scenario the handler observes only the first published value, and
only the second publish's dispatch disposes and unregisters it. -/
theorem limit_one_single_invocation :
    (∀ (m : Machine) (rid : Nat) (reg : RegState) (hspec : HandlerSpec) (d : Nat),
      getReg m rid = some reg → reg.remaining = 1 →
      reg.kind = .handlerReg hspec → hspec.throwing = false →
      regHandlerStep m rid d =
        ({ setReg m rid { reg with remaining := 0 } with
           trace := m.trace ++ [.invoked hspec.hid d] }, none)) ∧
    (∀ (m : Machine) (rid : Nat) (reg : RegState) (d : Nat),
      getReg m rid = some reg → reg.remaining = 0 →
      regHandlerStep m rid d = (regDispose m rid, none)) ∧
    observedData (mC7a 1).trace 0 = [1] ∧
    (getReg (mC7a 1) 0).map (fun r => r.remaining) = some 0 ∧
    (getReg (mC7a 1) 0).map (fun r => r.isDisposed) = some false ∧
    regIdsOf (mC7a 1) 0 0 = [0] ∧
    observedData (mC7b 1 2).trace 0 = [1] ∧
    (getReg (mC7b 1 2) 0).map (fun r => r.isDisposed) = some true ∧
    regIdsOf (mC7b 1 2) 0 0 = [] := by
  refine ⟨?_, ?_, by decide, by decide, by decide, by decide, by decide, by decide, by decide⟩
  · intro m rid reg hspec d h1 hrem hk hthr
    obtain ⟨ow, tp, pr, rm, dis, kd⟩ := reg
    obtain ⟨hh, ht⟩ := hspec
    dsimp only at hrem hk hthr
    subst hrem
    subst hk
    subst hthr
    simp [regHandlerStep, h1, emit, setReg]
  · intro m rid reg d h1 hrem
    unfold regHandlerStep
    rw [h1]
    simp [hrem]

/-- Witness for the C7 amended theorem: one delivery to the concrete limit-1
registration decrements its count to zero and invokes the handler. -/
theorem limit_one_single_invocation_witness :
    getReg mC7pre 0 = some mC7reg ∧
    mC7reg.remaining = 1 ∧
    mC7reg.kind = RegKind.handlerReg ⟨0, false⟩ ∧
    regHandlerStep mC7pre 0 5 =
      ({ setReg mC7pre 0 { mC7reg with remaining := 0 } with
         trace := mC7pre.trace ++ [.invoked 0 5] }, none) :=
  ⟨by decide, by decide, by decide,
    limit_one_single_invocation.1 mC7pre 0 mC7reg ⟨0, false⟩ 5
      (by decide) (by decide) (by decide) (by decide)⟩

theorem lazyNext_fresh (m : Machine) (rid : Nat) (reg : RegState) (b : Nat) (bus : BusState)
    (h1 : getReg m rid = some reg)
    (hk : reg.kind = .lazyReg [] [] false) (hd : reg.isDisposed = false)
    (hown : reg.owner = b) (hbus : getBus m b = some bus) :
    lazyNext m rid =
      ({ setReg (setBus m b { bus with registry := registrySet bus.registry reg.topic.tid rid })
          rid { reg with kind := .lazyReg [] [m.nextWaiterId] true }
        with nextWaiterId := m.nextWaiterId + 1 }, .waiting m.nextWaiterId) := by
  obtain ⟨ow, tp, pr, rm, dis, kd⟩ := reg
  dsimp only at hk hd hown
  subst hk
  subst hd
  subst hown
  simp [lazyNext, h1, updateBus, hbus, setBus, setReg]

theorem lazyNext_registered_buses (m : Machine) (rid : Nat) (reg : RegState)
    (dq pq : List Nat)
    (h1 : getReg m rid = some reg) (hk : reg.kind = .lazyReg dq pq true) :
    ((lazyNext m rid).1).buses = m.buses := by
  obtain ⟨ow, tp, pr, rm, dis, kd⟩ := reg
  dsimp only at hk
  subst hk
  cases dq with
  | cons d rest => simp [lazyNext, h1, setReg]
  | nil =>
    cases dis with
    | true => simp [lazyNext, h1]
    | false => simp [lazyNext, h1, setReg]

theorem lazyNext_disposed (m : Machine) (rid : Nat) (reg : RegState)
    (pq : List Nat) (isR : Bool)
    (h1 : getReg m rid = some reg) (hk : reg.kind = .lazyReg [] pq isR)
    (hd : reg.isDisposed = true) :
    lazyNext m rid = (m, .finished) := by
  obtain ⟨ow, tp, pr, rm, dis, kd⟩ := reg
  dsimp only at hk hd
  subst hk
  subst hd
  simp [lazyNext, h1]

/-- C8 (amended): a lazy subscription adds nothing to any registry at
creation; the first pull of a not-yet-disposed subscription inserts exactly
one registry entry for its topic (and none for other topics); any pull of a
registration that is already registered never touches the buses again; a
pull after disposal with an empty buffer returns a finished result and
changes nothing. -/
theorem lazy_first_pull_registers (m : Machine) (b : Nat) (t : Topic) (bus : BusState)
    (limit priority : Int)
    (h1 : getBus m b = some bus) (h2 : bus.disposed = false) :
    subscribeImpl m b t none limit priority =
      .ok (lazySubscribed m b t limit priority, m.regs.length) ∧
    (lazySubscribed m b t limit priority).buses = m.buses ∧
    regIdsOf ((lazyNext (lazySubscribed m b t limit priority) m.regs.length).1) b t.tid =
      regIdsOf m b t.tid ++ [m.regs.length] ∧
    (∀ tid', tid' ≠ t.tid →
      regIdsOf ((lazyNext (lazySubscribed m b t limit priority) m.regs.length).1) b tid' =
        regIdsOf m b tid') ∧
    (getReg ((lazyNext (lazySubscribed m b t limit priority) m.regs.length).1)
        m.regs.length).map (fun r => r.kind) =
      some (.lazyReg [] [m.nextWaiterId] true) ∧
    (∀ m' rid' reg dq pq, getReg m' rid' = some reg →
      reg.kind = .lazyReg dq pq true → ((lazyNext m' rid').1).buses = m'.buses) ∧
    (∀ m' rid' reg pq isR, getReg m' rid' = some reg →
      reg.kind = .lazyReg [] pq isR → reg.isDisposed = true →
      lazyNext m' rid' = (m', .finished)) := by
  have hg1 : getReg (lazySubscribed m b t limit priority) m.regs.length =
      some (freshLazyReg b t limit priority) := by
    simp [lazySubscribed, getReg, List.getElem?_concat_length]
  have h1' : getBus (lazySubscribed m b t limit priority) b = some bus := h1
  have hlen : b < (lazySubscribed m b t limit priority).buses.length :=
    lt_length_of_getElem?_some h1'
  have hnext : lazyNext (lazySubscribed m b t limit priority) m.regs.length =
      (firstPullMachine m b bus t limit priority, .waiting m.nextWaiterId) :=
    lazyNext_fresh (lazySubscribed m b t limit priority) m.regs.length
      (freshLazyReg b t limit priority) b bus hg1 rfl rfl rfl h1'
  have hridlen : m.regs.length <
      (setBus (lazySubscribed m b t limit priority) b
        (firstPullBus bus t m.regs.length)).regs.length := by
    simp [lazySubscribed, setBus]
  have hgb : getBus (firstPullMachine m b bus t limit priority) b =
      some (firstPullBus bus t m.regs.length) :=
    getBus_setBus_self (lazySubscribed m b t limit priority) b
      (firstPullBus bus t m.regs.length) hlen
  have hfr : getReg (firstPullMachine m b bus t limit priority) m.regs.length =
      some (firstPullReg b t limit priority m.nextWaiterId) :=
    getReg_setReg_self
      (setBus (lazySubscribed m b t limit priority) b (firstPullBus bus t m.regs.length))
      m.regs.length (firstPullReg b t limit priority m.nextWaiterId) hridlen
  refine ⟨?_, rfl, ?_, ?_, ?_, ?_, ?_⟩
  · simp [subscribeImpl, h1, h2, lazySubscribed, freshLazyReg]
  · rw [hnext, regIdsOf_eq, regIdsOf_eq, hgb, h1]
    simp only [Option.map_some', Option.getD_some]
    unfold firstPullBus
    rw [registryGet_set_self]
    rfl
  · intro tid' hne
    rw [hnext, regIdsOf_eq, regIdsOf_eq, hgb, h1]
    simp only [Option.map_some', Option.getD_some]
    unfold firstPullBus
    rw [registryGet_set_ne _ _ _ _ (fun hh => hne hh.symm)]
  · rw [hnext]
    rw [hfr]
    rfl
  · intro m' rid' reg dq pq hg hk
    exact lazyNext_registered_buses m' rid' reg dq pq hg hk
  · intro m' rid' reg pq isR hg hk hd
    exact lazyNext_disposed m' rid' reg pq isR hg hk hd

/-- Witness for the C8 amended theorem on a fresh root bus. -/
theorem lazy_first_pull_registers_witness :
    getBus (initMachine false) 0 = some (rootBus false) ∧
    (rootBus false).disposed = false ∧
    regIdsOf ((lazyNext (lazySubscribed (initMachine false) 0 topicC defaultLimit
        defaultPriority) ((initMachine false).regs.length)).1) 0 topicC.tid =
      regIdsOf (initMachine false) 0 topicC.tid ++ [(initMachine false).regs.length] :=
  ⟨by decide, by decide,
    (lazy_first_pull_registers (initMachine false) 0 topicC (rootBus false)
      defaultLimit defaultPriority (by decide) (by decide)).2.2.1⟩

/-! #### Lazy-registration invariant lemmas -/

theorem lazyQueues_regDispose (m : Machine) (rid : Nat) :
    lazyQueues (regDispose m rid) rid = lazyQueues m rid := by
  cases h : getReg m rid with
  | none => simp [regDispose, h]
  | some reg =>
    unfold lazyQueues
    rw [regDispose_getReg m rid reg h, h]

theorem regHandlerStep_lazy_waiter (m : Machine) (rid : Nat) (reg : RegState)
    (dq : List Nat) (w : Nat) (ws : List Nat) (isR : Bool) (d : Nat)
    (h1 : getReg m rid = some reg) (hk : reg.kind = .lazyReg dq (w :: ws) isR)
    (hrem : reg.remaining ≠ 0) :
    lazyQueues ((regHandlerStep m rid d).1) rid = some (dq, ws) ∧
    ((regHandlerStep m rid d).1).trace =
      m.trace ++ [.resolvedWaiter w false (some d)] := by
  obtain ⟨ow, tp, pr, rm, dis, kd⟩ := reg
  dsimp only at hk hrem
  subst hk
  have hlen : rid < m.regs.length := lt_length_of_getElem?_some h1
  unfold regHandlerStep
  rw [h1]
  simp only [hrem]
  by_cases hpos : rm > 0 <;>
    simp [hpos, lazyQueues, emit, setReg, getReg, List.getElem?_set,
      List.length_set, hlen]

theorem regHandlerStep_lazy_buffer (m : Machine) (rid : Nat) (reg : RegState)
    (dq : List Nat) (isR : Bool) (d : Nat)
    (h1 : getReg m rid = some reg) (hk : reg.kind = .lazyReg dq [] isR)
    (hrem : reg.remaining ≠ 0) :
    lazyQueues ((regHandlerStep m rid d).1) rid = some (dq ++ [d], []) ∧
    ((regHandlerStep m rid d).1).trace = m.trace := by
  obtain ⟨ow, tp, pr, rm, dis, kd⟩ := reg
  dsimp only at hk hrem
  subst hk
  have hlen : rid < m.regs.length := lt_length_of_getElem?_some h1
  unfold regHandlerStep
  rw [h1]
  simp only [hrem]
  by_cases hpos : rm > 0 <;>
    simp [hpos, lazyQueues, setReg, getReg, List.getElem?_set,
      List.length_set, hlen]

theorem lazyNext_value (m : Machine) (rid : Nat) (reg : RegState)
    (d : Nat) (rest pq : List Nat) (isR : Bool)
    (h1 : getReg m rid = some reg) (hk : reg.kind = .lazyReg (d :: rest) pq isR) :
    lazyQueues ((lazyNext m rid).1) rid = some (rest, pq) ∧
    (lazyNext m rid).2 = .value d := by
  obtain ⟨ow, tp, pr, rm, dis, kd⟩ := reg
  dsimp only at hk
  subst hk
  have hlen : rid < m.regs.length := lt_length_of_getElem?_some h1
  unfold lazyNext
  rw [h1]
  simp [lazyQueues, setReg, getReg, List.getElem?_set, hlen]

theorem lazyNext_waiter (m : Machine) (rid : Nat) (reg : RegState)
    (pq : List Nat) (isR : Bool)
    (h1 : getReg m rid = some reg) (hk : reg.kind = .lazyReg [] pq isR)
    (hd : reg.isDisposed = false) :
    lazyQueues ((lazyNext m rid).1) rid = some ([], pq ++ [m.nextWaiterId]) ∧
    (lazyNext m rid).2 = .waiting m.nextWaiterId := by
  obtain ⟨ow, tp, pr, rm, dis, kd⟩ := reg
  dsimp only at hk hd
  subst hk
  subst hd
  have hlen : rid < m.regs.length := lt_length_of_getElem?_some h1
  unfold lazyNext
  rw [h1]
  cases isR with
  | true =>
    simp [lazyQueues, setReg, getReg, List.getElem?_set, hlen]
  | false =>
    simp [lazyQueues, setReg, getReg, List.getElem?_set, List.length_set, hlen]

theorem lazyInv_lazyStep (m : Machine) (rid : Nat) (op : LazyOp)
    (h : lazyInv m rid) : lazyInv (lazyStep m rid op) rid := by
  cases op with
  | arrive d =>
    show lazyInv ((regHandlerStep m rid d).1) rid
    cases hr : getReg m rid with
    | none => simpa [regHandlerStep, hr] using h
    | some reg =>
      by_cases hrem : reg.remaining = 0
      · have hstep : (regHandlerStep m rid d).1 = regDispose m rid := by
          simp [regHandlerStep, hr, hrem]
        rw [hstep]
        unfold lazyInv
        rw [lazyQueues_regDispose]
        exact h
      · cases hk : reg.kind with
        | handlerReg hs =>
          obtain ⟨ow, tp, pr, rm, dis, kd⟩ := reg
          dsimp only at hk hrem
          subst hk
          have hlen : rid < m.regs.length := lt_length_of_getElem?_some hr
          unfold lazyInv regHandlerStep
          rw [hr]
          simp only [hrem]
          by_cases hpos : rm > 0 <;>
            simp [hpos, lazyQueues, emit, setReg, getReg, List.getElem?_set,
              List.length_set, hlen]
        | lazyReg dq pq isR =>
          have hq : lazyQueues m rid = some (dq, pq) := by
            simp only [lazyQueues, hr, hk]
          cases pq with
          | cons w ws =>
            have := regHandlerStep_lazy_waiter m rid reg dq w ws isR d hr hk hrem
            unfold lazyInv
            rw [this.1]
            unfold lazyInv at h
            rw [hq] at h
            rcases h with h | h
            · exact Or.inl h
            · cases h
          | nil =>
            have := regHandlerStep_lazy_buffer m rid reg dq isR d hr hk hrem
            unfold lazyInv
            rw [this.1]
            exact Or.inr rfl
  | pull =>
    show lazyInv ((lazyNext m rid).1) rid
    cases hr : getReg m rid with
    | none => simpa [lazyNext, hr] using h
    | some reg =>
      cases hk : reg.kind with
      | handlerReg hs =>
        simpa [lazyNext, hr, hk] using h
      | lazyReg dq pq isR =>
        have hq : lazyQueues m rid = some (dq, pq) := by
          simp only [lazyQueues, hr, hk]
        cases dq with
        | cons d rest =>
          have := lazyNext_value m rid reg d rest pq isR hr hk
          unfold lazyInv
          rw [this.1]
          unfold lazyInv at h
          rw [hq] at h
          rcases h with h | h
          · cases h
          · exact Or.inr h
        | nil =>
          cases hd : reg.isDisposed with
          | true =>
            have := lazyNext_disposed m rid reg pq isR hr hk hd
            rw [show (lazyNext m rid).1 = m from by rw [this]]
            exact h
          | false =>
            have := lazyNext_waiter m rid reg pq isR hr hk hd
            unfold lazyInv
            rw [this.1]
            exact Or.inl rfl
  | finish =>
    show lazyInv (lazyReturn m rid) rid
    cases hr : getReg (regDispose m rid) rid with
    | none =>
      have hlr : lazyReturn m rid = regDispose m rid := by
        unfold lazyReturn
        simp only [hr]
      rw [hlr]
      unfold lazyInv
      rw [lazyQueues_regDispose]
      exact h
    | some reg =>
      cases hk : reg.kind with
      | handlerReg hs =>
        have hlr : lazyReturn m rid = regDispose m rid := by
          unfold lazyReturn
          simp only [hr, hk]
        rw [hlr]
        unfold lazyInv
        rw [lazyQueues_regDispose]
        exact h
      | lazyReg dq pq isR =>
        have hlen : rid < ((regDispose m rid).regs).length := lt_length_of_getElem?_some hr
        have hlr : lazyReturn m rid =
            setReg
              { regDispose m rid with
                trace := (regDispose m rid).trace ++
                  pq.map (fun wid => Event.resolvedWaiter wid true none) }
              rid { reg with kind := .lazyReg dq [] isR } := by
          unfold lazyReturn
          simp only [hr, hk, foldl_emit_map]
        rw [hlr]
        unfold lazyInv lazyQueues
        rw [getReg_setReg_self _ _ _ (by simpa using hlen)]
        exact Or.inr rfl
  | fail e =>
    show lazyInv ((lazyThrow m rid e).1) rid
    cases hr : getReg (regDispose m rid) rid with
    | none =>
      have hlr : (lazyThrow m rid e).1 = regDispose m rid := by
        unfold lazyThrow
        simp only [hr]
      rw [hlr]
      unfold lazyInv
      rw [lazyQueues_regDispose]
      exact h
    | some reg =>
      cases hk : reg.kind with
      | handlerReg hs =>
        have hlr : (lazyThrow m rid e).1 = regDispose m rid := by
          unfold lazyThrow
          simp only [hr, hk]
        rw [hlr]
        unfold lazyInv
        rw [lazyQueues_regDispose]
        exact h
      | lazyReg dq pq isR =>
        have hlen : rid < ((regDispose m rid).regs).length := lt_length_of_getElem?_some hr
        have hlr : (lazyThrow m rid e).1 =
            setReg
              { regDispose m rid with
                trace := (regDispose m rid).trace ++
                  pq.map (fun wid => Event.rejectedWaiter wid e) }
              rid { reg with kind := .lazyReg dq [] isR } := by
          unfold lazyThrow
          simp only [hr, hk, foldl_emit_map]
        rw [hlr]
        unfold lazyInv lazyQueues
        rw [getReg_setReg_self _ _ _ (by simpa using hlen)]
        exact Or.inr rfl
  | disposeOp =>
    show lazyInv (regDispose m rid) rid
    unfold lazyInv
    rw [lazyQueues_regDispose]
    exact h

theorem lazyInv_lazyRun (m : Machine) (rid : Nat) (ops : List LazyOp)
    (h : lazyInv m rid) : lazyInv (lazyRun m rid ops) rid := by
  induction ops generalizing m with
  | nil => exact h
  | cons op ops ih => exact ih (lazyStep m rid op) (lazyInv_lazyStep m rid op h)

/-- C9: across any sequence of the operations that touch a lazy registration
(data arrival, pulls, termination, disposal), at most one of the data buffer
and the waiter queue is non-empty; arriving data goes to the oldest waiter
when one is queued and is buffered otherwise, and a pull enqueues a waiter
only when the buffer is empty (a non-empty buffer is popped instead). -/
theorem lazy_pressure_exclusion (m : Machine) (rid : Nat) (ops : List LazyOp)
    (h : lazyInv m rid) :
    lazyInv (lazyRun m rid ops) rid ∧
    (∀ (m' : Machine) (rid' : Nat) (reg : RegState) (dq : List Nat) (w : Nat)
      (ws : List Nat) (isR : Bool) (d : Nat),
      getReg m' rid' = some reg → reg.kind = .lazyReg dq (w :: ws) isR →
      reg.remaining ≠ 0 →
      lazyQueues ((regHandlerStep m' rid' d).1) rid' = some (dq, ws) ∧
      ((regHandlerStep m' rid' d).1).trace =
        m'.trace ++ [.resolvedWaiter w false (some d)]) ∧
    (∀ (m' : Machine) (rid' : Nat) (reg : RegState) (dq : List Nat) (isR : Bool)
      (d : Nat),
      getReg m' rid' = some reg → reg.kind = .lazyReg dq [] isR →
      reg.remaining ≠ 0 →
      lazyQueues ((regHandlerStep m' rid' d).1) rid' = some (dq ++ [d], []) ∧
      ((regHandlerStep m' rid' d).1).trace = m'.trace) ∧
    (∀ (m' : Machine) (rid' : Nat) (reg : RegState) (d : Nat) (rest pq : List Nat)
      (isR : Bool),
      getReg m' rid' = some reg → reg.kind = .lazyReg (d :: rest) pq isR →
      lazyQueues ((lazyNext m' rid').1) rid' = some (rest, pq) ∧
      (lazyNext m' rid').2 = .value d) ∧
    (∀ (m' : Machine) (rid' : Nat) (reg : RegState) (pq : List Nat) (isR : Bool),
      getReg m' rid' = some reg → reg.kind = .lazyReg [] pq isR →
      reg.isDisposed = false →
      lazyQueues ((lazyNext m' rid').1) rid' = some ([], pq ++ [m'.nextWaiterId]) ∧
      (lazyNext m' rid').2 = .waiting m'.nextWaiterId) := by
  refine ⟨lazyInv_lazyRun m rid ops h, ?_, ?_, ?_, ?_⟩
  · intro m' rid' reg dq w ws isR d hg hk hrem
    exact regHandlerStep_lazy_waiter m' rid' reg dq w ws isR d hg hk hrem
  · intro m' rid' reg dq isR d hg hk hrem
    exact regHandlerStep_lazy_buffer m' rid' reg dq isR d hg hk hrem
  · intro m' rid' reg d rest pq isR hg hk
    exact lazyNext_value m' rid' reg d rest pq isR hg hk
  · intro m' rid' reg pq isR hg hk hd
    exact lazyNext_waiter m' rid' reg pq isR hg hk hd

/-- Witness for the C9 theorem on a fresh lazy subscription driven through a
pull, two data arrivals, and termination. -/
theorem lazy_pressure_exclusion_witness :
    lazyQueues mC9base 0 = some ([], []) ∧
    lazyInv (lazyRun mC9base 0 [.pull, .arrive 3, .arrive 4, .pull, .finish]) 0 :=
  ⟨by decide, (lazy_pressure_exclusion mC9base 0
    [.pull, .arrive 3, .arrive 4, .pull, .finish]
    (by
      unfold lazyInv
      rw [show lazyQueues mC9base 0 = some ([], []) from by decide]
      exact Or.inl rfl)).1⟩

/-! #### Disposal cascade (C5) -/

theorem dfsOKb_sound (par : Nat → Option Nat) (cs : Nat → List Nat) (n : Nat) :
    ∀ (fuel : Nat) (avoid : List Nat) (v : Nat),
    dfsOKb par cs n fuel avoid v = true → dfsOK par cs n fuel avoid v := by
  intro fuel
  induction fuel with
  | zero =>
    intro avoid v hb
    exact absurd hb (by simp [dfsOKb])
  | succ f ih =>
    have seq : ∀ (kids : List Nat) (avoid : List Nat),
        dfsSeqOKbAux (dfsOKb par cs n f) (dfsOrder cs f) avoid kids = true →
        dfsSeqOK par cs n f avoid kids := by
      intro kids
      induction kids with
      | nil =>
        intro avoid _
        simp only [dfsSeqOK]
      | cons c rest ihk =>
        intro avoid hb
        simp only [dfsSeqOKbAux, Bool.and_eq_true] at hb
        simp only [dfsSeqOK]
        exact ⟨ih avoid c hb.1, ihk _ hb.2⟩
    intro avoid v hb
    simp only [dfsOKb, Bool.and_eq_true] at hb
    obtain ⟨⟨⟨h1, h2⟩, h3⟩, h4⟩ := hb
    simp only [dfsOK]
    refine ⟨of_decide_eq_true h1, ?_, ?_, seq (cs v) (avoid ++ [v]) h4⟩
    · simpa using h2
    · intro c hc
      have hbeq := List.all_eq_true.mp h3 c hc
      exact eq_of_beq hbeq

theorem subscribeImpl_disposed (m : Machine) (b : Nat) (bus : BusState) (t : Topic)
    (hs : Option HandlerSpec) (lim pri : Int)
    (hbus : getBus m b = some bus) (hdisp : bus.disposed = true) :
    subscribeImpl m b t hs lim pri = .error disposedError := by
  simp [subscribeImpl, hbus, hdisp]

theorem createChildBus_disposed (m : Machine) (b : Nat) (bus : BusState)
    (cl : Bool) (so : Option Bool)
    (hbus : getBus m b = some bus) (hdisp : bus.disposed = true) :
    createChildBus m b cl so = .error disposedError := by
  simp [createChildBus, hbus, hdisp]

theorem busDispose_disposed (m : Machine) (b : Nat) (bus : BusState) (fuel : Nat)
    (hbus : getBus m b = some bus) (hdisp : bus.disposed = true) :
    busDispose fuel m b = m := by
  cases fuel with
  | zero => rfl
  | succ f =>
    unfold busDispose
    rw [hbus]
    simp [hdisp]

/-- C5 (amended): on a quiescent tree of buses with a valid depth-first
disposal certificate rooted at bus 0, `dispose()` visits exactly the
depth-first disposal order — the root followed by each child subtree, every
reachable node exactly once and the node set closed under the child sets —
and leaves each visited bus disposed with empty children, listener, and
registry sets, its handler registration (the one reachable from its
registry) disposed; afterwards publish, subscribe, and child-bus creation on
any visited bus fail with `DisposedError`, and a second `dispose()` of any
visited bus, with any fuel, is a no-op (idempotence). -/
theorem dispose_cascade (par : Nat → Option Nat) (cs : Nat → List Nat)
    (n d fuel : Nat) (tr : List Event)
    (h : dfsOK par cs n fuel [] 0) (hroot : par 0 = none) :
    busDispose fuel (treeMachine par cs n d [] tr) 0 =
      killNodes par (treeMachine par cs n d [] tr) (dfsOrder cs fuel 0) ∧
    0 ∈ dfsOrder cs fuel 0 ∧
    (dfsOrder cs fuel 0).Nodup ∧
    (∀ w ∈ dfsOrder cs fuel 0, ∀ c ∈ cs w, c ∈ dfsOrder cs fuel 0) ∧
    (∀ w ∈ dfsOrder cs fuel 0,
      getBus (busDispose fuel (treeMachine par cs n d [] tr) 0) w =
        some (killBus par w) ∧
      getReg (busDispose fuel (treeMachine par cs n d [] tr) 0) w =
        some (killReg w)) ∧
    (∀ w : Nat, (killBus par w).disposed = true ∧ (killBus par w).registry = [] ∧
      (killBus par w).listeners = [] ∧ (killBus par w).children = [] ∧
      (killReg w).isDisposed = true) ∧
    (∀ w ∈ dfsOrder cs fuel 0, ∀ (t : Topic) (dd : Nat),
      publish (busDispose fuel (treeMachine par cs n d [] tr) 0) w t dd =
        .error disposedError) ∧
    (∀ w ∈ dfsOrder cs fuel 0, ∀ (t : Topic) (hs : Option HandlerSpec) (lim pri : Int),
      subscribeImpl (busDispose fuel (treeMachine par cs n d [] tr) 0) w t hs lim pri =
        .error disposedError) ∧
    (∀ w ∈ dfsOrder cs fuel 0, ∀ (cl : Bool) (so : Option Bool),
      createChildBus (busDispose fuel (treeMachine par cs n d [] tr) 0) w cl so =
        .error disposedError) ∧
    (∀ w ∈ dfsOrder cs fuel 0, ∀ fuel2 : Nat,
      busDispose fuel2 (busDispose fuel (treeMachine par cs n d [] tr) 0) w =
        busDispose fuel (treeMachine par cs n d [] tr) 0) := by
  have hlb : (treeMachine par cs n d [] tr).buses.length = n := by
    show ((List.range n).map (treeBus par cs d [])).length = n
    simp
  have hlr : (treeMachine par cs n d [] tr).regs.length = n := by
    show ((List.range n).map treeReg).length = n
    simp
  have hmemn : ∀ w ∈ dfsOrder cs fuel 0, w < n :=
    fun w hw => (dfs_nodes par cs n fuel [] 0 h w hw).1
  have hT : ∀ w ∈ dfsOrder cs fuel 0,
      getBus (treeMachine par cs n d [] tr) w = some (treeBus par cs d [] w) ∧
      getReg (treeMachine par cs n d [] tr) w = some (treeReg w) :=
    fun w hw => ⟨getBus_treeMachine par cs n d [] tr w (hmemn w hw),
      getReg_treeMachine par cs n d [] tr w (hmemn w hw)⟩
  have hpav : ∀ p, par 0 = some p → p ∈ ([] : List Nat) := by
    intro p hp
    rw [hroot] at hp
    exact Option.noConfusion hp
  have hsim : busDispose fuel (treeMachine par cs n d [] tr) 0 =
      killNodes par (treeMachine par cs n d [] tr) (dfsOrder cs fuel 0) := by
    have h2 := busDispose_sim par cs n d fuel (treeMachine par cs n d [] tr) [] 0 h hpav hT
    rw [hroot] at h2
    exact h2
  have hnd : (dfsOrder cs fuel 0).Nodup := dfs_nodup par cs n fuel [] 0 h
  have hkills : ∀ w ∈ dfsOrder cs fuel 0,
      getBus (busDispose fuel (treeMachine par cs n d [] tr) 0) w =
        some (killBus par w) ∧
      getReg (busDispose fuel (treeMachine par cs n d [] tr) 0) w =
        some (killReg w) := by
    intro w hw
    rw [hsim]
    exact ⟨getBus_killNodes_mem par _ _ w hw hnd (by rw [hlb]; exact hmemn w hw),
      getReg_killNodes_mem par _ _ w hw hnd (by rw [hlr]; exact hmemn w hw)⟩
  refine ⟨hsim, dfs_head par cs n fuel [] 0 h, hnd,
    fun w hw c hc => dfs_closed par cs n fuel [] 0 h w hw c hc,
    hkills,
    fun w => ⟨rfl, rfl, rfl, rfl, rfl⟩,
    fun w hw t dd => publish_disposed _ w (killBus par w) t dd (hkills w hw).1 rfl,
    fun w hw t hs lim pri =>
      subscribeImpl_disposed _ w (killBus par w) t hs lim pri (hkills w hw).1 rfl,
    fun w hw cl so =>
      createChildBus_disposed _ w (killBus par w) cl so (hkills w hw).1 rfl,
    fun w hw fuel2 =>
      busDispose_disposed _ w (killBus par w) fuel2 (hkills w hw).1 rfl⟩

/-- Witness for the C5 theorem on the concrete depth-2 tree `csEx`/`parEx`
(root 0 with children 1 and 2, node 1 with child 3). -/
theorem dispose_cascade_witness :
    dfsOK parEx csEx 4 5 [] 0 ∧ parEx 0 = none ∧
    busDispose 5 (treeMachine parEx csEx 4 7 [] []) 0 =
      killNodes parEx (treeMachine parEx csEx 4 7 [] []) (dfsOrder csEx 5 0) :=
  have hok : dfsOK parEx csEx 4 5 [] 0 :=
    dfsOKb_sound parEx csEx 4 5 [] 0 (by decide)
  ⟨hok, rfl, (dispose_cascade parEx csEx 4 7 5 [] hok rfl).1⟩

end EventBus
